import Mathlib

/-!
# Distributed file system: the front-end node `s1.c` and the storage nodes

A shallow embedding of the routing and forwarding code of the front-end
(`src/s1.c`) and of the request handling of a storage node (`src/s2.c`,
`src/s3.c`, `src/s4.c`), followed by the properties proved about it.

Conventions of the embedding.

* A C string is the list of its characters before the terminator; a byte on a
  socket or in a file is the character with that code.
* A fixed-size buffer written by `snprintf` keeps the first `size - 1`
  characters.  A `%s` conversion of `sscanf` that would overrun its buffer, a
  read of an uninitialised object and an out-of-bounds access are undefined
  behaviour and end the run with `Res.ub`.
* A socket is read through the list of events still to come; each `send` of a
  peer is delivered as one event, the framing the code itself relies on.
* `long` is 64 bits wide and little-endian, as on the x86-64 hosts the code is
  written for.
-/

namespace DFS

/-! ## Definitions -/

/-- Characters of a C string before its terminator; also raw bytes of a stream. -/
abbrev Str := List Char

/-- The constant `BUFSIZE` of every source file. -/
def BUFSIZE : Nat := 1024

/-- The string terminator. -/
def NUL : Char := Char.ofNat 0

/-- Outcome of running a piece of the program. -/
inductive Res (α : Type) where
  /-- the call returns -/
  | ok (a : α)
  /-- the call never returns: it loops for ever on a closed connection -/
  | hang
  /-- the C standard gives the run no meaning -/
  | ub
  deriving DecidableEq, Repr

/-- Apply a function to the value a run returns. -/
def Res.map {α β : Type} (f : α → β) : Res α → Res β
  | .ok a => .ok (f a)
  | .hang => .hang
  | .ub => .ub

/-- Run `g` on the value a run returns. -/
def Res.bind {α β : Type} (r : Res α) (g : α → Res β) : Res β :=
  match r with
  | .ok a => g a
  | .hang => .hang
  | .ub => .ub

/-! ### The C library -/

/-- The content of a buffer read as a C string: the bytes before the first terminator. -/
def cstr (bs : List Char) : Str := bs.takeWhile (fun c => c != NUL)

/-- The call `strcmp(a, b)`: the difference of the first characters that differ, as
unsigned characters, the terminator counting as 0; the comparison ends at a
terminator. -/
def strcmp : Str → Str → Int
  | [], [] => 0
  | [], b :: _ => 0 - (b.toNat : Int)
  | a :: _, [] => (a.toNat : Int)
  | a :: s, b :: t =>
    if a = b then (if a = NUL then 0 else strcmp s t)
    else (a.toNat : Int) - (b.toNat : Int)

/-- The call `strncmp(a, b, n)`: as `strcmp`, over at most `n` characters. -/
def strncmp : Str → Str → Nat → Int
  | _, _, 0 => 0
  | [], [], _ + 1 => 0
  | [], b :: _, _ + 1 => 0 - (b.toNat : Int)
  | a :: _, [], _ + 1 => (a.toNat : Int)
  | a :: s, b :: t, n + 1 =>
    if a = b then (if a = NUL then 0 else strncmp s t n)
    else (a.toNat : Int) - (b.toNat : Int)

/-- The call `strrchr(s, c)` for a character `c` other than the terminator: the part of
`s` from the last occurrence of `c`, or `none` for the null pointer. -/
def strrchr : Str → Char → Option Str
  | [], _ => none
  | a :: s, c =>
    match strrchr s c with
    | some t => some t
    | none => if a = c then some (a :: s) else none

/-- What `snprintf(buf, size, ...)` leaves in `buf` when the formatted text is `s`. -/
def snprintf (size : Nat) (s : Str) : Str := s.take (size - 1)

/-- The call `strncat(dst, src, n)`: at most `n` characters of `src` are appended. -/
def strncat (dst src : Str) (n : Nat) : Str := dst ++ src.take n

/-- The predicate `isspace` of the C locale. -/
def isspace (c : Char) : Bool :=
  c = ' ' || c = '\t' || c = '\n' || c = Char.ofNat 11 || c = Char.ofNat 12 || c = '\r'

/-- One `%s` conversion of `sscanf`: white space is skipped, then the longest run of
characters that are not white space is taken.  The result is the run and the rest of
the input; the conversion fails at the end of the input. -/
def scan_s (inp : Str) : Option (Str × Str) :=
  let r := inp.dropWhile isspace
  if r = [] then none
  else some (r.takeWhile (fun c => !isspace c), r.dropWhile (fun c => !isspace c))

/-- The call `sscanf(cmd, "<word> %s", a)`: the characters of `word` must match, the
blank of the format skips white space, then one `%s`.  The result is `none` when
nothing is stored in `a`. -/
def sscanf1 (word cmd : Str) : Option Str :=
  if cmd.take word.length = word then (scan_s (cmd.drop word.length)).map (fun r => r.1)
  else none

/-- The call `sscanf(cmd, "<word> %s %s", a, b)`: the strings stored in `a` and in `b`,
each `none` when the conversion did not take place. -/
def sscanf2 (word cmd : Str) : Option Str × Option Str :=
  if cmd.take word.length = word then
    match scan_s (cmd.drop word.length) with
    | none => (none, none)
    | some (a, rest) => (some a, (scan_s rest).map (fun r => r.1))
  else (none, none)

/-! ### The 8-byte size field -/

/-- The `k` low bytes of `u`, least significant first. -/
def leBytes : Nat → Nat → List Char
  | 0, _ => []
  | k + 1, u => Char.ofNat (u % 256) :: leBytes k (u / 256)

/-- The number whose bytes, least significant first, are `bs`. -/
def leNat : List Char → Nat
  | [] => 0
  | b :: bs => b.toNat + 256 * leNat bs

/-- The object representation of a `long` with value `v`. -/
def encodeLong (v : Int) : List Char := leBytes 8 (v % 2 ^ 64).toNat

/-- The value of a `long` that was 0 and whose first bytes were overwritten by `bs`
(at most 8 of them). -/
def decodeLong (bs : List Char) : Int :=
  let u := leNat (bs.take 8)
  if u < 2 ^ 63 then (u : Int) else (u : Int) - 2 ^ 64

/-! ### Sockets and files -/

/-- What one `recv` on a connection can meet. -/
inductive Ev where
  /-- bytes sent by the peer -/
  | data (bs : List Char)
  /-- the call fails and returns -1 (time-out, reset) -/
  | fail
  deriving DecidableEq, Repr

/-- The call `recv(sock, buf, max, 0)` on a connection that will deliver `inp`: the value
returned, the bytes stored in `buf` and what the connection will still deliver.  Bytes
beyond `max` stay in the connection.  When nothing is left the peer has closed and the
call returns 0, now and at every later call. -/
def recv (max : Nat) : List Ev → Int × List Char × List Ev
  | [] => (0, [], [])
  | .fail :: rest => (-1, [], rest)
  | .data bs :: rest =>
    if bs = [] then recv max rest
    else if bs.length ≤ max then ((bs.length : Int), bs, rest)
    else ((max : Int), bs.take max, .data (bs.drop max) :: rest)

/-- The file store: the content of the regular file at each absolute path. -/
abbrev FS := Str → Option (List Char)

/-- The store after `fopen(p, "wb")`, the writes of `c` and `fclose`. -/
def FS.write (fs : FS) (p : Str) (c : List Char) : FS :=
  fun q => if q = p then some c else fs q

/-- The store after `remove(p)`. -/
def FS.remove (fs : FS) (p : Str) : FS :=
  fun q => if q = p then none else fs q

/-- The blocks a loop `while ((n = fread(buf, 1, BUFSIZE, fp)) > 0)` reads from a file
with content `l`; `fuel` bounds the number of blocks and `l.length` is enough. -/
def fread_chunks : Nat → List Char → List (List Char)
  | 0, _ => []
  | fuel + 1, l =>
    if l = [] then [] else l.take BUFSIZE :: fread_chunks fuel (l.drop BUFSIZE)

/-- A storage node as the front-end meets it on one connection: from the file store and
the segments the front-end sent before it reads or closes, the store afterwards and
the events the front-end will receive. -/
abbrev Node := FS → List Str → FS × List Ev

/-- An entry of a directory: its name and whether `d_type` is `DT_REG`. -/
structure Dirent where
  d_name : Str
  is_reg : Bool
  deriving DecidableEq, Repr

/-- The environment of a worker of the front-end. -/
structure Env where
  /-- the result of `get_home_dir()` -/
  home : Str
  /-- the result of `getpid()` -/
  pid : Nat
  /-- whether `fopen(path, "wb")` succeeds, after the directories were made -/
  canCreate : Str → Bool
  /-- the node listening on a port of 127.0.0.1, `none` when `connect` fails -/
  node : Nat → Option Node
  /-- the entries `readdir` yields for a directory, `none` when `opendir` fails -/
  readdir : Str → Option (List Dirent)

/-- One connection the front-end opened to a node. -/
structure Conn where
  /-- the port -/
  port : Nat
  /-- whether `connect` succeeded -/
  connected : Bool
  /-- the bytes of each `send` on it, oldest first -/
  sent : List Str
  deriving DecidableEq, Repr

/-- The state a handler of the front-end works on. -/
structure St where
  /-- the file store -/
  fs : FS
  /-- what the client connection will still deliver -/
  cin : List Ev
  /-- the bytes of each `send` to the client, oldest first -/
  cout : List Str
  /-- the connections opened to nodes, oldest first -/
  conns : List Conn

/-- The call `send(client_sock, msg, len, 0)`. -/
def St.send (s : St) (msg : Str) : St := { s with cout := s.cout ++ [msg] }

/-- All bytes sent to the client so far. -/
def St.client_bytes (s : St) : List Char := s.cout.flatten

/-- The connection list after one more connection. -/
def St.connect (s : St) (c : Conn) : St := { s with conns := s.conns ++ [c] }

/-! ### The front-end: `handle_upload` and `forward_file` -/

/-- The test `ext && strcmp(ext, e) == 0` on the result of `strrchr`. -/
def ext_is (ext : Option Str) (e : Str) : Bool :=
  match ext with
  | some x => strcmp x e = 0
  | none => false

/-- The loop `while (received < filesize) { n = recv(..., BUFSIZE, 0); fwrite(buffer, 1, n,
fp); received += n; }` of `handle_upload` and of `save_file`: the bytes written and what
the connection still holds.  A `recv` that returns 0 leaves `received` as it is, and
every later one returns 0 too, so the loop never ends; one that returns -1 makes `fwrite`
read past the buffer.  Every other pass adds at least 1 to `received`, so
`filesize - received` passes are enough: that bound is the `fuel`. -/
def recv_loop : Nat → Int → Int → List Char → List Ev → Res (List Char × List Ev)
  | 0, _, _, acc, inp => .ok (acc, inp)
  | fuel + 1, filesize, received, acc, inp =>
    if received < filesize then
      match recv BUFSIZE inp with
      | (n, data, inp1) =>
        if n = 0 then .hang
        else if n < 0 then .ub
        else recv_loop fuel filesize (received + n) (acc ++ data) inp1
    else .ok (acc, inp)

/-- The function `forward_file(filepath, dest_path, port)`. -/
def forward_file (env : Env) (filepath dest_path : Str) (port : Nat) (s : St) : St :=
  match env.node port with
  | none => s.connect ⟨port, false, []⟩
  | some nd =>
    let cmd := snprintf BUFSIZE ("uploadf ".toList ++ dest_path)
    match s.fs filepath with
    | none => { s with fs := (nd s.fs [cmd]).1 }.connect ⟨port, true, [cmd]⟩
    | some content =>
      let sent := cmd :: encodeLong content.length :: fread_chunks content.length content
      { s with fs := (nd s.fs sent).1 }.connect ⟨port, true, sent⟩

/-- The port `handle_upload` picks for a file name with extension `ext`, `none` in its
final `else`. -/
def upload_port (ext : Option Str) : Option Nat :=
  if ext_is ext ".pdf".toList then some 7100
  else if ext_is ext ".txt".toList then some 7200
  else if ext_is ext ".zip".toList then some 7300
  else none

/-- The path `temp_path` of `handle_upload`: `"/tmp/forwarded_%d_%s"` with `getpid()` and
the file name. -/
def temp_path (env : Env) (filename : Str) : Str :=
  snprintf BUFSIZE
    ("/tmp/forwarded_".toList ++ Nat.toDigits 10 env.pid ++ "_".toList ++ filename)

/-- The function `handle_upload(client_sock, cmd)`. -/
def handle_upload (env : Env) (cmd : Str) (s : St) : Res St :=
  match sscanf2 "uploadf".toList cmd with
  | (some filename, some dest_path) =>
    if 256 ≤ filename.length ∨ 512 ≤ dest_path.length then .ub
    else if strncmp dest_path "~S1".toList 3 ≠ 0 then
      .ok (s.send "Destination must start with ~S1.\n".toList)
    else
      match recv 8 s.cin with
      | (n, hdr, cin1) =>
        if n ≠ 8 then .ub
        else
          let filesize := decodeLong hdr
          let ext := strrchr filename '.'
          if ext_is ext ".c".toList then
            let save_path := snprintf BUFSIZE
              (env.home ++ "/".toList ++ dest_path.drop 1 ++ "/".toList ++ filename)
            if env.canCreate save_path then
              match recv_loop filesize.toNat filesize 0 [] cin1 with
              | .ok (content, cin2) =>
                .ok ({ s with fs := s.fs.write save_path content, cin := cin2 }.send
                  "File stored successfully.\n".toList)
              | .hang => .hang
              | .ub => .ub
            else .ok ({ s with cin := cin1 }.send "Failed to save file.\n".toList)
          else
            let temp_path := temp_path env filename
            if env.canCreate temp_path then
              match recv_loop filesize.toNat filesize 0 [] cin1 with
              | .ok (content, cin2) =>
                let s1 : St := { s with fs := s.fs.write temp_path content, cin := cin2 }
                match upload_port ext with
                | none =>
                  let s2 := s1.send "Unsupported file type.\n".toList
                  .ok { s2 with fs := s2.fs.remove temp_path }
                | some port =>
                  let target_path := snprintf BUFSIZE
                    ("~S".toList ++ Nat.toDigits 10
                        (if port = 7100 then 2 else if port = 7200 then 3 else 4)
                      ++ dest_path.drop 3 ++ "/".toList ++ filename)
                  let s2 := forward_file env temp_path target_path port s1
                  .ok ({ s2 with fs := s2.fs.remove temp_path }.send
                    "File stored successfully.\n".toList)
              | .hang => .hang
              | .ub => .ub
            else
              .ok ({ s with cin := cin1 }.send
                "Failed to save file to temporary location.\n".toList)
  | _ => .ub

/-! ### The front-end: `handle_download` and `handle_remove` -/

/-- The loop of `handle_download` that relays the file: `while (received < fsize) { n =
recv(sock, buffer, BUFSIZE, 0); if (n <= 0) break; send(client_sock, buffer, n, 0);
received += n; }`, as the list of blocks sent to the client after `out`.  Every pass
that goes on adds at least 1 to `received`; `fuel` is the bound `fsize - received`. -/
def relay_loop : Nat → Int → Int → List Ev → List Str → List Str
  | 0, _, _, _, out => out
  | fuel + 1, fsize, received, inp, out =>
    if received < fsize then
      match recv BUFSIZE inp with
      | (n, data, inp1) =>
        if n ≤ 0 then out
        else relay_loop fuel fsize (received + n) inp1 (out ++ [data])
    else out

/-- The function `handle_download(client_sock, cmd)`.  A failure of `socket()` is not
told apart from a failure of `connect()`: both send the error size and return. -/
def handle_download (env : Env) (cmd : Str) (s : St) : Res St :=
  match sscanf1 "downlf".toList cmd with
  | none => .ub
  | some filepath =>
    if 512 ≤ filepath.length then .ub
    else
      let err := encodeLong (-1)
      match strrchr filepath '.' with
      | none => .ok (s.send err)
      | some ext =>
        if strcmp ext ".c".toList = 0 then
          let real_path := snprintf 512 (env.home ++ "/".toList ++ filepath.drop 1)
          match s.fs real_path with
          | none => .ok (s.send err)
          | some content =>
            let out := encodeLong content.length :: fread_chunks content.length content
            .ok { s with cout := s.cout ++ out }
        else
          let route : Option (Nat × Str) :=
            if strcmp ext ".pdf".toList = 0 then
              some (7100, snprintf 512 ("~S2".toList ++ filepath.drop 3))
            else if strcmp ext ".txt".toList = 0 then
              some (7200, snprintf 512 ("~S3".toList ++ filepath.drop 3))
            else if strcmp ext ".zip".toList = 0 then
              some (7300, snprintf 512 ("~S4".toList ++ filepath.drop 3))
            else none
          match route with
          | none => .ok (s.send err)
          | some (port, corrected_path) =>
            match env.node port with
            | none => .ok ((s.connect ⟨port, false, []⟩).send err)
            | some nd =>
              let get_cmd := snprintf 512 ("downlf ".toList ++ corrected_path)
              let s1 : St := { s with fs := (nd s.fs [get_cmd]).1 }.connect
                ⟨port, true, [get_cmd]⟩
              match recv 8 (nd s.fs [get_cmd]).2 with
              | (n, hdr, inp1) =>
                if n ≤ 0 then .ok (s1.send err)
                else
                  let fsize := decodeLong hdr
                  if fsize ≤ 0 then .ok (s1.send err)
                  else
                    let out := relay_loop fsize.toNat fsize 0 inp1 (s1.cout ++ [encodeLong fsize])
                    .ok { s1 with cout := out }

/-- The function `handle_remove(client_sock, cmd)`.  The call `remove` succeeds exactly
when the file is in the store.  The reply buffer has 256 bytes, all 0 before the `recv`;
`strlen` runs past it when all 256 were overwritten by bytes other than 0. -/
def handle_remove (env : Env) (cmd : Str) (s : St) : Res St :=
  match sscanf1 "removef".toList cmd with
  | none => .ub
  | some filepath =>
    if 512 ≤ filepath.length then .ub
    else
      match strrchr filepath '.' with
      | none => .ok (s.send "Invalid file extension.\n".toList)
      | some ext =>
        if strcmp ext ".c".toList = 0 then
          let local_path := snprintf 512 (env.home ++ "/".toList ++ filepath.drop 1)
          match s.fs local_path with
          | some _ => .ok ({ s with fs := s.fs.remove local_path }.send "File deleted.\n".toList)
          | none => .ok (s.send "File not found or cannot delete.\n".toList)
        else
          let route : Option (Nat × Str) :=
            if strcmp ext ".pdf".toList = 0 then
              some (7100, snprintf 512 ("~S2".toList ++ filepath.drop 3))
            else if strcmp ext ".txt".toList = 0 then
              some (7200, snprintf 512 ("~S3".toList ++ filepath.drop 3))
            else if strcmp ext ".zip".toList = 0 then
              some (7300, snprintf 512 ("~S4".toList ++ filepath.drop 3))
            else none
          match route with
          | none => .ok (s.send "Unsupported file type.\n".toList)
          | some (port, corrected_path) =>
            match env.node port with
            | none => .ok ((s.connect ⟨port, false, []⟩).send "Cannot connect.\n".toList)
            | some nd =>
              let del_cmd := snprintf 512 ("removef ".toList ++ corrected_path)
              let s1 : St := { s with fs := (nd s.fs [del_cmd]).1 }.connect
                ⟨port, true, [del_cmd]⟩
              let reply := (recv 256 (nd s.fs [del_cmd]).2).2.1
              if reply.length = 256 ∧ NUL ∉ reply then .ub
              else .ok (s1.send (cstr reply))

/-! ### The front-end: `handle_dispfnames` -/

/-- The function `collect_files_from_server(path, port, buffer)`: the value returned and
the C string left in `buffer`, which held `tmp` before.  The terminator is written at
index `n`, outside the buffer of `BUFSIZE` bytes when `recv` filled it. -/
def collect_files_from_server (env : Env) (path : Str) (port : Nat) (tmp : Str) (s : St) :
    Res (Bool × Str × St) :=
  match env.node port with
  | none => .ok (false, tmp, s.connect ⟨port, false, []⟩)
  | some nd =>
    let cmd := snprintf BUFSIZE ("dispfnames ".toList ++ path)
    let s1 : St := { s with fs := (nd s.fs [cmd]).1 }.connect ⟨port, true, [cmd]⟩
    match recv BUFSIZE (nd s.fs [cmd]).2 with
    | (n, data, _) =>
      let n1 := if n < 0 then 0 else n
      if BUFSIZE ≤ n1 then .ub
      else .ok (true, cstr data, s1)

/-- The order `cmp_str` gives `qsort`: `strcmp(a, b) <= 0`. -/
def cmp_le (a b : Str) : Prop := strcmp a b ≤ 0

instance : DecidableRel cmp_le := fun a b => inferInstanceAs (Decidable (strcmp a b ≤ 0))

/-- The array after `qsort(arr, count, sizeof(char*), cmp_str)`.  The library promises
only that the result is a rearrangement of the array in the order of `cmp_str`; that
order is total and two strings compare equal only when they are the same string, so
there is one such result, computed here by insertion. -/
def qsort (arr : List Str) : List Str := arr.insertionSort cmp_le

/-- The pieces of a string between its line feeds, empty ones included. -/
def split_nl : Str → List Str
  | [] => [[]]
  | c :: s =>
    if c = '\n' then [] :: split_nl s
    else
      match split_nl s with
      | [] => [[c]]
      | t :: ts => (c :: t) :: ts

/-- The tokens the loop `token = strtok(buf, "\n"); while (token != NULL && count < 1024)
{ arr[count++] = token; token = strtok(NULL, "\n"); }` collects: the non-empty pieces,
at most 1024 of them. -/
def strtok_all (buf : Str) : List Str :=
  ((split_nl buf).filter (fun t => t != [])).take 1024

/-- The string built by `for (i...) { strncat(out, arr[i], BUFSIZE - strlen(out) - 1);
strncat(out, "\n", BUFSIZE - strlen(out) - 1); }` from the empty string. -/
def cat_names (arr : List Str) : Str :=
  arr.foldl (fun out nm =>
    let out1 := strncat out nm (BUFSIZE - out.length - 1)
    strncat out1 "\n".toList (BUFSIZE - out1.length - 1)) []

/-- The names the directory loop of `handle_dispfnames` stores in `c_names`. -/
def local_c_names (env : Env) (local_dir : Str) : List Str :=
  match env.readdir local_dir with
  | none => []
  | some es =>
    (es.filter (fun e => e.is_reg && ext_is (strrchr e.d_name '.') ".c".toList)).map
      (fun e => e.d_name)

/-- The block that `handle_dispfnames` repeats for `pdf_files`, `txt_files` and
`zip_files`: the tokens are collected, sorted and concatenated. -/
def group_of (files : Str) : Str := cat_names (qsort (strtok_all files))

/-- The three calls of `collect_files_from_server` through the shared buffer `tmp`, with
the copies into `pdf_files`, `txt_files` and `zip_files`, each made only when its call
returned 1 and empty otherwise. -/
def dispf_lists (env : Env) (dirpath : Str) (s : St) : Res (Str × Str × Str × St) :=
  let pdf_path := snprintf 512 ("~S2".toList ++ dirpath.drop 3)
  let txt_path := snprintf 512 ("~S3".toList ++ dirpath.drop 3)
  let zip_path := snprintf 512 ("~S4".toList ++ dirpath.drop 3)
  (collect_files_from_server env pdf_path 7100 [] s).bind fun c1 =>
  (collect_files_from_server env txt_path 7200 c1.2.1 c1.2.2).bind fun c2 =>
  (collect_files_from_server env zip_path 7300 c2.2.1 c2.2.2).map fun c3 =>
    (if c1.1 then c1.2.1 else [], if c2.1 then c2.2.1 else [],
      if c3.1 then c3.2.1 else [], c3.2.2)

/-- The four strings `c_files`, `sorted_pdf`, `sorted_txt`, `sorted_zip` that
`handle_dispfnames` builds, and the state after the three nodes were asked.  Reading
`dirpath + 3` needs three characters before the terminator; `c_names` has room for 1024
names. -/
def dispf_groups (env : Env) (cmd : Str) (s : St) : Res (Str × Str × Str × Str × St) :=
  match sscanf1 "dispfnames".toList cmd with
  | none => .ub
  | some dirpath =>
    if 512 ≤ dirpath.length ∨ dirpath.length < 3 then .ub
    else
      let local_dir := snprintf 512 (env.home ++ "/".toList ++ dirpath.drop 1)
      let c_names := local_c_names env local_dir
      if 1024 < c_names.length then .ub
      else
        (dispf_lists env dirpath s).map fun l =>
          (cat_names (qsort c_names), group_of l.1, group_of l.2.1, group_of l.2.2.1,
            l.2.2.2)

/-- The function `handle_dispfnames(client_sock, cmd)`. -/
def handle_dispfnames (env : Env) (cmd : Str) (s : St) : Res St :=
  match dispf_groups env cmd s with
  | .ok (c_files, sorted_pdf, sorted_txt, sorted_zip, s3) =>
    let final := c_files ++ sorted_pdf ++ sorted_txt ++ sorted_zip
    if final.length = 0 then .ok (s3.send "No files found in the specified path.\n".toList)
    else .ok (s3.send final)
  | .hang => .hang
  | .ub => .ub

/-- What a call `system(tar_cmd)` leaves behind: the content of the archive file and of
the list file the command writes (`cfiles.tar` and `cfiles.list` in `handle_downltar`),
each `none` when the file is absent after the call. -/
structure TarRun where
  /-- Content of the archive file after the call. -/
  archive : Option (List Char)
  /-- Content of the list file after the call. -/
  list : Option (List Char)

/-- The store with the file `p` set to `c`, absent for `none`. -/
def FS.set (fs : FS) (p : Str) (c : Option (List Char)) : FS :=
  fun q => if q = p then c else fs q

/-! ### A storage node: `handle_client` and the five functions it calls -/

/-- What differs between `s2.c`, `s3.c` and `s4.c` in the functions modelled here. -/
structure NodeCfg where
  /-- the result of `get_home_dir()` in the node -/
  home : Str
  /-- whether `save_file` returns when the `recv` of the size yields 0 or less (`s2.c`) -/
  checks_size : Bool
  /-- the reply of `delete_file` after a successful `remove` -/
  msg_removed : Str
  /-- the reply of `delete_file` otherwise -/
  msg_missing : Str
  /-- whether `fopen(path, "wb")` succeeds in the node, after `mkdir -p` -/
  canCreate : Str → Bool
  /-- the suffix `list_files` keeps: `.pdf`, `.txt` or `.zip` -/
  suffix : Str
  /-- the path of the archive file of `send_tar` -/
  tmpTar : Str
  /-- the path of the list file of `send_tar` (`s2.c`, `s3.c`; `s4.c` has none) -/
  tmpList : Option Str
  /-- what the `tar` command of `send_tar` leaves for a file store -/
  tar : FS → TarRun
  /-- the entries `readdir` yields for a directory of the node, `none` when `opendir`
  fails -/
  readdir : Str → Option (List Dirent)

/-- The function `save_file(sock, path)`: the file store afterwards.  It sends nothing.
The directories are made by `mkdir -p` before the `fopen`, whose outcome is
`cfg.canCreate`; the first `snprintf` into `cmd` in `s2.c`, which formats `cmd` itself
and is overwritten by the next line, is left out. -/
def save_file (cfg : NodeCfg) (path : Str) (fs : FS) (inp : List Ev) : Res FS :=
  match recv 8 inp with
  | (n, hdr, inp1) =>
    if cfg.checks_size ∧ n ≤ 0 then .ok fs
    else if n ≠ 8 then .ub
    else
      let fsize := decodeLong hdr
      let full_path := snprintf BUFSIZE (cfg.home ++ "/".toList ++ path)
      if cfg.canCreate full_path then
        match recv_loop fsize.toNat fsize 0 [] inp1 with
        | .ok (content, _) => .ok (fs.write full_path content)
        | .hang => .hang
        | .ub => .ub
      else .ok fs

/-- The function `send_file(sock, path)`: the bytes of each `send`. -/
def send_file (cfg : NodeCfg) (path : Str) (fs : FS) : List Str :=
  let full_path := snprintf BUFSIZE (cfg.home ++ "/".toList ++ path)
  match fs full_path with
  | none => [encodeLong 0]
  | some content => encodeLong content.length :: fread_chunks content.length content

/-- The function `delete_file(sock, path)`: the store afterwards and the reply. -/
def delete_file (cfg : NodeCfg) (path : Str) (fs : FS) : FS × List Str :=
  let full_path := snprintf BUFSIZE (cfg.home ++ "/".toList ++ path)
  match fs full_path with
  | some _ => (fs.remove full_path, [cfg.msg_removed])
  | none => (fs, [cfg.msg_missing])

/-- The function `send_tar(sock)`: the store afterwards and the bytes of each `send`.
The archive and the list file are what the `tar` command left; the size 0 is sent when
the archive cannot be opened, else the size and the blocks of the archive, after which
both files are removed. -/
def send_tar (cfg : NodeCfg) (fs : FS) : FS × List Str :=
  let run := cfg.tar fs
  let fs0 : FS := match cfg.tmpList with
    | some l => fs.set l run.list
    | none => fs
  let fs1 := fs0.set cfg.tmpTar run.archive
  match run.archive with
  | none => (fs1, [encodeLong 0])
  | some content =>
    let fs2 := fs1.remove cfg.tmpTar
    let fs3 : FS := match cfg.tmpList with
      | some l => fs2.remove l
      | none => fs2
    (fs3, encodeLong content.length :: fread_chunks content.length content)

/-- The function `list_files(sock, dirpath)`: the bytes of each `send`.  Nothing is sent
when `opendir` fails.  The names are joined by `strcat` into `result[BUFSIZE]`, which
they overrun when they take `BUFSIZE` bytes or more with their line feeds. -/
def list_files (cfg : NodeCfg) (dirpath : Str) : Res (List Str) :=
  let full_dir := snprintf BUFSIZE (cfg.home ++ "/".toList ++ dirpath)
  match cfg.readdir full_dir with
  | none => .ok []
  | some entries =>
    let names := (entries.filter (fun d =>
      d.is_reg && ext_is (strrchr d.d_name '.') cfg.suffix)).map (fun d => d.d_name)
    let result := names.flatMap (fun nm => nm ++ "\n".toList)
    if BUFSIZE ≤ result.length then .ub else .ok [result]

/-- The function `handle_client(sock)` of a node: the store afterwards and the bytes of
each `send`.  The command buffer has `BUFSIZE` bytes, all 0 before the `recv`; a `%s`
that stores nothing leaves the path uninitialised. -/
def handle_client (cfg : NodeCfg) (fs : FS) (inp : List Ev) : Res (FS × List Str) :=
  match recv BUFSIZE inp with
  | (_, data, inp1) =>
    if data.length = BUFSIZE ∧ NUL ∉ data then .ub
    else
      let buffer := cstr data
      if strncmp buffer "uploadf ".toList 8 = 0 then
        match sscanf1 "uploadf".toList buffer with
        | none => .ub
        | some filepath =>
          if 512 ≤ filepath.length then .ub
          else (save_file cfg (filepath.drop 1) fs inp1).map (fun fs1 => (fs1, []))
      else if strncmp buffer "downlf ".toList 7 = 0 then
        match sscanf1 "downlf".toList buffer with
        | none => .ub
        | some filepath =>
          if 512 ≤ filepath.length then .ub
          else .ok (fs, send_file cfg (filepath.drop 1) fs)
      else if strncmp buffer "removef ".toList 8 = 0 then
        match sscanf1 "removef".toList buffer with
        | none => .ub
        | some filepath =>
          if 512 ≤ filepath.length then .ub
          else .ok (delete_file cfg (filepath.drop 1) fs)
      else if strncmp buffer "downltar ".toList 9 = 0 then .ok (send_tar cfg fs)
      else if strncmp buffer "dispfnames ".toList 11 = 0 then
        match sscanf1 "dispfnames".toList buffer with
        | none => .ub
        | some path =>
          if 512 ≤ path.length then .ub
          else (list_files cfg (path.drop 1)).map (fun out => (fs, out))
      else .ok (fs, [])

/-- The node as the front-end meets it: every `send` of the front-end arrives as one
segment, and every `send` of the node likewise.  A node that does not return answers
nothing and leaves the store as it was. -/
def node_of (cfg : NodeCfg) : Node := fun fs sent =>
  match handle_client cfg fs (sent.map Ev.data) with
  | .ok (fs1, out) => (fs1, out.map Ev.data)
  | .hang => (fs, [])
  | .ub => (fs, [])

/-! ### Tokens and an example environment -/

/-- A string that one `%s` conversion reads whole: not empty, without white space and
without the terminator. -/
def is_token (t : Str) : Bool := t != [] && t.all (fun c => !isspace c && c != NUL)

/-- A node of the examples: `s2.c` with home directory `/home/u`, in which every file can
be created, no directory can be opened and the `tar` command leaves no archive.  The
replies of `delete_file` in `s2.c` begin with the three bytes of a check mark and of a
cross mark in UTF-8. -/
def ex_cfg : NodeCfg where
  home := "/home/u".toList
  checks_size := true
  msg_removed := [Char.ofNat 0xE2, Char.ofNat 0x9C, Char.ofNat 0x85]
    ++ " File removed.\n".toList
  msg_missing := [Char.ofNat 0xE2, Char.ofNat 0x9D, Char.ofNat 0x8C]
    ++ " File not found.\n".toList
  canCreate := fun _ => true
  suffix := ".pdf".toList
  tmpTar := "/home/u/pdffiles.tar".toList
  tmpList := some "/home/u/pdffiles.list".toList
  tar := fun _ => ⟨none, none⟩
  readdir := fun _ => none

/-- The environment of the examples: home directory `/home/u`, process 4242, every file
can be created, each of the three ports is served by the node `ex_cfg`, no directory can
be opened. -/
def ex_env : Env where
  home := "/home/u".toList
  pid := 4242
  canCreate := fun _ => true
  node := fun p => if p = 7100 ∨ p = 7200 ∨ p = 7300 then some (node_of ex_cfg) else none
  readdir := fun _ => none

/-- The environment of the examples with no node listening. -/
def ex_env_down : Env where
  home := "/home/u".toList
  pid := 4242
  canCreate := fun _ => true
  node := fun _ => none
  readdir := fun _ => none

/-- The state of the examples: an empty file store, nothing sent yet, and `cin` still to
come from the client. -/
def ex_st (cin : List Ev) : St := { fs := fun _ => none, cin := cin, cout := [], conns := [] }

/-- A path of 509 characters: `~S1/`, a directory of 250 characters, `/`, and a file name
of 254 characters ending in `.pdf`. -/
def long_path : Str :=
  "~S1/".toList ++ List.replicate 250 'd' ++ "/".toList ++ List.replicate 250 'f'
    ++ ".pdf".toList

/-- The text of a list of names, each followed by a line feed. -/
def lines_of (names : List Str) : Str := names.flatMap (fun nm => nm ++ ['\n'])

/-- A node that answers every request with the one segment `text`. -/
def answer_node (text : Str) : Node := fun fs _ => (fs, [Ev.data text])

/-- The environment of the listing examples: the directory `/home/u/S1/docs` holds the
regular files `b.c`, `notes.txt` and `a.c` and an entry `old.c` that is not a regular
file; the node on port 7100 answers `z.pdf` and a line feed, no node listens on port
7200, the node on port 7300 closes without an answer. -/
def ex_env_list : Env where
  home := "/home/u".toList
  pid := 4242
  canCreate := fun _ => true
  node := fun p =>
    if p = 7100 then some (answer_node "z.pdf\n".toList)
    else (if p = 7300 then some (fun fs _ => (fs, [])) else none)
  readdir := fun dir =>
    if dir = "/home/u/S1/docs".toList then
      some [⟨"b.c".toList, true⟩, ⟨"notes.txt".toList, true⟩, ⟨"a.c".toList, true⟩,
        ⟨"old.c".toList, false⟩]
    else none

/-- The state after `handle_dispfnames` asked the nodes of `ex_env_list` about
`~S1/docs`, before the reply is sent. -/
def ex_st_list : St where
  fs := fun _ => none
  cin := []
  cout := []
  conns := [⟨7100, true, ["dispfnames ~S2/docs".toList]⟩, ⟨7200, false, []⟩,
    ⟨7300, true, ["dispfnames ~S4/docs".toList]⟩]

/-- Five file names of 255 characters each: 253 times a letter, then `.c`. -/
def big_names : List Str :=
  ['e', 'd', 'c', 'b', 'a'].map (fun c => List.replicate 253 c ++ ".c".toList)

/-- An environment whose directories hold the first `k` of `big_names` as regular files,
with no node listening. -/
def ex_env_big (k : Nat) : Env where
  home := "/home/u".toList
  pid := 4242
  canCreate := fun _ => true
  node := fun _ => none
  readdir := fun _ => some ((big_names.take k).map (fun nm => ⟨nm, true⟩))

/-- The text of a listing whose local names are `names` and whose nodes answered `r1`,
`r2` and `r3` (pdf, txt, zip): the four groups in that order, each the first 1023 bytes
of its names in sorted order with a line feed after each name. -/
def listing_text (names : List Str) (r1 r2 r3 : Str) : Str :=
  (lines_of (qsort names)).take 1023 ++ (lines_of (qsort (strtok_all r1))).take 1023
    ++ (lines_of (qsort (strtok_all r2))).take 1023
    ++ (lines_of (qsort (strtok_all r3))).take 1023

/-! ### A node that fails during a listing -/

/-- How a node shows that it cannot serve a listing: `connect` fails, or the `recv` of
its answer fails or times out (it returns -1), whatever was sent. -/
def node_fails (nd : Option Node) : Prop :=
  match nd with
  | none => True
  | some n => ∀ (fs : FS) (req : List Str), (recv BUFSIZE (n fs req).2).1 < 0

/-- The node that takes the request as `nd` does and answers with an empty list: it closes
the connection without sending a byte. -/
def silent (nd : Option Node) : Node := fun fs req =>
  match nd with
  | none => (fs, [])
  | some n => ((n fs req).1, [])

/-- The environment with the node of one port replaced. -/
def Env.with_node (env : Env) (port : Nat) (nd : Option Node) : Env :=
  { env with node := fun q => if q = port then nd else env.node q }

/-- The group of the node on a port among the four groups of a listing. -/
def group_at (port : Nat) (g : Str × Str × Str × Str) : Str :=
  if port = 7100 then g.2.1 else if port = 7200 then g.2.2.1 else g.2.2.2

/-- The four groups of a listing. -/
def groups4 (g : Str × Str × Str × Str × St) : Str × Str × Str × Str :=
  (g.1, g.2.1, g.2.2.1, g.2.2.2.1)

/-- Two runs of `collect_files_from_server` end alike: both undefined, or both return
with the same list for the caller, the same file store and the same traffic with the
client. -/
def collect_alike (x y : Res (Bool × Str × St)) : Prop :=
  match x, y with
  | .ok c, .ok d =>
    (if c.1 then c.2.1 else []) = (if d.1 then d.2.1 else []) ∧ c.2.2.fs = d.2.2.fs
      ∧ c.2.2.cout = d.2.2.cout ∧ c.2.2.cin = d.2.2.cin
  | .ub, .ub => True
  | .hang, .hang => True
  | _, _ => False

/-- Two runs of `dispf_lists` end alike: both undefined, or both return the same three
lists and the same traffic with the client. -/
def lists_alike (x y : Res (Str × Str × Str × St)) : Prop :=
  match x, y with
  | .ok c, .ok d =>
    c.1 = d.1 ∧ c.2.1 = d.2.1 ∧ c.2.2.1 = d.2.2.1 ∧ c.2.2.2.cout = d.2.2.2.cout
  | .ub, .ub => True
  | .hang, .hang => True
  | _, _ => False

/-- Two runs of `dispf_groups` end alike: both undefined, or both return the same four
groups and the same traffic with the client. -/
def groups_alike (x y : Res (Str × Str × Str × Str × St)) : Prop :=
  match x, y with
  | .ok c, .ok d => groups4 c = groups4 d ∧ c.2.2.2.2.cout = d.2.2.2.2.cout
  | .ub, .ub => True
  | .hang, .hang => True
  | _, _ => False

/-- The root marker of a destination: the text before its first `/`. -/
def root_marker (d : Str) : Str := d.takeWhile (fun c => c != '/')

/-! ### The front-end: `handle_downltar` -/

/-- The function `handle_downltar(client_sock, cmd)`.  The buffer `filetype` has 10
bytes.  The call `socket()` is taken to succeed.  The size `fsize` of the remote branch
is not initialised, so a `recv` of 1 to 7 bytes leaves it partly undefined. -/
def handle_downltar (env : Env) (tar : TarRun) (cmd : Str) (s : St) : Res St :=
  match sscanf1 "downltar".toList cmd with
  | none => .ub
  | some filetype =>
    if 10 ≤ filetype.length then .ub
    else if strcmp filetype ".c".toList = 0 then
      let tmpTar := snprintf BUFSIZE (env.home ++ "/cfiles.tar".toList)
      let tmpList := snprintf BUFSIZE (env.home ++ "/cfiles.list".toList)
      let fs1 := (s.fs.set tmpList tar.list).set tmpTar tar.archive
      match tar.archive with
      | none => .ok ({ s with fs := fs1 }.send "Could not create cfiles.tar.\n".toList)
      | some content =>
        let fs2 := (fs1.remove tmpTar).remove tmpList
        if content.length = 0 then
          .ok ({ s with fs := fs2 }.send "No .c files found to create tar archive.\n".toList)
        else
          let out := encodeLong content.length :: fread_chunks content.length content
          .ok { s with fs := fs2, cout := s.cout ++ out }
    else if strcmp filetype ".pdf".toList = 0 ∨ strcmp filetype ".txt".toList = 0 then
      let port := if strcmp filetype ".pdf".toList = 0 then 7100 else 7200
      match env.node port with
      | none =>
        .ok ((s.connect ⟨port, false, []⟩).send "Cannot connect to backend server.\n".toList)
      | some nd =>
        let cmd2 := snprintf 32 ("downltar ".toList ++ filetype)
        let s1 : St := { s with fs := (nd s.fs [cmd2]).1 }.connect ⟨port, true, [cmd2]⟩
        match recv 8 (nd s.fs [cmd2]).2 with
        | (n, hdr, inp1) =>
          if n ≤ 0 then
            .ok (s1.send "Failed to receive file size from backend server.\n".toList)
          else if n < 8 then .ub
          else
            let fsize := decodeLong hdr
            if fsize = 0 then
              .ok (s1.send "No files found to create tar archive.\n".toList)
            else
              let out := relay_loop fsize.toNat fsize 0 inp1 (s1.cout ++ [encodeLong fsize])
              .ok { s1 with cout := out }
    else
      .ok (s.send "Only .c, .pdf, and .txt file types are supported for tar.\n".toList)

/-- A node that leaves its store alone and answers every request with the stream
`script`, then closes the connection. -/
def script_node (script : List Ev) : Node := fun fs _ => (fs, script)

/-- A path of 507 characters ending in `.c`: `~S1/`, a directory of 250 characters, `/`,
and a file name of 252 characters. -/
def long_c_path : Str :=
  "~S1/".toList ++ List.replicate 250 'd' ++ "/".toList ++ List.replicate 250 'f'
    ++ ".c".toList

/-- The state of the examples with the file `hello` stored under the home directory of
`ex_env` at the place `long_c_path` names. -/
def ex_st_long_c : St where
  fs := FS.write (fun _ => none) (ex_env.home ++ "/".toList ++ long_c_path.drop 1)
    "hello".toList
  cin := []
  cout := []
  conns := []

/-- The state of the examples with the file `/home/u/S1/a.c` in the store. -/
def ex_st_c : St where
  fs := FS.write (fun _ => none) "/home/u/S1/a.c".toList "hello".toList
  cin := []
  cout := []
  conns := []

/-! ### The owner of a file type, in the words of the specification -/

/-- Where the files of a type are kept. -/
inductive Target where
  /-- The store of the front-end itself. -/
  | here
  /-- The node listening on `port`, whose paths begin with `marker`. -/
  | node (port : Nat) (marker : Str)
  /-- No store keeps the type. -/
  | unsupported
  deriving DecidableEq, Repr

/-- The owner of the files whose name ends in the suffix `e`, as the specification
states it: local for `.c`, port 7100 with marker `~S2` for `.pdf`, port 7200 with marker
`~S3` for `.txt`, port 7300 with marker `~S4` for `.zip`, unsupported otherwise.  This
definition follows the specification, not the code. -/
def owner (e : Str) : Target :=
  if e = ".c".toList then .here
  else if e = ".pdf".toList then .node 7100 "~S2".toList
  else if e = ".txt".toList then .node 7200 "~S3".toList
  else if e = ".zip".toList then .node 7300 "~S4".toList
  else .unsupported

/-- The connections an operation opens when it goes to the target `t` and sends
`sent marker` to a node: one connection for a node, none otherwise. -/
def Target.opens (t : Target) (sent : Str → List Str) : List Conn :=
  match t with
  | .node port marker => [⟨port, true, sent marker⟩]
  | _ => []

/-! ### The front-end: the command loop `prcclient` -/

/-- The branches of the dispatch of `prcclient`. -/
inductive Handler where
  | upload
  | download
  | remove
  | downltar
  | dispfnames
  | invalid
  deriving DecidableEq, Repr

/-- The chain of `strncmp` tests of `prcclient` on the command buffer, in the order of the
source. -/
def dispatch (buffer : Str) : Handler :=
  if strncmp buffer "uploadf ".toList 8 = 0 then .upload
  else if strncmp buffer "downlf ".toList 7 = 0 then .download
  else if strncmp buffer "removef ".toList 8 = 0 then .remove
  else if strncmp buffer "downltar ".toList 9 = 0 then .downltar
  else if strncmp buffer "dispfnames ".toList 11 = 0 then .dispfnames
  else .invalid

/-- The five tests of `prcclient` as a list: prefix, number of characters compared, and
the branch taken. -/
def tests_in_order : List (Str × Nat × Handler) :=
  [("uploadf ".toList, 8, .upload), ("downlf ".toList, 7, .download),
   ("removef ".toList, 8, .remove), ("downltar ".toList, 9, .downltar),
   ("dispfnames ".toList, 11, .dispfnames)]

/-- The branch chosen when the tests are tried in the order of the list `tests`: that of
the first test that matches, the last `else` when none does. -/
def first_match (tests : List (Str × Nat × Handler)) (buffer : Str) : Handler :=
  match tests.find? (fun t => strncmp buffer t.1 t.2.1 = 0) with
  | some t => t.2.2
  | none => .invalid

/-- The body of a branch of `prcclient`.  The archive a `downltar .c` finds is what the
`tar` command leaves for the file store of the moment, given by `tar`. -/
def run_handler (env : Env) (tar : FS → TarRun) (h : Handler) (buffer : Str) (s : St) :
    Res St :=
  match h with
  | .upload => handle_upload env buffer s
  | .download => handle_download env buffer s
  | .remove => handle_remove env buffer s
  | .downltar => handle_downltar env (tar s.fs) buffer s
  | .dispfnames => handle_dispfnames env buffer s
  | .invalid => .ok (s.send "Invalid command.\n".toList)

/-- One pass of the loop of `prcclient`: `none` when `recv` returns 0 or less and the loop
is left, else the outcome of the branch taken.  The buffer is all 0 before the `recv` of at
most `BUFSIZE - 1` bytes, so the command is the part of what arrived before its first 0
byte. -/
def prcclient_pass (env : Env) (tar : FS → TarRun) (s : St) : Option (Res St) :=
  match recv (BUFSIZE - 1) s.cin with
  | (bytes, data, cin1) =>
    if bytes ≤ 0 then none
    else some (run_handler env tar (dispatch (cstr data)) (cstr data) { s with cin := cin1 })

/-- The function `prcclient(client_sock)` run for at most `fuel` passes of its loop
`while (1)`; `hang` also stands for a loop that needs more passes. -/
def prcclient : Nat → Env → (FS → TarRun) → St → Res St
  | 0, _, _, _ => .hang
  | fuel + 1, env, tar, s =>
    match prcclient_pass env tar s with
    | none => .ok s
    | some (.ok s1) => prcclient fuel env tar s1
    | some .hang => .hang
    | some .ub => .ub

/-! ### The client: `receive_file` -/

/-- How a call of `receive_file` of the client ends. -/
inductive Download where
  /-- The size did not arrive: `Error receiving file size from server.` -/
  | no_size
  /-- The size is 0 or negative: `Error: File not found on server.` -/
  | not_found
  /-- The local file cannot be opened for writing. -/
  | cannot_open
  /-- As many bytes as announced were written: `File downloaded`. -/
  | complete (content : List Char)
  /-- The count of bytes written differs from the size: the file is removed. -/
  | incomplete (written : List Char)
  deriving DecidableEq, Repr

/-- The loop `while (received < fsize) { n = recv(sock, buffer, BUFSIZE, 0); if (n <= 0)
break; fwrite(buffer, 1, n, fp); received += n; }` of `receive_file`: the bytes written
and the final value of `received`. -/
def client_loop : Nat → Int → Int → List Char → List Ev → List Char × Int
  | 0, _, received, acc, _ => (acc, received)
  | fuel + 1, fsize, received, acc, inp =>
    if received < fsize then
      match recv BUFSIZE inp with
      | (n, data, inp1) =>
        if n ≤ 0 then (acc, received)
        else client_loop fuel fsize (received + n) (acc ++ data) inp1
    else (acc, received)

/-- The function `receive_file(sock, filename)` of the client on the stream `inp` from the
front-end; `canOpen` tells whether `fopen(filename, "wb")` succeeds.  The size `fsize` is
not initialised, so a `recv` of 1 to 7 bytes leaves it partly undefined. -/
def receive_file (canOpen : Bool) (inp : List Ev) : Res Download :=
  match recv 8 inp with
  | (ret, hdr, inp1) =>
    if ret ≤ 0 then .ok .no_size
    else if ret < 8 then .ub
    else
      let fsize := decodeLong hdr
      if fsize ≤ 0 then .ok .not_found
      else if !canOpen then .ok .cannot_open
      else
        match client_loop fsize.toNat fsize 0 [] inp1 with
        | (written, received) =>
          if received = fsize then .ok (.complete written)
          else .ok (.incomplete written)

/-- The number a string of decimal digits stands for. -/
def ofDigits (l : List Char) : Nat := l.foldl (fun acc c => 10 * acc + (c.toNat - 48)) 0

theorem char_toNat_inj {a b : Char} (h : a.toNat = b.toNat) : a = b := by
  have := congrArg Char.ofNat h
  simpa [Char.ofNat_toNat] using this

theorem char_sub_ne {a b : Char} (h : a ≠ b) : (a.toNat : Int) - (b.toNat : Int) ≠ 0 := by
  intro h0
  apply h
  apply char_toNat_inj
  omega

theorem char_toNat_eq_zero {a : Char} (h : a.toNat = 0) : a = NUL := by
  apply char_toNat_inj
  rw [h]; rfl

theorem strncmp_eq_zero_iff (b : Str) (hb : NUL ∉ b) :
    ∀ (n : Nat) (a : Str), n ≤ b.length → (strncmp a b n = 0 ↔ a.take n = b.take n) := by
  induction b with
  | nil =>
    intro n a hn
    have : n = 0 := by simpa using hn
    subst this
    simp [strncmp]
  | cons y t ih =>
    intro n a hn
    have hy : y ≠ NUL := fun h => hb (by simp [h])
    have ht : NUL ∉ t := fun h => hb (by simp [h])
    cases n with
    | zero => simp [strncmp]
    | succ n =>
      cases a with
      | nil =>
        simp only [strncmp, List.take_nil, List.take_succ_cons]
        constructor
        · intro h
          exact absurd (char_toNat_eq_zero (by omega)) hy
        · intro h; cases h
      | cons x s =>
        simp only [strncmp, List.take_succ_cons]
        by_cases hxy : x = y
        · subst hxy
          simp only [if_true, if_neg hy]
          rw [ih ht n s (by simpa using hn)]
          simp
        · simp only [hxy, if_false]
          constructor
          · intro h; exact absurd h (char_sub_ne hxy)
          · intro h
            injection h with h1 _
            exact absurd h1 hxy

theorem strncmp_S1 (d : Str) : strncmp d "~S1".toList 3 = 0 ↔ d.take 3 = "~S1".toList := by
  have := strncmp_eq_zero_iff "~S1".toList (by decide) 3 d (by decide)
  simpa using this

theorem recv_data (max : Nat) (hmax : 0 < max) (rest : List Ev) :
    ∀ segs : List (List Char), segs.flatten ≠ [] →
      ∃ (d : List Char) (segs1 : List (List Char)), recv max (segs.map Ev.data ++ rest) = ((d.length : Int), d, segs1.map Ev.data ++ rest)
        ∧ d ++ segs1.flatten = segs.flatten ∧ d ≠ [] ∧ d.length ≤ max := by
  intro segs
  induction segs with
  | nil => intro h; simp at h
  | cons bs tl ih =>
    intro h
    by_cases hbs : bs = []
    · subst hbs
      have h1 : tl.flatten ≠ [] := by simpa using h
      obtain ⟨d, segs1, h2, h3, h4, h5⟩ := ih h1
      exact ⟨d, segs1, by simpa [recv] using h2, by simpa using h3, h4, h5⟩
    · by_cases hle : bs.length ≤ max
      · exact ⟨bs, tl, by simp [recv, hbs, hle], by simp, hbs, hle⟩
      · refine ⟨bs.take max, bs.drop max :: tl, ?_, ?_, ?_, by simp⟩
        · simp only [recv, List.map_cons, List.cons_append, if_neg hbs, if_neg hle]
          simp
          omega
        · simp [← List.append_assoc]
        · intro h0
          have := congrArg List.length h0
          simp at this
          rcases this with h6 | h6
          · omega
          · exact hbs h6

theorem recv_loop_data (rest : List Ev) :
    ∀ (fuel : Nat) (segs : List (List Char)) (filesize received : Int) (acc : List Char),
      filesize - received = (segs.flatten.length : Int) → segs.flatten.length ≤ fuel →
      ∃ inp, recv_loop fuel filesize received acc (segs.map Ev.data ++ rest)
        = .ok (acc ++ segs.flatten, inp) := by
  intro fuel
  induction fuel with
  | zero =>
    intro segs filesize received acc _ h2
    have : segs.flatten = [] := List.length_eq_zero.mp (by omega)
    exact ⟨segs.map Ev.data ++ rest, by simp [recv_loop, this]⟩
  | succ fuel ih =>
    intro segs filesize received acc h1 h2
    by_cases hlt : received < filesize
    · have hne : segs.flatten ≠ [] := by
        intro h0; rw [h0] at h1; simp at h1; omega
      obtain ⟨d, segs1, e1, e2, e3, e4⟩ := recv_data BUFSIZE (by decide) rest segs hne
      have hd : 0 < d.length := List.length_pos.mpr e3
      have hlen : segs.flatten.length = d.length + segs1.flatten.length := by
        rw [← e2]; simp
      obtain ⟨inp, hi⟩ := ih segs1 filesize (received + d.length) (acc ++ d)
        (by omega) (by omega)
      refine ⟨inp, ?_⟩
      rw [recv_loop, if_pos hlt, e1]
      simp only
      rw [if_neg (by omega), if_neg (by omega), hi, ← e2]
      simp
    · have : segs.flatten = [] := List.length_eq_zero.mp (by omega)
      exact ⟨segs.map Ev.data ++ rest, by simp [recv_loop, hlt, this]⟩

/-! ### Blocks of a file and the size field -/

theorem fread_chunks_flatten : ∀ (fuel : Nat) (l : List Char), l.length ≤ fuel →
    (fread_chunks fuel l).flatten = l := by
  intro fuel
  induction fuel with
  | zero =>
    intro l h
    have : l = [] := List.length_eq_zero.mp (by omega)
    simp [fread_chunks, this]
  | succ fuel ih =>
    intro l h
    by_cases hl : l = []
    · simp [fread_chunks, hl]
    · have hpos : 0 < l.length := List.length_pos.mpr hl
      have : (l.drop BUFSIZE).length ≤ fuel := by
        simp [BUFSIZE]; omega
      simp [fread_chunks, hl, ih _ this]

theorem fread_chunks_ne_nil : ∀ (fuel : Nat) (l : List Char),
    ∀ c ∈ fread_chunks fuel l, c ≠ [] ∧ c.length ≤ BUFSIZE := by
  intro fuel
  induction fuel with
  | zero => intro l c hc; simp [fread_chunks] at hc
  | succ fuel ih =>
    intro l c hc
    by_cases hl : l = []
    · simp [fread_chunks, hl] at hc
    · simp only [fread_chunks, if_neg hl, List.mem_cons] at hc
      rcases hc with rfl | hc
      · constructor
        · intro h0
          rcases List.take_eq_nil_iff.mp h0 with h | h
          · simp [BUFSIZE] at h
          · exact hl h
        · simp
      · exact ih _ c hc

theorem char_ofNat_toNat_lt (x : Nat) (h : x < 256) : (Char.ofNat x).toNat = x := by
  have hv : x.isValidChar := Or.inl (by omega)
  simp [Char.ofNat, hv, Char.toNat, Char.ofNatAux, UInt32.toNat]

theorem leNat_leBytes : ∀ (k u : Nat), leNat (leBytes k u) = u % 256 ^ k := by
  intro k
  induction k with
  | zero => intro u; simp [leBytes, leNat, Nat.mod_one]
  | succ k ih =>
    intro u
    rw [leBytes, leNat, ih, char_ofNat_toNat_lt _ (Nat.mod_lt _ (by decide)), pow_succ', Nat.mod_mul]

theorem length_leBytes : ∀ (k u : Nat), (leBytes k u).length = k := by
  intro k
  induction k with
  | zero => intro u; rfl
  | succ k ih => intro u; simp [leBytes, ih]

theorem length_encodeLong (v : Int) : (encodeLong v).length = 8 := length_leBytes 8 _

theorem encodeLong_ne_nil (v : Int) : encodeLong v ≠ [] := by
  intro h
  have := length_encodeLong v
  rw [h] at this
  simp at this

theorem decode_encodeLong (v : Int) (h1 : -(2 ^ 63) ≤ v) (h2 : v < 2 ^ 63) :
    decodeLong (encodeLong v) = v := by
  have hlen := length_encodeLong v
  have htake : (encodeLong v).take 8 = encodeLong v := List.take_of_length_le (by omega)
  unfold decodeLong
  simp only [htake]
  unfold encodeLong
  rw [leNat_leBytes]
  have hnn : (0 : Int) ≤ v % 2 ^ 64 := Int.emod_nonneg _ (by norm_num)
  have hlt : v % 2 ^ 64 < 2 ^ 64 := Int.emod_lt_of_pos _ (by norm_num)
  have hmod : (v % 2 ^ 64).toNat % 256 ^ 8 = (v % 2 ^ 64).toNat := by
    apply Nat.mod_eq_of_lt
    have : ((v % 2 ^ 64).toNat : Int) < 2 ^ 64 := by rw [Int.toNat_of_nonneg hnn]; exact hlt
    norm_num
    exact_mod_cast this
  rw [hmod]
  have hc : (((v % 2 ^ 64).toNat : Nat) : Int) = v % 2 ^ 64 := Int.toNat_of_nonneg hnn
  by_cases hv : 0 ≤ v
  · have : v % 2 ^ 64 = v := Int.emod_eq_of_lt hv (by omega)
    have h3 : (v % 2 ^ 64).toNat < 2 ^ 63 := by
      have : ((v % 2 ^ 64).toNat : Int) < 2 ^ 63 := by rw [hc, this]; exact h2
      exact_mod_cast this
    rw [if_pos h3, hc, this]
  · have : v % 2 ^ 64 = v + 2 ^ 64 := by
      rw [← Int.add_emod_self]
      exact Int.emod_eq_of_lt (by omega) (by omega)
    have h3 : ¬ (v % 2 ^ 64).toNat < 2 ^ 63 := by
      intro h4
      have h5 : ((v % 2 ^ 64).toNat : Int) < 2 ^ 63 := by exact_mod_cast h4
      rw [hc, this] at h5
      omega
    rw [if_neg h3, hc, this]
    omega

theorem recv_header (v : Int) (rest : List Ev) :
    recv 8 (Ev.data (encodeLong v) :: rest) = (8, encodeLong v, rest) := by
  simp [recv, encodeLong_ne_nil, length_encodeLong]

/-! ### Strings, parsing and the relay loop -/

theorem snprintf_fits (size : Nat) (t : Str) (h : t.length < size) : snprintf size t = t := by
  unfold snprintf
  exact List.take_of_length_le (by omega)

theorem FS.write_same (fs : FS) (p : Str) (c : List Char) : (fs.write p c) p = some c := by
  simp [FS.write]

theorem is_token_iff (t : Str) :
    is_token t = true ↔ t ≠ [] ∧ ∀ c ∈ t, isspace c = false ∧ c ≠ NUL := by
  simp [is_token]

theorem is_token_append {a b : Str} (ha : is_token a = true) (hb : is_token b = true) :
    is_token (a ++ b) = true := by
  rw [is_token_iff] at *
  refine ⟨by simp [ha.1], ?_⟩
  intro c hc
  rcases List.mem_append.mp hc with h | h
  · exact ha.2 c h
  · exact hb.2 c h

theorem is_token_append_drop {a b : Str} (n : Nat) (ha : is_token a = true)
    (hb : is_token b = true) : is_token (a ++ b.drop n) = true := by
  rw [is_token_iff] at *
  refine ⟨by simp [ha.1], ?_⟩
  intro c hc
  rcases List.mem_append.mp hc with h | h
  · exact ha.2 c h
  · exact hb.2 c (List.mem_of_mem_drop h)

theorem cstr_of_token {t : Str} (h : ∀ c ∈ t, c ≠ NUL) : cstr t = t := by
  unfold cstr
  rw [List.takeWhile_eq_self_iff]
  intro c hc
  simpa using h c hc

theorem scan_s_token (t rest : Str) (ht : is_token t = true)
    (hrest : rest = [] ∨ ∃ c r, rest = c :: r ∧ isspace c = true) :
    scan_s (' ' :: (t ++ rest)) = some (t, rest) := by
  rw [is_token_iff] at ht
  obtain ⟨hne, hall⟩ := ht
  obtain ⟨a, t1, rfl⟩ := List.exists_cons_of_ne_nil hne
  have ha : isspace a = false := (hall a (by simp)).1
  have hsp : isspace ' ' = true := by decide
  have h1 : List.dropWhile isspace (' ' :: (a :: t1 ++ rest)) = a :: t1 ++ rest := by
    simp [List.dropWhile, hsp, ha]
  have hall2 : ∀ c ∈ a :: t1, (fun c => !isspace c) c = true := by
    intro c hc
    simp [(hall c hc).1]
  have h2 : List.takeWhile (fun c => !isspace c) (a :: t1 ++ rest) = a :: t1 := by
    rw [List.takeWhile_append_of_pos hall2]
    rcases hrest with rfl | ⟨c, r, rfl, hc⟩
    · simp
    · simp [List.takeWhile, hc]
  have h3 : List.dropWhile (fun c => !isspace c) (a :: t1 ++ rest) = rest := by
    rw [List.dropWhile_append_of_pos hall2]
    rcases hrest with rfl | ⟨c, r, rfl, hc⟩
    · simp
    · simp [List.dropWhile, hc]
  unfold scan_s
  simp only [h1, h2, h3]
  simp

theorem sscanf1_cmd (w t : Str) (ht : is_token t = true) :
    sscanf1 w (w ++ ' ' :: t) = some t := by
  have := scan_s_token t [] ht (Or.inl rfl)
  simp only [List.append_nil] at this
  simp [sscanf1, this]

theorem sscanf2_cmd (w f d : Str) (hf : is_token f = true) (hd : is_token d = true) :
    sscanf2 w (w ++ ' ' :: (f ++ ' ' :: d)) = (some f, some d) := by
  have h1 := scan_s_token f (' ' :: d) hf (Or.inr ⟨' ', d, rfl, by decide⟩)
  have h2 := scan_s_token d [] hd (Or.inl rfl)
  simp only [List.append_nil] at h2
  simp [sscanf2, h1, h2]

theorem strrchr_append (a b : Str) (c : Char) (e : Str) (h : strrchr b c = some e) :
    strrchr (a ++ b) c = some e := by
  induction a with
  | nil => simpa using h
  | cons x a ih => simp [strrchr, ih]

theorem relay_loop_data :
    ∀ (fuel : Nat) (segs : List (List Char)) (fsize received : Int) (out : List Str),
      fsize - received = (segs.flatten.length : Int) → segs.flatten.length ≤ fuel →
      (relay_loop fuel fsize received (segs.map Ev.data) out).flatten
        = out.flatten ++ segs.flatten := by
  intro fuel
  induction fuel with
  | zero =>
    intro segs fsize received out _ h2
    have : segs.flatten = [] := List.length_eq_zero.mp (by omega)
    simp [relay_loop, this]
  | succ fuel ih =>
    intro segs fsize received out h1 h2
    by_cases hlt : received < fsize
    · have hne : segs.flatten ≠ [] := by
        intro h0; rw [h0] at h1; simp at h1; omega
      obtain ⟨d, segs1, e1, e2, e3, e4⟩ := recv_data BUFSIZE (by decide) [] segs hne
      simp only [List.append_nil] at e1
      have hd : 0 < d.length := List.length_pos.mpr e3
      have hlen : segs.flatten.length = d.length + segs1.flatten.length := by
        rw [← e2]; simp
      have hi := ih segs1 fsize (received + d.length) (out ++ [d]) (by omega) (by omega)
      rw [relay_loop, if_pos hlt, e1]
      simp only
      rw [if_neg (by omega), hi, ← e2]
      simp
    · have : segs.flatten = [] := List.length_eq_zero.mp (by omega)
      simp [relay_loop, hlt, this]

/-! ### Uploads -/

theorem handle_upload_remote (env : Env) (s : St) (cmd f d : Str) (B : List Char)
    (segs : List (List Char)) (e marker : Str) (port : Nat) (nd : Node)
    (hroute : (e, port, marker) ∈ [(".pdf".toList, 7100, "~S2".toList),
      (".txt".toList, 7200, "~S3".toList), (".zip".toList, 7300, "~S4".toList)])
    (hcmd : sscanf2 "uploadf".toList cmd = (some f, some d))
    (hf : f.length < 256) (hd : d.length < 512)
    (hext : strrchr f '.' = some e)
    (hdest : d.take 3 = "~S1".toList)
    (hin : s.cin = Ev.data (encodeLong B.length) :: segs.map Ev.data)
    (hB : segs.flatten = B) (hN : (B.length : Int) < 2 ^ 63)
    (htmp : env.canCreate (temp_path env f) = true)
    (hnode : env.node port = some nd) :
    ∃ inp, handle_upload env cmd s = .ok
      { fs := ((nd (s.fs.write (temp_path env f) B)
            (("uploadf ".toList ++ (marker ++ d.drop 3 ++ "/".toList ++ f)) ::
              encodeLong B.length :: fread_chunks B.length B)).1).remove (temp_path env f),
        cin := inp,
        cout := s.cout ++ ["File stored successfully.\n".toList],
        conns := s.conns ++ [⟨port, true,
          ("uploadf ".toList ++ (marker ++ d.drop 3 ++ "/".toList ++ f)) ::
            encodeLong B.length :: fread_chunks B.length B⟩] } := by
  have h1 : ¬ (256 ≤ f.length ∨ 512 ≤ d.length) := by omega
  have h2 : ¬ strncmp d "~S1".toList 3 ≠ 0 := fun h => h ((strncmp_S1 d).mpr hdest)
  have hdl : 3 ≤ d.length := by
    have := congrArg List.length hdest
    simp at this
    omega
  obtain ⟨inp, hloop⟩ := recv_loop_data [] (B.length) segs (B.length) 0 []
    (by simp [hB]) (by simp [hB])
  have hdec : decodeLong (encodeLong B.length) = B.length :=
    decode_encodeLong _ (by omega) hN
  have hport : upload_port (some e) = some port ∧ ext_is (some e) ".c".toList = false ∧
      ("~S".toList ++ Nat.toDigits 10 (if port = 7100 then 2 else if port = 7200 then 3 else 4))
        = marker := by
    simp only [List.mem_cons, Prod.mk.injEq, List.mem_singleton, List.not_mem_nil, or_false]
      at hroute
    rcases hroute with ⟨rfl, rfl, rfl⟩ | ⟨rfl, rfl, rfl⟩ | ⟨rfl, rfl, rfl⟩ <;> decide
  obtain ⟨hp1, hp2, hp3⟩ := hport
  have hm : marker.length = 3 := by
    simp only [List.mem_cons, Prod.mk.injEq, List.mem_singleton, List.not_mem_nil, or_false]
      at hroute
    rcases hroute with ⟨_, _, rfl⟩ | ⟨_, _, rfl⟩ | ⟨_, _, rfl⟩ <;> rfl
  have hfit : (marker ++ d.drop 3 ++ "/".toList ++ f).length < BUFSIZE := by
    simp [BUFSIZE, hm]
    omega
  have hfit2 : ("uploadf ".toList ++ (marker ++ d.drop 3 ++ "/".toList ++ f)).length
      < BUFSIZE := by
    simp [BUFSIZE, hm]
    omega
  simp only [List.append_nil, List.nil_append] at hloop
  unfold handle_upload
  rw [hcmd]
  simp only [if_neg h1, if_neg h2, hin, recv_header, hdec, hext, hp2, htmp, if_true,
    Int.toNat_ofNat, ne_eq, not_true_eq_false, if_false, Bool.false_eq_true, hloop, hB, hp1,
    snprintf_fits _ _ hfit, hp3, forward_file, hnode, FS.write_same, snprintf_fits _ _ hfit2]
  exact ⟨inp, rfl⟩

/-- C2. An upload command with file name `f` and destination `d`, where the part of `f`
from its last `.` is `.pdf`, `.txt` or `.zip` and `d` begins with `~S1`, is forwarded to
port 7100, 7200 or 7300: the first bytes sent on that connection are `uploadf ` followed
by `~S2`, `~S3` or `~S4`, then `d` without its first three characters, `/` and `f`; then
come the size and the payload, and the client is answered `File stored successfully.`
The client delivers the size field and the payload `B` in any segments, the temporary
file can be created and the node accepts the connection. -/
theorem upload_forwards_to_owner (env : Env) (s : St) (cmd f d : Str) (B : List Char)
    (segs : List (List Char)) (e marker : Str) (port : Nat) (nd : Node)
    (hroute : (e, port, marker) ∈ [(".pdf".toList, 7100, "~S2".toList),
      (".txt".toList, 7200, "~S3".toList), (".zip".toList, 7300, "~S4".toList)])
    (hcmd : sscanf2 "uploadf".toList cmd = (some f, some d))
    (hf : f.length < 256) (hd : d.length < 512)
    (hext : strrchr f '.' = some e)
    (hdest : d.take 3 = "~S1".toList)
    (hin : s.cin = Ev.data (encodeLong B.length) :: segs.map Ev.data)
    (hB : segs.flatten = B) (hN : (B.length : Int) < 2 ^ 63)
    (htmp : env.canCreate (temp_path env f) = true)
    (hnode : env.node port = some nd) :
    ∃ s1, handle_upload env cmd s = .ok s1 ∧
      s1.cout = s.cout ++ ["File stored successfully.\n".toList] ∧
      s1.conns = s.conns ++ [⟨port, true,
        ("uploadf ".toList ++ (marker ++ d.drop 3 ++ "/".toList ++ f)) ::
          encodeLong B.length :: fread_chunks B.length B⟩] := by
  obtain ⟨inp, h⟩ := handle_upload_remote env s cmd f d B segs e marker port nd hroute hcmd
    hf hd hext hdest hin hB hN htmp hnode
  exact ⟨_, h, rfl, rfl⟩

/-- Witness of C2: `uploadf report.pdf ~S1/docs` with size 5 and payload `hello` is
forwarded to port 7100 as `uploadf ~S2/docs/report.pdf`, and the client is answered
`File stored successfully.` -/
theorem upload_forwards_to_owner_witness :
    (handle_upload ex_env "uploadf report.pdf ~S1/docs".toList
        (ex_st [Ev.data (encodeLong 5), Ev.data "hello".toList])).map
      (fun s1 => (s1.cout, s1.conns))
    = .ok (["File stored successfully.\n".toList],
        [⟨7100, true, ["uploadf ~S2/docs/report.pdf".toList, encodeLong 5,
          "hello".toList]⟩]) := by
  obtain ⟨s1, h1, h2, h3⟩ := upload_forwards_to_owner ex_env
    (ex_st [Ev.data (encodeLong 5), Ev.data "hello".toList])
    "uploadf report.pdf ~S1/docs".toList "report.pdf".toList "~S1/docs".toList
    "hello".toList ["hello".toList] ".pdf".toList "~S2".toList 7100 (node_of ex_cfg)
    (by decide) (by decide) (by decide) (by decide) (by decide) (by decide) rfl (by decide)
    (by decide) (by decide) rfl
  rw [h1]
  simp only [Res.map, h2, h3]
  decide
/-- C9. An upload whose destination does not begin with the three characters `~S1` is
answered with exactly `Destination must start with ~S1.` and nothing else happens: the
file store, the connections to nodes and the pending input of the client are as
before. -/
theorem upload_bad_destination (env : Env) (s : St) (cmd f d : Str)
    (hcmd : sscanf2 "uploadf".toList cmd = (some f, some d))
    (hf : f.length < 256) (hd : d.length < 512)
    (hdest : d.take 3 ≠ "~S1".toList) :
    handle_upload env cmd s = .ok (s.send "Destination must start with ~S1.\n".toList) ∧
      (s.send "Destination must start with ~S1.\n".toList).fs = s.fs ∧
      (s.send "Destination must start with ~S1.\n".toList).conns = s.conns ∧
      (s.send "Destination must start with ~S1.\n".toList).cin = s.cin ∧
      (s.send "Destination must start with ~S1.\n".toList).cout
        = s.cout ++ ["Destination must start with ~S1.\n".toList] := by
  refine ⟨?_, rfl, rfl, rfl, rfl⟩
  have h1 : ¬ (256 ≤ f.length ∨ 512 ≤ d.length) := by omega
  have h2 : strncmp d "~S1".toList 3 ≠ 0 := fun h => hdest ((strncmp_S1 d).mp h)
  unfold handle_upload
  rw [hcmd]
  simp only [if_neg h1, if_pos h2]


/-- Witness of C9: `uploadf a.c ~S2/docs` with a size and a payload waiting on the
connection. -/
theorem upload_bad_destination_witness :
    handle_upload ex_env "uploadf a.c ~S2/docs".toList
        (ex_st [Ev.data (encodeLong 5), Ev.data "hello".toList])
      = .ok ((ex_st [Ev.data (encodeLong 5), Ev.data "hello".toList]).send
          "Destination must start with ~S1.\n".toList) :=
  (upload_bad_destination ex_env (ex_st [Ev.data (encodeLong 5), Ev.data "hello".toList])
    "uploadf a.c ~S2/docs".toList "a.c".toList "~S2/docs".toList (by decide) (by decide)
    (by decide) (by decide)).1

/-! ### Paths forwarded by `handle_download` and `handle_remove` -/

/-- The command `handle_download` sends for a path `p` whose part from the last `.` is
`.pdf`, `.txt` or `.zip`: the first 511 characters of `downlf `, the marker of the node
and `p` without its first three characters. -/
theorem download_command_sent (env : Env) (s : St) (cmd p e marker : Str) (port : Nat)
    (nd : Node)
    (hroute : (e, port, marker) ∈ [(".pdf".toList, 7100, "~S2".toList),
      (".txt".toList, 7200, "~S3".toList), (".zip".toList, 7300, "~S4".toList)])
    (hcmd : sscanf1 "downlf".toList cmd = some p)
    (hp : p.length < 512) (hext : strrchr p '.' = some e)
    (hnode : env.node port = some nd) :
    ∃ s1, handle_download env cmd s = .ok s1 ∧
      s1.conns = s.conns ++ [⟨port, true,
        [("downlf ".toList ++ (marker ++ p.drop 3)).take 511]⟩] := by
  have h1 : ¬ 512 ≤ p.length := by omega
  have hp4 : 4 ≤ p.length := by
    have : ∀ (q : Str) (t : Str), strrchr q '.' = some t → t.length ≤ q.length := by
      intro q
      induction q with
      | nil => intro t h; simp [strrchr] at h
      | cons a r ih =>
        intro t h
        simp only [strrchr] at h
        cases hr : strrchr r '.' with
        | some t1 =>
          rw [hr] at h
          injection h with h
          subst h
          have := ih t1 hr
          simp
          omega
        | none =>
          rw [hr] at h
          simp only at h
          split_ifs at h
          injection h with h
          subst h
          simp
    have h4 := this p e hext
    have he : e.length = 4 := by
      simp only [List.mem_cons, Prod.mk.injEq, List.mem_singleton, List.not_mem_nil,
        or_false] at hroute
      rcases hroute with ⟨rfl, _, _⟩ | ⟨rfl, _, _⟩ | ⟨rfl, _, _⟩ <;> rfl
    omega
  have hm : marker.length = 3 := by
    simp only [List.mem_cons, Prod.mk.injEq, List.mem_singleton, List.not_mem_nil, or_false]
      at hroute
    rcases hroute with ⟨_, _, rfl⟩ | ⟨_, _, rfl⟩ | ⟨_, _, rfl⟩ <;> rfl
  have hroute2 : strcmp e ".c".toList ≠ 0 ∧
      (if strcmp e ".pdf".toList = 0 then
          some (7100, snprintf 512 ("~S2".toList ++ p.drop 3))
        else if strcmp e ".txt".toList = 0 then
          some (7200, snprintf 512 ("~S3".toList ++ p.drop 3))
        else if strcmp e ".zip".toList = 0 then
          some (7300, snprintf 512 ("~S4".toList ++ p.drop 3))
        else none) = some (port, snprintf 512 (marker ++ p.drop 3)) := by
    simp only [List.mem_cons, Prod.mk.injEq, List.mem_singleton, List.not_mem_nil, or_false]
      at hroute
    rcases hroute with ⟨rfl, rfl, rfl⟩ | ⟨rfl, rfl, rfl⟩ | ⟨rfl, rfl, rfl⟩
    · exact ⟨by decide, by rw [if_pos (by decide)]⟩
    · exact ⟨by decide, by rw [if_neg (by decide), if_pos (by decide)]⟩
    · exact ⟨by decide, by rw [if_neg (by decide), if_neg (by decide), if_pos (by decide)]⟩
  have hfit : (marker ++ p.drop 3).length < 512 := by
    simp [hm]; omega
  unfold handle_download
  simp only [hcmd, if_neg h1, hext, if_neg hroute2.1, hroute2.2, hnode,
    snprintf_fits _ _ hfit]
  generalize recv 8 (nd s.fs [snprintf 512 ("downlf ".toList ++ (marker ++ List.drop 3 p))]).2
    = r
  obtain ⟨n, hdr, inp1⟩ := r
  simp only
  split_ifs <;> exact ⟨_, rfl, rfl⟩

/-- The command reaches the node whole exactly up to 504 characters of path. -/
theorem download_command_whole (marker p : Str) (hm : marker.length = 3)
    (hp3 : 3 ≤ p.length) :
    ("downlf ".toList ++ (marker ++ p.drop 3)).take 511
      = "downlf ".toList ++ (marker ++ p.drop 3) ↔ p.length ≤ 504 := by
  rw [List.take_eq_self_iff]
  simp [hm]
  omega

/-- C1, at a path of 509 characters that begins with `~S1` and ends in `.pdf`: the
command `handle_download` sends to port 7100 is `downlf ` followed by only the first 504
characters of `~S2` and the path without its first three characters, because `get_cmd`
has 512 bytes; `handle_remove` sends `removef ` followed by only the first 503.  The
last characters of the path do not reach the node. -/
theorem forwarded_path_cut_when_long :
    long_path.length = 509 ∧ long_path.take 3 = "~S1".toList
    ∧ strrchr long_path '.' = some ".pdf".toList
    ∧ (handle_download ex_env ("downlf ".toList ++ long_path) (ex_st [])).map
        (fun s => s.conns.map (fun c => (c.port, c.sent)))
      = .ok [(7100, ["downlf ".toList ++ ("~S2".toList ++ long_path.drop 3).take 504])]
    ∧ (handle_remove ex_env ("removef ".toList ++ long_path) (ex_st [])).map
        (fun s => s.conns.map (fun c => (c.port, c.sent)))
      = .ok [(7100, ["removef ".toList ++ ("~S2".toList ++ long_path.drop 3).take 503])]
    ∧ ("~S2".toList ++ long_path.drop 3).take 504 ≠ "~S2".toList ++ long_path.drop 3
    ∧ ("~S2".toList ++ long_path.drop 3).take 503 ≠ "~S2".toList ++ long_path.drop 3 := by
  decide!

/-! ### The storage node -/

theorem recv_cmd (cmd : Str) (rest : List Ev) (h1 : cmd ≠ []) (h2 : cmd.length ≤ BUFSIZE) :
    recv BUFSIZE (Ev.data cmd :: rest) = ((cmd.length : Int), cmd, rest) := by
  simp [recv, h1, h2]

theorem node_saves (cfg : NodeCfg) (fs : FS) (target : Str) (B : List Char)
    (ht : is_token target = true) (hlen : target.length < 512)
    (hN : (B.length : Int) < 2 ^ 63)
    (hc : cfg.canCreate (snprintf BUFSIZE (cfg.home ++ "/".toList ++ target.drop 1)) = true) :
    handle_client cfg fs
        ((("uploadf ".toList ++ target) :: encodeLong B.length ::
          fread_chunks B.length B).map Ev.data)
      = .ok (fs.write (snprintf BUFSIZE (cfg.home ++ "/".toList ++ target.drop 1)) B, []) := by
  have htok := (is_token_iff target).mp ht
  have hcmdtok : ∀ c ∈ "uploadf ".toList ++ target, c ≠ NUL := by
    intro c hc
    rcases List.mem_append.mp hc with h | h
    · exact (by decide : ∀ c ∈ "uploadf ".toList, c ≠ NUL) c h
    · exact (htok.2 c h).2
  have hne : "uploadf ".toList ++ target ≠ [] := by simp
  have hl : ("uploadf ".toList ++ target).length ≤ BUFSIZE := by
    simp [BUFSIZE]; omega
  have hl2 : ¬ (("uploadf ".toList ++ target).length = BUFSIZE
      ∧ NUL ∉ "uploadf ".toList ++ target) := by
    simp [BUFSIZE]; omega
  have hcmp : strncmp ("uploadf ".toList ++ target) "uploadf ".toList 8 = 0 :=
    (strncmp_eq_zero_iff "uploadf ".toList (by decide) 8 _ (by decide)).mpr (by simp)
  have hscan : sscanf1 "uploadf".toList ("uploadf ".toList ++ target) = some target :=
    sscanf1_cmd "uploadf".toList target ht
  have h512 : ¬ 512 ≤ target.length := by omega
  obtain ⟨inp, hloop⟩ := recv_loop_data [] B.length (fread_chunks B.length B) B.length 0 []
    (by simp [fread_chunks_flatten B.length B (le_refl _)])
    (by simp [fread_chunks_flatten B.length B (le_refl _)])
  simp only [List.append_nil, List.nil_append,
    fread_chunks_flatten B.length B (le_refl _)] at hloop
  have hdec : decodeLong (encodeLong B.length) = B.length :=
    decode_encodeLong _ (by omega) hN
  unfold handle_client
  simp only [List.map_cons, recv_cmd _ _ hne hl, if_neg hl2, cstr_of_token hcmdtok, hcmp,
    if_true, hscan, if_neg h512, save_file, recv_header, hdec, Int.toNat_ofNat, hc, hloop,
    Res.map]
  simp

theorem node_sends (cfg : NodeCfg) (fs : FS) (target : Str)
    (ht : is_token target = true) (hlen : target.length < 512) :
    handle_client cfg fs [Ev.data ("downlf ".toList ++ target)]
      = .ok (fs, send_file cfg (target.drop 1) fs) := by
  have htok := (is_token_iff target).mp ht
  have hcmdtok : ∀ c ∈ "downlf ".toList ++ target, c ≠ NUL := by
    intro c hc
    rcases List.mem_append.mp hc with h | h
    · exact (by decide : ∀ c ∈ "downlf ".toList, c ≠ NUL) c h
    · exact (htok.2 c h).2
  have hne : "downlf ".toList ++ target ≠ [] := by simp
  have hl : ("downlf ".toList ++ target).length ≤ BUFSIZE := by
    simp [BUFSIZE]; omega
  have hl2 : ¬ (("downlf ".toList ++ target).length = BUFSIZE
      ∧ NUL ∉ "downlf ".toList ++ target) := by
    simp [BUFSIZE]; omega
  have hcmp0 : ¬ strncmp ("downlf ".toList ++ target) "uploadf ".toList 8 = 0 := by
    rw [strncmp_eq_zero_iff "uploadf ".toList (by decide) 8 _ (by decide)]
    simp
  have hcmp : strncmp ("downlf ".toList ++ target) "downlf ".toList 7 = 0 :=
    (strncmp_eq_zero_iff "downlf ".toList (by decide) 7 _ (by decide)).mpr (by simp)
  have hscan : sscanf1 "downlf".toList ("downlf ".toList ++ target) = some target :=
    sscanf1_cmd "downlf".toList target ht
  have h512 : ¬ 512 ≤ target.length := by omega
  unfold handle_client
  simp only [recv_cmd _ _ hne hl, if_neg hl2, cstr_of_token hcmdtok, hcmp0, hcmp,
    if_true, if_false, hscan, if_neg h512]

/-! ### Store, then fetch -/

theorem handle_upload_local (env : Env) (s : St) (cmd f d : Str) (B : List Char)
    (segs : List (List Char))
    (hcmd : sscanf2 "uploadf".toList cmd = (some f, some d))
    (hf : f.length < 256) (hd : d.length < 512)
    (hext : strrchr f '.' = some ".c".toList)
    (hdest : d.take 3 = "~S1".toList)
    (hin : s.cin = Ev.data (encodeLong B.length) :: segs.map Ev.data)
    (hB : segs.flatten = B) (hN : (B.length : Int) < 2 ^ 63)
    (hc : env.canCreate (snprintf BUFSIZE
      (env.home ++ "/".toList ++ d.drop 1 ++ "/".toList ++ f)) = true) :
    ∃ inp, handle_upload env cmd s = .ok
      { fs := s.fs.write (snprintf BUFSIZE
          (env.home ++ "/".toList ++ d.drop 1 ++ "/".toList ++ f)) B,
        cin := inp,
        cout := s.cout ++ ["File stored successfully.\n".toList],
        conns := s.conns } := by
  have h1 : ¬ (256 ≤ f.length ∨ 512 ≤ d.length) := by omega
  have h2 : ¬ strncmp d "~S1".toList 3 ≠ 0 := fun h => h ((strncmp_S1 d).mpr hdest)
  obtain ⟨inp, hloop⟩ := recv_loop_data [] (B.length) segs (B.length) 0 []
    (by simp [hB]) (by simp [hB])
  have hdec : decodeLong (encodeLong B.length) = B.length :=
    decode_encodeLong _ (by omega) hN
  have hp2 : ext_is (some ".c".toList) ".c".toList = true := by decide
  simp only [List.append_nil, List.nil_append] at hloop
  unfold handle_upload
  rw [hcmd]
  simp only [if_neg h1, if_neg h2, hin, recv_header, hdec, hext, hp2, hc, if_true,
    Int.toNat_ofNat, ne_eq, not_true_eq_false, if_false, hloop, hB]
  exact ⟨inp, rfl⟩

theorem handle_download_local (env : Env) (s : St) (cmd p : Str) (B : List Char)
    (hcmd : sscanf1 "downlf".toList cmd = some p)
    (hp : p.length < 512)
    (hext : strrchr p '.' = some ".c".toList)
    (hfile : s.fs (snprintf 512 (env.home ++ "/".toList ++ p.drop 1)) = some B) :
    handle_download env cmd s = .ok
      { s with cout := s.cout ++ encodeLong B.length :: fread_chunks B.length B } := by
  have h1 : ¬ 512 ≤ p.length := by omega
  have h2 : strcmp ".c".toList ".c".toList = 0 := by decide
  unfold handle_download
  simp only [hcmd, if_neg h1, hext, h2, if_true, hfile]

theorem handle_download_remote (env : Env) (s : St) (cmd p : Str) (B : List Char)
    (cfg : NodeCfg) (e marker : Str) (port : Nat)
    (hroute : (e, port, marker) ∈ [(".pdf".toList, 7100, "~S2".toList),
      (".txt".toList, 7200, "~S3".toList), (".zip".toList, 7300, "~S4".toList)])
    (hcmd : sscanf1 "downlf".toList cmd = some p)
    (htok : is_token p = true)
    (hp : p.length ≤ 504) (hp3 : 3 ≤ p.length)
    (hext : strrchr p '.' = some e)
    (hnode : env.node port = some (node_of cfg))
    (hpos : 0 < B.length) (hN : (B.length : Int) < 2 ^ 63)
    (hfile : s.fs (snprintf BUFSIZE (cfg.home ++ "/".toList ++ (marker ++ p.drop 3).drop 1))
      = some B) :
    ∃ s2, handle_download env cmd s = .ok s2 ∧
      s2.cout.flatten = s.cout.flatten ++ encodeLong B.length ++ B ∧
      s2.conns = s.conns ++ [⟨port, true, ["downlf ".toList ++ (marker ++ p.drop 3)]⟩] := by
  have h1 : ¬ 512 ≤ p.length := by omega
  have hm : marker.length = 3 ∧ is_token marker = true := by
    simp only [List.mem_cons, Prod.mk.injEq, List.mem_singleton, List.not_mem_nil, or_false]
      at hroute
    rcases hroute with ⟨_, _, rfl⟩ | ⟨_, _, rfl⟩ | ⟨_, _, rfl⟩ <;> decide
  have hroute2 : strcmp e ".c".toList ≠ 0 ∧
      (if strcmp e ".pdf".toList = 0 then
          some (7100, snprintf 512 ("~S2".toList ++ p.drop 3))
        else if strcmp e ".txt".toList = 0 then
          some (7200, snprintf 512 ("~S3".toList ++ p.drop 3))
        else if strcmp e ".zip".toList = 0 then
          some (7300, snprintf 512 ("~S4".toList ++ p.drop 3))
        else none) = some (port, snprintf 512 (marker ++ p.drop 3)) := by
    simp only [List.mem_cons, Prod.mk.injEq, List.mem_singleton, List.not_mem_nil, or_false]
      at hroute
    rcases hroute with ⟨rfl, rfl, rfl⟩ | ⟨rfl, rfl, rfl⟩ | ⟨rfl, rfl, rfl⟩
    · exact ⟨by decide, by rw [if_pos (by decide)]⟩
    · exact ⟨by decide, by rw [if_neg (by decide), if_pos (by decide)]⟩
    · exact ⟨by decide, by rw [if_neg (by decide), if_neg (by decide), if_pos (by decide)]⟩
  have hfit : (marker ++ p.drop 3).length < 512 := by
    simp [hm.1]; omega
  have hfit2 : ("downlf ".toList ++ (marker ++ p.drop 3)).length < 512 := by
    simp [hm.1]; omega
  have ht : is_token (marker ++ p.drop 3) = true := is_token_append_drop 3 hm.2 htok
  have hnd : node_of cfg s.fs ["downlf ".toList ++ (marker ++ p.drop 3)]
      = (s.fs, (encodeLong B.length :: fread_chunks B.length B).map Ev.data) := by
    simp only [node_of, List.map_cons, List.map_nil, node_sends cfg s.fs _ ht hfit, send_file,
      hfile]
  have hdec : decodeLong (encodeLong B.length) = B.length :=
    decode_encodeLong _ (by omega) hN
  have hrelay := relay_loop_data B.length (fread_chunks B.length B) B.length 0
    (s.cout ++ [encodeLong B.length])
    (by simp [fread_chunks_flatten B.length B (le_refl _)])
    (by simp [fread_chunks_flatten B.length B (le_refl _)])
  rw [fread_chunks_flatten B.length B (le_refl _)] at hrelay
  have hpos2 : ¬ ((B.length : Int) ≤ 0) := by omega
  unfold handle_download
  simp only [hcmd, if_neg h1, hext, if_neg hroute2.1, hroute2.2, hnode, snprintf_fits _ _ hfit,
    snprintf_fits _ _ hfit2, hnd, List.map_cons, recv_header, hdec, if_neg hpos2,
    Int.toNat_ofNat, St.connect]
  refine ⟨_, rfl, ?_, rfl⟩
  simpa using hrelay

theorem append_sep_ne (a c f : Str) (x y : Char) (hxy : x ≠ y) :
    a ++ x :: f ≠ c ++ y :: f := by
  intro h
  have h1 : (a ++ [x]) ++ f = (c ++ [y]) ++ f := by simpa using h
  have h2 := List.append_cancel_right h1
  have h3 := congrArg List.getLast? h2
  simp at h3
  exact hxy h3

theorem FS.remove_write_ne (fs : FS) (p q : Str) (c : List Char) (h : q ≠ p) :
    ((fs.write q c).remove p) q = some c := by
  simp [FS.write, FS.remove, h]

theorem upload_cmd_parses (f d : Str) (hf : is_token f = true) (hd : is_token d = true) :
    sscanf2 "uploadf".toList ("uploadf ".toList ++ f ++ " ".toList ++ d) = (some f, some d) := by
  have h : "uploadf ".toList ++ f ++ " ".toList ++ d
      = "uploadf".toList ++ ' ' :: (f ++ ' ' :: d) := by simp
  rw [h]
  exact sscanf2_cmd _ f d hf hd

theorem download_cmd_parses (p : Str) (hp : is_token p = true) :
    sscanf1 "downlf".toList ("downlf ".toList ++ p) = some p :=
  sscanf1_cmd "downlf".toList p hp

/-- C3, as amended. Over the file store as a map from absolute path to bytes: for every
payload `B`, every file name `f` whose part from the last `.` is `.c`, `.pdf`, `.txt` or
`.zip`, and every destination `d` that begins with `~S1`, after the upload `uploadf f d`
with payload `B` the fetch `downlf d/f` answers with the 8-byte size of `B` followed by
exactly the bytes of `B`, provided the payload is not empty when the file goes to a
node, the paths fit the buffers of the fetch (511 characters for the local path, 504
for a path sent to a node) and the files can be created. -/
theorem store_then_fetch (env : Env) (s : St) (f d e : Str) (B : List Char)
    (segs : List (List Char))
    (hf : is_token f = true) (hd : is_token d = true) (hfl : f.length < 256)
    (hext : strrchr f '.' = some e)
    (hdest : d.take 3 = "~S1".toList)
    (hin : s.cin = Ev.data (encodeLong B.length) :: segs.map Ev.data)
    (hB : segs.flatten = B) (hN : (B.length : Int) < 2 ^ 63)
    (hcase :
      (e = ".c".toList
        ∧ (env.home ++ "/".toList ++ d.drop 1 ++ "/".toList ++ f).length < 512
        ∧ env.canCreate (env.home ++ "/".toList ++ d.drop 1 ++ "/".toList ++ f) = true)
      ∨ (∃ (port : Nat) (marker : Str) (cfg : NodeCfg),
          (e, port, marker) ∈ [(".pdf".toList, 7100, "~S2".toList),
            (".txt".toList, 7200, "~S3".toList), (".zip".toList, 7300, "~S4".toList)]
          ∧ 0 < B.length
          ∧ (d ++ "/".toList ++ f).length ≤ 504
          ∧ env.node port = some (node_of cfg)
          ∧ env.canCreate (temp_path env f) = true
          ∧ ("/tmp/forwarded_".toList ++ Nat.toDigits 10 env.pid ++ "_".toList ++ f).length
              < BUFSIZE
          ∧ (cfg.home ++ "/".toList ++ (marker.drop 1 ++ d.drop 3 ++ "/".toList ++ f)).length
              < BUFSIZE
          ∧ cfg.canCreate
              (cfg.home ++ "/".toList ++ (marker.drop 1 ++ d.drop 3 ++ "/".toList ++ f))
              = true)) :
    ∃ s1 s2, handle_upload env ("uploadf ".toList ++ f ++ " ".toList ++ d) s = .ok s1 ∧
      handle_download env ("downlf ".toList ++ (d ++ "/".toList ++ f)) s1 = .ok s2 ∧
      s2.cout.flatten = s1.cout.flatten ++ encodeLong B.length ++ B := by
  have hdl : 3 ≤ d.length := by
    have := congrArg List.length hdest
    simp at this
    omega
  have hp : is_token (d ++ "/".toList ++ f) = true :=
    is_token_append (is_token_append hd (by decide)) hf
  have hpext : strrchr (d ++ "/".toList ++ f) '.' = some e := strrchr_append _ f '.' e hext
  have hcmd1 := upload_cmd_parses f d hf hd
  have hcmd2 := download_cmd_parses _ hp
  obtain ⟨d0, d1, rfl⟩ : ∃ d0 d1, d = d0 :: d1 := by
    cases d with
    | nil => simp at hdl
    | cons a t => exact ⟨a, t, rfl⟩
  rcases hcase with ⟨rfl, hfit, hc⟩ | ⟨port, marker, cfg, hroute, hpos, hlen, hnode, hct, htf, hnf, hcn⟩
  · have hd512 : (d0 :: d1).length < 512 := by
      simp at hfit ⊢; omega
    have hfit2 : (env.home ++ "/".toList ++ List.drop 1 (d0 :: d1) ++ "/".toList ++ f).length
        < BUFSIZE := by
      simp [BUFSIZE] at hfit ⊢; omega
    obtain ⟨inp, h1⟩ := handle_upload_local env s _ f (d0 :: d1) B segs hcmd1 hfl hd512 hext
      hdest hin hB hN (by rw [snprintf_fits _ _ hfit2]; exact hc)
    rw [snprintf_fits _ _ hfit2] at h1
    refine ⟨_, _, h1, handle_download_local env _ _ _ B hcmd2 ?_ hpext ?_, ?_⟩
    · simp at hfit ⊢; omega
    · have : env.home ++ "/".toList ++ List.drop 1 (d0 :: d1 ++ "/".toList ++ f)
          = env.home ++ "/".toList ++ List.drop 1 (d0 :: d1) ++ "/".toList ++ f := by simp
      rw [this, snprintf_fits _ _ hfit]
      exact FS.write_same _ _ _
    · simp [fread_chunks_flatten B.length B (le_refl _)]
  · have hm : marker.length = 3 ∧ is_token marker = true ∧ marker ≠ [] := by
      simp only [List.mem_cons, Prod.mk.injEq, List.mem_singleton, List.not_mem_nil, or_false]
        at hroute
      rcases hroute with ⟨_, _, rfl⟩ | ⟨_, _, rfl⟩ | ⟨_, _, rfl⟩ <;> decide
    have hd512 : (d0 :: d1).length < 512 := by
      simp at hlen ⊢; omega
    obtain ⟨inp, h1⟩ := handle_upload_remote env s _ f (d0 :: d1) B segs e marker port
      (node_of cfg) hroute hcmd1 hfl hd512 hext hdest hin hB hN hct hnode
    have htarget : marker ++ List.drop 3 (d0 :: d1) ++ "/".toList ++ f
        = marker ++ List.drop 3 (d0 :: d1 ++ "/".toList ++ f) := by
      rw [List.append_assoc (d0 :: d1), List.drop_append_of_le_length hdl]
      simp
    have httok : is_token (marker ++ List.drop 3 (d0 :: d1 ++ "/".toList ++ f)) = true :=
      is_token_append_drop 3 hm.2.1 hp
    have htlen : (marker ++ List.drop 3 (d0 :: d1 ++ "/".toList ++ f)).length < 512 := by
      simp [hm.1] at hlen ⊢; omega
    have hfull : cfg.home ++ "/".toList ++ List.drop 1 (marker ++ List.drop 3 (d0 :: d1 ++ "/".toList ++ f))
        = cfg.home ++ "/".toList ++ (marker.drop 1 ++ List.drop 3 (d0 :: d1) ++ "/".toList ++ f) := by
      rw [← htarget]
      obtain ⟨m0, m1, rfl⟩ := List.exists_cons_of_ne_nil hm.2.2
      simp
    rw [htarget] at h1
    have hsave := node_saves cfg (s.fs.write (temp_path env f) B) _ B httok htlen hN
      (by rw [hfull, snprintf_fits _ _ hnf]; exact hcn)
    have hnd : (node_of cfg (s.fs.write (temp_path env f) B)
        (("uploadf ".toList ++ (marker ++ List.drop 3 (d0 :: d1 ++ "/".toList ++ f))) ::
          encodeLong B.length :: fread_chunks B.length B)).1
        = (s.fs.write (temp_path env f) B).write
            (snprintf BUFSIZE (cfg.home ++ "/".toList ++
              List.drop 1 (marker ++ List.drop 3 (d0 :: d1 ++ "/".toList ++ f)))) B := by
      simp only [node_of, hsave]
    rw [hnd] at h1
    have hne : snprintf BUFSIZE (cfg.home ++ "/".toList ++
          List.drop 1 (marker ++ List.drop 3 (d0 :: d1 ++ "/".toList ++ f)))
        ≠ temp_path env f := by
      rw [hfull, snprintf_fits _ _ hnf, temp_path, snprintf_fits _ _ htf]
      have := append_sep_ne (cfg.home ++ "/".toList ++ (marker.drop 1 ++ List.drop 3 (d0 :: d1)))
        ("/tmp/forwarded_".toList ++ Nat.toDigits 10 env.pid) f '/' '_' (by decide)
      simpa using this
    obtain ⟨s1, h1a, hfs⟩ : ∃ s1, handle_upload env
        ("uploadf ".toList ++ f ++ " ".toList ++ (d0 :: d1)) s = .ok s1 ∧
        s1.fs = ((s.fs.write (temp_path env f) B).write
            (snprintf BUFSIZE (cfg.home ++ "/".toList ++
              List.drop 1 (marker ++ List.drop 3 (d0 :: d1 ++ "/".toList ++ f)))) B).remove
            (temp_path env f) := ⟨_, h1, rfl⟩
    obtain ⟨s2, h2, h3, _⟩ := handle_download_remote env s1 _ (d0 :: d1 ++ "/".toList ++ f) B
      cfg e marker port hroute hcmd2 hp (by simpa using hlen) (by simp at hdl ⊢; omega) hpext
      hnode hpos hN (by rw [hfs]; exact FS.remove_write_ne _ _ _ B hne)
    exact ⟨s1, s2, h1a, h2, h3⟩

/-- Witness of C3 as amended: `uploadf report.pdf ~S1/docs` with payload `hello`, then
`downlf ~S1/docs/report.pdf`: the fetch sends the size 5 and `hello`. -/
theorem store_then_fetch_witness :
    (handle_upload ex_env "uploadf report.pdf ~S1/docs".toList
        (ex_st [Ev.data (encodeLong 5), Ev.data "hello".toList])).bind
      (fun s1 => (handle_download ex_env "downlf ~S1/docs/report.pdf".toList s1).map
        (fun s2 => s2.cout.flatten.drop s1.cout.flatten.length))
    = .ok (encodeLong 5 ++ "hello".toList) := by
  obtain ⟨s1, s2, h1, h2, h3⟩ := store_then_fetch ex_env
    (ex_st [Ev.data (encodeLong 5), Ev.data "hello".toList])
    "report.pdf".toList "~S1/docs".toList ".pdf".toList "hello".toList ["hello".toList]
    (by decide) (by decide) (by decide) (by decide) (by decide) rfl (by decide) (by decide)
    (Or.inr ⟨7100, "~S2".toList, ex_cfg, by decide, by decide, by decide, rfl, by decide,
      by decide, by decide, by decide⟩)
  have e1 : "uploadf ".toList ++ "report.pdf".toList ++ " ".toList ++ "~S1/docs".toList
      = "uploadf report.pdf ~S1/docs".toList := by decide
  have e2 : "downlf ".toList ++ ("~S1/docs".toList ++ "/".toList ++ "report.pdf".toList)
      = "downlf ~S1/docs/report.pdf".toList := by decide
  rw [e1] at h1
  rw [e2] at h2
  rw [h1]
  simp only [Res.bind, h2, Res.map, h3]
  simp

/-- C3 fails for an empty payload sent to a node: after `uploadf report.pdf ~S1/docs`
with size 0 the node holds the empty file, and `downlf ~S1/docs/report.pdf` answers
with the size -1, not with the size 0. -/
theorem empty_file_at_node_not_fetched :
    (handle_upload ex_env "uploadf report.pdf ~S1/docs".toList
        (ex_st [Ev.data (encodeLong 0)])).bind
      (fun s1 => (handle_download ex_env "downlf ~S1/docs/report.pdf".toList s1).map
        (fun s2 => (s1.fs "/home/u/S2/docs/report.pdf".toList, s1.cout, s2.cout)))
    = .ok (some [], ["File stored successfully.\n".toList],
        ["File stored successfully.\n".toList, encodeLong (-1)])
    ∧ encodeLong (-1) ≠ encodeLong 0 ++ [] := by
  decide

/-! ### The order of `cmp_str` and `qsort` -/

theorem strcmp_swap : ∀ (a b : Str), strcmp b a = - strcmp a b := by
  intro a
  induction a with
  | nil =>
    intro b
    cases b with
    | nil => simp [strcmp]
    | cons y u => simp [strcmp]
  | cons x s ih =>
    intro b
    cases b with
    | nil => simp [strcmp]
    | cons y u =>
      simp only [strcmp]
      by_cases hxy : x = y
      · subst hxy
        by_cases hx : x = NUL
        · simp [hx]
        · simp [hx, ih u]
      · have hyx : ¬ y = x := fun h => hxy h.symm
        simp only [if_neg hxy, if_neg hyx]
        omega

theorem cmp_le_total (a b : Str) : cmp_le a b ∨ cmp_le b a := by
  unfold cmp_le
  rw [strcmp_swap a b]
  omega

theorem cmp_le_trans : ∀ (a b c : Str), cmp_le a b → cmp_le b c → cmp_le a c := by
  unfold cmp_le
  intro a
  induction a with
  | nil =>
    intro b c _ _
    cases c with
    | nil => simp [strcmp]
    | cons z t => simp only [strcmp]; omega
  | cons x s ih =>
    intro b c hab hbc
    cases b with
    | nil =>
      simp only [strcmp] at hab
      have hx : x = NUL := char_toNat_eq_zero (by omega)
      subst hx
      cases c with
      | nil => simp only [strcmp]; exact hab
      | cons z t =>
        simp only [strcmp]
        by_cases hz : NUL = z
        · simp [hz]
        · simp only [if_neg hz]
          have : NUL.toNat = 0 := rfl
          omega
    | cons y u =>
      cases c with
      | nil =>
        simp only [strcmp] at hbc
        have hy : y = NUL := char_toNat_eq_zero (by omega)
        subst hy
        simp only [strcmp] at hab ⊢
        by_cases hx : x = NUL
        · subst hx
          have : NUL.toNat = 0 := rfl
          omega
        · simp only [if_neg hx] at hab
          have : NUL.toNat = 0 := rfl
          omega
      | cons z t =>
        simp only [strcmp] at hab hbc ⊢
        by_cases hxy : x = y
        · subst hxy
          by_cases hxz : x = z
          · subst hxz
            by_cases hx : x = NUL
            · simp [hx]
            · simp only [if_true, if_neg hx] at hab hbc ⊢
              exact ih u t hab hbc
          · simp only [if_neg hxz] at hbc ⊢
            exact hbc
        · simp only [if_neg hxy] at hab
          by_cases hyz : y = z
          · subst hyz
            simp only [if_neg hxy]
            exact hab
          · simp only [if_neg hyz] at hbc
            by_cases hxz : x = z
            · subst hxz
              exact absurd (char_toNat_inj (by omega)) hxy
            · simp only [if_neg hxz]
              omega

theorem qsort_sorted (l : List Str) : (qsort l).Sorted cmp_le := by
  haveI : IsTotal Str cmp_le := ⟨cmp_le_total⟩
  haveI : IsTrans Str cmp_le := ⟨cmp_le_trans⟩
  exact List.sorted_insertionSort cmp_le l

theorem qsort_perm (l : List Str) : (qsort l).Perm l := List.perm_insertionSort cmp_le l

/-! ### The result of `qsort` is determined by its specification -/

theorem strcmp_eq_zero : ∀ (a b : Str), NUL ∉ a → NUL ∉ b → strcmp a b = 0 → a = b := by
  intro a
  induction a with
  | nil =>
    intro b _ hb h
    cases b with
    | nil => rfl
    | cons y u =>
      simp only [strcmp] at h
      have hy : y = NUL := char_toNat_eq_zero (by omega)
      exact absurd (by simp [hy]) hb
  | cons x s ih =>
    intro b ha hb h
    have hx : x ≠ NUL := fun e => ha (by simp [e])
    have hs : NUL ∉ s := fun e => ha (by simp [e])
    cases b with
    | nil =>
      simp only [strcmp] at h
      exact absurd (char_toNat_eq_zero (by omega)) hx
    | cons y u =>
      have hu : NUL ∉ u := fun e => hb (by simp [e])
      simp only [strcmp] at h
      by_cases hxy : x = y
      · subst hxy
        simp only [if_true, if_neg hx] at h
        rw [ih u hs hu h]
      · simp only [if_neg hxy] at h
        exact absurd h (char_sub_ne hxy)

theorem cmp_le_antisymm (a b : Str) (ha : NUL ∉ a) (hb : NUL ∉ b) (h1 : cmp_le a b)
    (h2 : cmp_le b a) : a = b := by
  unfold cmp_le at h1 h2
  rw [strcmp_swap a b] at h2
  exact strcmp_eq_zero a b ha hb (by omega)

/-- Any arrangement of an array of strings in the order of `cmp_str` is the one `qsort`
is modelled to return: the specification of the library function leaves no choice. -/
theorem qsort_unique : ∀ (l1 l2 : List Str), (∀ a ∈ l1, NUL ∉ a) → l1.Perm l2 →
    l1.Sorted cmp_le → l2.Sorted cmp_le → l1 = l2 := by
  intro l1
  induction l1 with
  | nil =>
    intro l2 _ hp _ _
    exact hp.nil_eq
  | cons a t ih =>
    intro l2 hnul hp s1 s2
    cases l2 with
    | nil => exact absurd hp.length_eq (by simp)
    | cons b u =>
      have ha2 : a ∈ b :: u := hp.subset (List.mem_cons_self _ _)
      have hb1 : b ∈ a :: t := hp.symm.subset (List.mem_cons_self _ _)
      have hab : a = b := by
        rcases List.mem_cons.mp ha2 with h | h
        · exact h
        · rcases List.mem_cons.mp hb1 with h3 | h3
          · exact h3.symm
          · exact cmp_le_antisymm a b (hnul a (List.mem_cons_self _ _)) (hnul b hb1)
              (List.rel_of_sorted_cons s1 b h3) (List.rel_of_sorted_cons s2 a h)
      subst hab
      rw [ih u (fun x hx => hnul x (List.mem_cons_of_mem _ hx)) (List.Perm.cons_inv hp)
        s1.of_cons s2.of_cons]

theorem qsort_is_the_sorted_arrangement (arr l : List Str) (hnul : ∀ a ∈ arr, NUL ∉ a)
    (hp : l.Perm arr) (hs : l.Sorted cmp_le) : l = qsort arr :=
  qsort_unique l (qsort arr) (fun a ha => hnul a (hp.subset ha))
    (hp.trans (qsort_perm arr).symm) hs (qsort_sorted arr)

theorem take_take_append (n : Nat) (a b : List Char) :
    (a.take n ++ b).take n = (a ++ b).take n := by
  by_cases h : a.length ≤ n
  · rw [List.take_of_length_le h]
  · have h1 : n ≤ a.length := by omega
    have h2 : (a.take n).length = n := by simp; omega
    rw [List.take_append_of_le_length h1, List.take_append_of_le_length (by omega)]
    simp

theorem strncat_room (out src : Str) (h : out.length ≤ BUFSIZE - 1) :
    strncat out src (BUFSIZE - out.length - 1) = (out ++ src).take (BUFSIZE - 1) := by
  unfold strncat
  rw [List.take_append_eq_append_take, List.take_of_length_le h]
  congr 2
  omega

theorem cat_names_fold (arr : List Str) : ∀ (out : Str), out.length ≤ BUFSIZE - 1 →
    arr.foldl (fun out nm =>
        let out1 := strncat out nm (BUFSIZE - out.length - 1)
        strncat out1 "\n".toList (BUFSIZE - out1.length - 1)) out
      = (out ++ lines_of arr).take (BUFSIZE - 1) := by
  induction arr with
  | nil =>
    intro out h
    simp [lines_of, List.take_of_length_le h]
  | cons nm rest ih =>
    intro out h
    have h1 : strncat out nm (BUFSIZE - out.length - 1) = (out ++ nm).take (BUFSIZE - 1) :=
      strncat_room out nm h
    have h2 : ((out ++ nm).take (BUFSIZE - 1)).length ≤ BUFSIZE - 1 := by simp
    have h3 := strncat_room ((out ++ nm).take (BUFSIZE - 1)) "\n".toList h2
    have h4 : (((out ++ nm).take (BUFSIZE - 1) ++ "\n".toList).take (BUFSIZE - 1)).length
        ≤ BUFSIZE - 1 := by simp
    simp only [List.foldl_cons, h1, h3]
    rw [ih _ h4, take_take_append, List.append_assoc, take_take_append]
    simp [lines_of]

theorem cat_names_eq (arr : List Str) : cat_names arr = (lines_of arr).take 1023 := by
  have := cat_names_fold arr [] (by simp)
  simpa [cat_names, BUFSIZE] using this

theorem cat_names_fits (arr : List Str) (h : (lines_of arr).length ≤ 1023) :
    cat_names arr = lines_of arr := by
  rw [cat_names_eq, List.take_of_length_le h]

theorem cat_names_length (arr : List Str) : (cat_names arr).length ≤ 1023 := by
  rw [cat_names_eq]
  simp

theorem lines_of_length (l : List Str) :
    (lines_of l).length = (l.map (fun t => t.length + 1)).sum := by
  induction l with
  | nil => rfl
  | cons a t ih =>
    simp only [lines_of, List.flatMap_cons, List.length_append, List.map_cons, List.sum_cons]
      at ih ⊢
    rw [ih]
    simp

theorem lines_of_perm_length {l1 l2 : List Str} (h : l1.Perm l2) :
    (lines_of l1).length = (lines_of l2).length := by
  rw [lines_of_length, lines_of_length]
  exact (h.map _).sum_eq

theorem split_nl_ne_nil (s : Str) : split_nl s ≠ [] := by
  cases s with
  | nil => simp [split_nl]
  | cons c t =>
    simp only [split_nl]
    split_ifs
    · simp
    · split <;> simp

theorem split_nl_sum (s : Str) :
    ((split_nl s).map (fun t => t.length + 1)).sum = s.length + 1 := by
  induction s with
  | nil => simp [split_nl]
  | cons c t ih =>
    simp only [split_nl]
    split_ifs
    · simp only [List.map_cons, List.sum_cons, ih, List.length_nil, List.length_cons]
      omega
    · have hne := split_nl_ne_nil t
      cases h : split_nl t with
      | nil => exact absurd h hne
      | cons a r =>
        rw [h] at ih
        simp only [List.map_cons, List.sum_cons, List.length_cons] at ih ⊢
        omega

theorem sum_filter_le (p : Str → Bool) (l : List Str) :
    ((l.filter p).map (fun t => t.length + 1)).sum ≤ (l.map (fun t => t.length + 1)).sum := by
  induction l with
  | nil => simp
  | cons a t ih =>
    by_cases h : p a = true
    · simp only [List.filter_cons_of_pos h, List.map_cons, List.sum_cons]
      omega
    · simp only [List.filter_cons_of_neg h, List.map_cons, List.sum_cons]
      omega

theorem sum_take_le (n : Nat) (l : List Str) :
    ((l.take n).map (fun t => t.length + 1)).sum ≤ (l.map (fun t => t.length + 1)).sum := by
  induction l generalizing n with
  | nil => simp
  | cons a t ih =>
    cases n with
    | zero => simp
    | succ n =>
      have := ih n
      simp only [List.take_succ_cons, List.map_cons, List.sum_cons]
      omega

theorem strtok_all_lines_length (s : Str) : (lines_of (strtok_all s)).length ≤ s.length + 1 := by
  rw [lines_of_length, strtok_all]
  calc ((((split_nl s).filter (fun t => t != [])).take 1024).map (fun t => t.length + 1)).sum
      ≤ (((split_nl s).filter (fun t => t != [])).map (fun t => t.length + 1)).sum :=
        sum_take_le _ _
    _ ≤ ((split_nl s).map (fun t => t.length + 1)).sum := sum_filter_le _ _
    _ = s.length + 1 := split_nl_sum s

theorem lines_of_getLast (l : List Str) (h : l ≠ []) : (lines_of l).getLast? = some '\n' := by
  induction l with
  | nil => exact absurd rfl h
  | cons a t ih =>
    by_cases ht : t = []
    · subst ht
      simp [lines_of]
    · have := ih ht
      simp only [lines_of, List.flatMap_cons] at this ⊢
      rw [List.getLast?_append, this]
      simp

theorem take_append_last (l : List Char) (n : Nat) (x : Char) (hlen : l.length = n + 1)
    (hlast : l.getLast? = some x) : l.take n ++ [x] = l := by
  have hne : l ≠ [] := by
    intro h; rw [h] at hlen; simp at hlen
  have h1 := List.dropLast_append_getLast hne
  have h2 : l.getLast hne = x := by
    rw [List.getLast?_eq_getLast _ hne] at hlast
    exact Option.some.inj hlast
  have h3 : l.dropLast = l.take n := by
    rw [List.dropLast_eq_take, hlen]
    simp
  rw [← h3, ← h2]
  exact h1

theorem group_of_names (r : Str) (h : r.length ≤ 1023) :
    group_of r = lines_of (qsort (strtok_all r))
      ∨ group_of r ++ ['\n'] = lines_of (qsort (strtok_all r)) := by
  have hlen : (lines_of (qsort (strtok_all r))).length ≤ 1024 := by
    rw [lines_of_perm_length (qsort_perm _)]
    have := strtok_all_lines_length r
    omega
  unfold group_of
  rw [cat_names_eq]
  by_cases h1 : (lines_of (qsort (strtok_all r))).length ≤ 1023
  · left
    exact List.take_of_length_le h1
  · right
    have hne : qsort (strtok_all r) ≠ [] := by
      intro h0
      rw [h0] at h1
      simp [lines_of] at h1
    exact take_append_last _ 1023 '\n' (by omega) (lines_of_getLast _ hne)

/-! ### The listing -/

theorem recv_len (max : Nat) : ∀ inp : List Ev,
    (recv max inp).1 = ((recv max inp).2.1.length : Int)
      ∨ ((recv max inp).1 = -1 ∧ (recv max inp).2.1 = []) := by
  intro inp
  induction inp with
  | nil => left; simp [recv]
  | cons ev rest ih =>
    cases ev with
    | fail => right; simp [recv]
    | data bs =>
      simp only [recv]
      split_ifs with h1 h2
      · exact ih
      · left; rfl
      · left
        simp
        omega

theorem cstr_length_le (bs : List Char) : (cstr bs).length ≤ bs.length := by
  unfold cstr
  exact (List.takeWhile_sublist _).length_le

theorem collect_length (env : Env) (path : Str) (port : Nat) (tmp : Str) (s : St)
    (c : Bool × Str × St) (h : collect_files_from_server env path port tmp s = .ok c) :
    (if c.1 then c.2.1 else []).length ≤ 1023 := by
  unfold collect_files_from_server at h
  cases hn : env.node port with
  | none =>
    simp only [hn] at h
    injection h with h
    subst h
    simp
  | some nd =>
    simp only [hn] at h
    have h2 := cstr_length_le
      (recv BUFSIZE (nd s.fs [snprintf BUFSIZE ("dispfnames ".toList ++ path)]).2).2.1
    have h3 := recv_len BUFSIZE (nd s.fs [snprintf BUFSIZE ("dispfnames ".toList ++ path)]).2
    generalize recv BUFSIZE (nd s.fs [snprintf BUFSIZE ("dispfnames ".toList ++ path)]).2 = rv
      at h h2 h3
    by_cases hb : (BUFSIZE : Int) ≤ (if rv.1 < 0 then 0 else rv.1)
    · rw [if_pos hb] at h
      cases h
    · rw [if_neg hb] at h
      injection h with h
      subst h
      simp only [if_true]
      refine le_trans h2 ?_
      rcases h3 with h3 | ⟨h3, h4⟩
      · rw [h3] at hb
        simp only [BUFSIZE] at hb
        split_ifs at hb <;> omega
      · rw [h4]
        simp

theorem dispf_lists_length (env : Env) (dirpath : Str) (s : St) (r1 r2 r3 : Str) (s3 : St)
    (h : dispf_lists env dirpath s = .ok (r1, r2, r3, s3)) :
    r1.length ≤ 1023 ∧ r2.length ≤ 1023 ∧ r3.length ≤ 1023 := by
  unfold dispf_lists at h
  simp only at h
  cases h1 : collect_files_from_server env
      (snprintf 512 ("~S2".toList ++ List.drop 3 dirpath)) 7100 [] s with
  | hang => rw [h1] at h; cases h
  | ub => rw [h1] at h; cases h
  | ok c1 =>
    simp only [h1, Res.bind] at h
    cases h2 : collect_files_from_server env
        (snprintf 512 ("~S3".toList ++ List.drop 3 dirpath)) 7200 c1.2.1 c1.2.2 with
    | hang => rw [h2] at h; cases h
    | ub => rw [h2] at h; cases h
    | ok c2 =>
      simp only [h2] at h
      cases h3 : collect_files_from_server env
          (snprintf 512 ("~S4".toList ++ List.drop 3 dirpath)) 7300 c2.2.1 c2.2.2 with
      | hang => rw [h3] at h; cases h
      | ub => rw [h3] at h; cases h
      | ok c3 =>
        simp only [h3, Res.map] at h
        injection h with h
        simp only [Prod.mk.injEq] at h
        obtain ⟨e1, e2, e3, _⟩ := h
        rw [← e1, ← e2, ← e3]
        exact ⟨collect_length _ _ _ _ _ _ h1, collect_length _ _ _ _ _ _ h2,
          collect_length _ _ _ _ _ _ h3⟩

theorem collect_cout (env : Env) (path : Str) (port : Nat) (tmp : Str) (s : St)
    (c : Bool × Str × St) (h : collect_files_from_server env path port tmp s = .ok c) :
    c.2.2.cout = s.cout ∧ c.2.2.cin = s.cin := by
  unfold collect_files_from_server at h
  cases hn : env.node port with
  | none =>
    simp only [hn] at h
    injection h with h
    subst h
    exact ⟨rfl, rfl⟩
  | some nd =>
    simp only [hn] at h
    split_ifs at h <;>
    · injection h with h
      subst h
      exact ⟨rfl, rfl⟩

theorem dispf_lists_cout (env : Env) (dirpath : Str) (s : St) (r1 r2 r3 : Str) (s3 : St)
    (h : dispf_lists env dirpath s = .ok (r1, r2, r3, s3)) :
    s3.cout = s.cout ∧ s3.cin = s.cin := by
  unfold dispf_lists at h
  simp only at h
  cases h1 : collect_files_from_server env
      (snprintf 512 ("~S2".toList ++ List.drop 3 dirpath)) 7100 [] s with
  | hang => rw [h1] at h; cases h
  | ub => rw [h1] at h; cases h
  | ok c1 =>
    simp only [h1, Res.bind] at h
    cases h2 : collect_files_from_server env
        (snprintf 512 ("~S3".toList ++ List.drop 3 dirpath)) 7200 c1.2.1 c1.2.2 with
    | hang => rw [h2] at h; cases h
    | ub => rw [h2] at h; cases h
    | ok c2 =>
      simp only [h2] at h
      cases h3 : collect_files_from_server env
          (snprintf 512 ("~S4".toList ++ List.drop 3 dirpath)) 7300 c2.2.1 c2.2.2 with
      | hang => rw [h3] at h; cases h
      | ub => rw [h3] at h; cases h
      | ok c3 =>
        simp only [h3, Res.map] at h
        injection h with h
        simp only [Prod.mk.injEq] at h
        obtain ⟨_, _, _, e4⟩ := h
        have k1 := collect_cout _ _ _ _ _ _ h1
        have k2 := collect_cout _ _ _ _ _ _ h2
        have k3 := collect_cout _ _ _ _ _ _ h3
        rw [← e4]
        exact ⟨by rw [k3.1, k2.1, k1.1], by rw [k3.2, k2.2, k1.2]⟩

theorem dispf_groups_eq (env : Env) (cmd : Str) (s : St) (dirpath r1 r2 r3 : Str) (s3 : St)
    (hcmd : sscanf1 "dispfnames".toList cmd = some dirpath)
    (hlen : 3 ≤ dirpath.length ∧ dirpath.length < 512)
    (hnames : (local_c_names env
      (snprintf 512 (env.home ++ "/".toList ++ dirpath.drop 1))).length ≤ 1024)
    (hlists : dispf_lists env dirpath s = .ok (r1, r2, r3, s3)) :
    dispf_groups env cmd s = .ok
      (cat_names (qsort (local_c_names env
          (snprintf 512 (env.home ++ "/".toList ++ dirpath.drop 1)))),
        group_of r1, group_of r2, group_of r3, s3) := by
  have h1 : ¬ (512 ≤ dirpath.length ∨ dirpath.length < 3) := by omega
  have h2 : ¬ 1024 < (local_c_names env
      (snprintf 512 (env.home ++ "/".toList ++ dirpath.drop 1))).length := by omega
  unfold dispf_groups
  simp only [hcmd, if_neg h1, if_neg h2, hlists, Res.map]

/-- C5, as amended. In the listing built by `handle_dispfnames` each group is made from a
list of names that is in ascending `strcmp` order and is a rearrangement of the names
its source supplied.  Each group is the first 1023 bytes of that list with a line feed
after each name: the local group is the whole of it when the names with their line feeds
take at most 1023 bytes, and is cut at 1023 bytes beyond that.  A remote group, whose
names are the non-empty tokens between line feeds of the string `r` copied from the
node's reply, is that list with a line feed after each name, except that the last line
feed can be missing: no name of a remote group is dropped, cut short or duplicated. -/
theorem listing_groups_sorted (env : Env) (cmd : Str) (s : St) (dirpath r1 r2 r3 : Str)
    (s3 : St)
    (hcmd : sscanf1 "dispfnames".toList cmd = some dirpath)
    (hlen : 3 ≤ dirpath.length ∧ dirpath.length < 512)
    (hnames : (local_c_names env
      (snprintf 512 (env.home ++ "/".toList ++ dirpath.drop 1))).length ≤ 1024)
    (hlists : dispf_lists env dirpath s = .ok (r1, r2, r3, s3)) :
    ∃ g1 g2 g3 g4, dispf_groups env cmd s = .ok (g1, g2, g3, g4, s3) ∧
      (∃ L : List Str, L.Sorted cmp_le
        ∧ L.Perm (local_c_names env (snprintf 512 (env.home ++ "/".toList ++ dirpath.drop 1)))
        ∧ g1 = (lines_of L).take 1023
        ∧ ((lines_of (local_c_names env
              (snprintf 512 (env.home ++ "/".toList ++ dirpath.drop 1)))).length ≤ 1023
            → g1 = lines_of L)) ∧
      ∀ gr ∈ [(g2, r1), (g3, r2), (g4, r3)],
        ∃ L : List Str, L.Sorted cmp_le ∧ L.Perm (strtok_all gr.2)
          ∧ gr.1 = (lines_of L).take 1023
          ∧ (gr.1 = lines_of L ∨ gr.1 ++ ['\n'] = lines_of L) := by
  obtain ⟨l1, l2, l3⟩ := dispf_lists_length env dirpath s r1 r2 r3 s3 hlists
  refine ⟨_, _, _, _, dispf_groups_eq env cmd s dirpath r1 r2 r3 s3 hcmd hlen hnames hlists,
    ⟨_, qsort_sorted _, qsort_perm _, cat_names_eq _, ?_⟩, ?_⟩
  · intro hfit
    exact cat_names_fits _ (by rw [lines_of_perm_length (qsort_perm _)]; exact hfit)
  · intro gr hgr
    simp only [List.mem_cons, List.mem_singleton, List.not_mem_nil, or_false] at hgr
    rcases hgr with rfl | rfl | rfl
    · exact ⟨_, qsort_sorted _, qsort_perm _, cat_names_eq _, group_of_names r1 l1⟩
    · exact ⟨_, qsort_sorted _, qsort_perm _, cat_names_eq _, group_of_names r2 l2⟩
    · exact ⟨_, qsort_sorted _, qsort_perm _, cat_names_eq _, group_of_names r3 l3⟩

/-- Witness of C5 as amended: the directory of `ex_env_list` and its three nodes. -/
theorem listing_groups_sorted_witness :
    ∃ g1 g2 g3 g4, dispf_groups ex_env_list "dispfnames ~S1/docs".toList (ex_st [])
        = .ok (g1, g2, g3, g4, ex_st_list) ∧
      (∃ L : List Str, L.Sorted cmp_le
        ∧ L.Perm (local_c_names ex_env_list (snprintf 512
            (ex_env_list.home ++ "/".toList ++ "~S1/docs".toList.drop 1)))
        ∧ g1 = (lines_of L).take 1023
        ∧ ((lines_of (local_c_names ex_env_list (snprintf 512
              (ex_env_list.home ++ "/".toList ++ "~S1/docs".toList.drop 1)))).length ≤ 1023
            → g1 = lines_of L)) ∧
      ∀ gr ∈ [(g2, "z.pdf\n".toList), (g3, []), (g4, [])],
        ∃ L : List Str, L.Sorted cmp_le ∧ L.Perm (strtok_all gr.2)
          ∧ gr.1 = (lines_of L).take 1023
          ∧ (gr.1 = lines_of L ∨ gr.1 ++ ['\n'] = lines_of L) :=
  listing_groups_sorted ex_env_list "dispfnames ~S1/docs".toList (ex_st [])
    "~S1/docs".toList "z.pdf\n".toList [] [] ex_st_list (by decide) (by decide) (by decide) rfl

/-- C5 fails for a directory with five file names of 255 characters: the local group
holds the first 1023 bytes only, so its tokens are four of the five names. -/
theorem local_group_drops_names :
    (dispf_groups (ex_env_big 5) "dispfnames ~S1/big".toList (ex_st [])).map
        (fun g => strtok_all g.1) = .ok ((qsort big_names).take 4)
    ∧ (qsort big_names).length = 5
    ∧ local_c_names (ex_env_big 5) "/home/u/S1/big".toList = big_names := by
  decide!

/-- C4, as amended. The text `handle_dispfnames` sends is the concatenation, in this
fixed order, of the local `.c` group and the groups of the nodes on ports 7100, 7200
and 7300, each group being the first 1023 bytes of its names in sorted order with a
line feed after each name, and nothing is sorted across groups; when that concatenation
is empty the reply is exactly `No files found in the specified path.` and a line feed.
Nothing else is sent to the client. -/
theorem listing_reply (env : Env) (cmd : Str) (s : St) (dirpath r1 r2 r3 : Str) (s3 : St)
    (hcmd : sscanf1 "dispfnames".toList cmd = some dirpath)
    (hlen : 3 ≤ dirpath.length ∧ dirpath.length < 512)
    (hnames : (local_c_names env
      (snprintf 512 (env.home ++ "/".toList ++ dirpath.drop 1))).length ≤ 1024)
    (hlists : dispf_lists env dirpath s = .ok (r1, r2, r3, s3)) :
    handle_dispfnames env cmd s = .ok (s3.send
      (if listing_text (local_c_names env
            (snprintf 512 (env.home ++ "/".toList ++ dirpath.drop 1))) r1 r2 r3 = []
        then "No files found in the specified path.\n".toList
        else listing_text (local_c_names env
            (snprintf 512 (env.home ++ "/".toList ++ dirpath.drop 1))) r1 r2 r3))
    ∧ s3.cout = s.cout := by
  refine ⟨?_, (dispf_lists_cout env dirpath s r1 r2 r3 s3 hlists).1⟩
  unfold handle_dispfnames
  simp only [dispf_groups_eq env cmd s dirpath r1 r2 r3 s3 hcmd hlen hnames hlists, group_of,
    cat_names_eq]
  by_cases h : listing_text (local_c_names env
      (snprintf 512 (env.home ++ "/".toList ++ dirpath.drop 1))) r1 r2 r3 = []
  · rw [if_pos h]
    unfold listing_text at h
    rw [if_pos (by rw [h]; rfl)]
  · rw [if_neg h]
    unfold listing_text at h ⊢
    rw [if_neg (by
      intro h0
      exact h (List.length_eq_zero.mp h0))]

/-- Witness of C4 as amended: the local names `b.c` and `a.c` and the one remote group
`z.pdf` give `a.c`, `b.c`, `z.pdf`, each followed by a line feed. -/
theorem listing_reply_witness :
    (handle_dispfnames ex_env_list "dispfnames ~S1/docs".toList (ex_st [])).map
      (fun s1 => s1.cout) = .ok ["a.c\nb.c\nz.pdf\n".toList] := by
  rw [(listing_reply ex_env_list "dispfnames ~S1/docs".toList (ex_st [])
    "~S1/docs".toList "z.pdf\n".toList [] [] ex_st_list (by decide) (by decide) (by decide)
    rfl).1]
  decide

/-- C4 fails for a directory with four file names of 255 characters: the names with their
line feeds take 1024 bytes, the text sent has 1023, and the last name is not followed
by a line feed. -/
theorem listing_reply_cut :
    (handle_dispfnames (ex_env_big 4) "dispfnames ~S1/big".toList (ex_st [])).map
        (fun s1 => s1.cout) = .ok [(lines_of (qsort (big_names.take 4))).take 1023]
    ∧ (lines_of (qsort (big_names.take 4))).take 1023
        ≠ lines_of (qsort (big_names.take 4)) ++ lines_of [] ++ lines_of [] ++ lines_of []
    ∧ local_c_names (ex_env_big 4) "/home/u/S1/big".toList = big_names.take 4 := by
  decide!

/-! ### A node that fails during a listing -/

theorem recv_neg_data (max : Nat) : ∀ inp : List Ev,
    (recv max inp).1 < 0 → (recv max inp).2.1 = [] := by
  intro inp h
  rcases recv_len max inp with h1 | ⟨_, h2⟩
  · rw [h1] at h
    omega
  · exact h2

theorem collect_alike_of (env env1 : Env) (path : Str) (port : Nat) (tmp tmp1 : Str)
    (s s1 : St) (hfs : s.fs = s1.fs) (hcout : s.cout = s1.cout) (hcin : s.cin = s1.cin)
    (hnode : env1.node port = env.node port
      ∨ (node_fails (env.node port) ∧ env1.node port = some (silent (env.node port)))) :
    collect_alike (collect_files_from_server env path port tmp s)
      (collect_files_from_server env1 path port tmp1 s1) := by
  rcases hnode with h | ⟨hf, h⟩
  · unfold collect_files_from_server
    rw [h]
    cases hn : env.node port with
    | none => simp [collect_alike, St.connect, hfs, hcout, hcin]
    | some nd =>
      simp only [← hfs]
      split_ifs <;> simp [collect_alike, St.connect, hcout, hcin]
  · unfold collect_files_from_server
    rw [h]
    cases hn : env.node port with
    | none =>
      simp [collect_alike, St.connect, hfs, hcout, hcin, silent, recv, cstr, BUFSIZE]
    | some nd =>
      rw [hn] at hf
      have h1 := hf s.fs [snprintf BUFSIZE ("dispfnames ".toList ++ path)]
      have h2 := recv_neg_data BUFSIZE _ h1
      simp only [silent, ← hfs, recv, h2, if_pos h1]
      simp [collect_alike, St.connect, hcout, hcin, cstr, BUFSIZE]

theorem collect_fail_empty (env : Env) (path : Str) (port : Nat) (tmp : Str) (s : St)
    (c : Bool × Str × St) (hf : node_fails (env.node port))
    (h : collect_files_from_server env path port tmp s = .ok c) :
    (if c.1 then c.2.1 else []) = [] := by
  unfold collect_files_from_server at h
  cases hn : env.node port with
  | none =>
    simp only [hn] at h
    injection h with h
    subst h
    rfl
  | some nd =>
    rw [hn] at hf
    have h1 := hf s.fs [snprintf BUFSIZE ("dispfnames ".toList ++ path)]
    have h2 := recv_neg_data BUFSIZE _ h1
    simp only [hn, if_pos h1] at h
    split_ifs at h
    injection h with h
    subst h
    simp only [if_true]
    rw [h2]
    rfl

theorem collect_alike_bind {β : Type} (Q : Res β → Res β → Prop) (hh : Q .hang .hang)
    (hu : Q .ub .ub) (x y : Res (Bool × Str × St)) (F G : Bool × Str × St → Res β)
    (hxy : collect_alike x y)
    (hFG : ∀ c d : Bool × Str × St,
      (if c.1 then c.2.1 else []) = (if d.1 then d.2.1 else []) → c.2.2.fs = d.2.2.fs →
      c.2.2.cout = d.2.2.cout → c.2.2.cin = d.2.2.cin → Q (F c) (G d)) :
    Q (x.bind F) (y.bind G) := by
  cases x with
  | hang =>
    cases y with
    | hang => exact hh
    | ub => exact hxy.elim
    | ok d => exact hxy.elim
  | ub =>
    cases y with
    | hang => exact hxy.elim
    | ub => exact hu
    | ok d => exact hxy.elim
  | ok c =>
    cases y with
    | hang => exact hxy.elim
    | ub => exact hxy.elim
    | ok d => exact hFG c d hxy.1 hxy.2.1 hxy.2.2.1 hxy.2.2.2

theorem Res.map_eq_bind {α β : Type} (f : α → β) (r : Res α) :
    r.map f = r.bind (fun a => .ok (f a)) := by
  cases r <;> rfl

theorem lists_alike_of (env env1 : Env) (dirpath : Str) (s : St)
    (hnode : ∀ q, env1.node q = env.node q
      ∨ (node_fails (env.node q) ∧ env1.node q = some (silent (env.node q)))) :
    lists_alike (dispf_lists env dirpath s) (dispf_lists env1 dirpath s) := by
  unfold dispf_lists
  simp only [Res.map_eq_bind]
  apply collect_alike_bind lists_alike trivial trivial _ _ _ _
    (collect_alike_of env env1 _ 7100 [] [] s s rfl rfl rfl (hnode 7100))
  intro c1 d1 e1 f1 o1 i1
  apply collect_alike_bind lists_alike trivial trivial _ _ _ _
    (collect_alike_of env env1 _ 7200 c1.2.1 d1.2.1 c1.2.2 d1.2.2 f1 o1 i1 (hnode 7200))
  intro c2 d2 e2 f2 o2 i2
  apply collect_alike_bind lists_alike trivial trivial _ _ _ _
    (collect_alike_of env env1 _ 7300 c2.2.1 d2.2.1 c2.2.2 d2.2.2 f2 o2 i2 (hnode 7300))
  intro c3 d3 e3 f3 o3 i3
  exact ⟨e1, e2, e3, o3⟩

theorem lists_fail_empty (env : Env) (dirpath : Str) (s : St) (port : Nat)
    (hf : node_fails (env.node port)) (l : Str × Str × Str × St)
    (h : dispf_lists env dirpath s = .ok l) :
    (port = 7100 → l.1 = []) ∧ (port = 7200 → l.2.1 = []) ∧ (port = 7300 → l.2.2.1 = []) := by
  unfold dispf_lists at h
  simp only at h
  cases h1 : collect_files_from_server env
      (snprintf 512 ("~S2".toList ++ List.drop 3 dirpath)) 7100 [] s with
  | hang => rw [h1] at h; cases h
  | ub => rw [h1] at h; cases h
  | ok c1 =>
    simp only [h1, Res.bind] at h
    cases h2 : collect_files_from_server env
        (snprintf 512 ("~S3".toList ++ List.drop 3 dirpath)) 7200 c1.2.1 c1.2.2 with
    | hang => rw [h2] at h; cases h
    | ub => rw [h2] at h; cases h
    | ok c2 =>
      simp only [h2] at h
      cases h3 : collect_files_from_server env
          (snprintf 512 ("~S4".toList ++ List.drop 3 dirpath)) 7300 c2.2.1 c2.2.2 with
      | hang => rw [h3] at h; cases h
      | ub => rw [h3] at h; cases h
      | ok c3 =>
        simp only [h3, Res.map] at h
        injection h with h
        subst h
        refine ⟨?_, ?_, ?_⟩
        · intro hp; subst hp
          exact collect_fail_empty _ _ _ _ _ _ hf h1
        · intro hp; subst hp
          exact collect_fail_empty _ _ _ _ _ _ hf h2
        · intro hp; subst hp
          exact collect_fail_empty _ _ _ _ _ _ hf h3

theorem groups_alike_of (env env1 : Env) (cmd : Str) (s : St)
    (hhome : env1.home = env.home) (hdir : env1.readdir = env.readdir)
    (hnode : ∀ q, env1.node q = env.node q
      ∨ (node_fails (env.node q) ∧ env1.node q = some (silent (env.node q)))) :
    groups_alike (dispf_groups env cmd s) (dispf_groups env1 cmd s) := by
  have hloc : ∀ dir, local_c_names env1 dir = local_c_names env dir := by
    intro dir
    simp only [local_c_names, hdir]
  unfold dispf_groups
  cases hc : sscanf1 "dispfnames".toList cmd with
  | none => trivial
  | some dirpath =>
    simp only [hhome, hloc]
    by_cases h1 : 512 ≤ dirpath.length ∨ dirpath.length < 3
    · simp only [if_pos h1]
      trivial
    · simp only [if_neg h1]
      have hl := lists_alike_of env env1 dirpath s hnode
      split_ifs
      · trivial
      · cases k1 : dispf_lists env dirpath s with
        | hang =>
          cases k2 : dispf_lists env1 dirpath s with
          | hang => trivial
          | ub => rw [k1, k2] at hl; exact hl.elim
          | ok d => rw [k1, k2] at hl; exact hl.elim
        | ub =>
          cases k2 : dispf_lists env1 dirpath s with
          | hang => rw [k1, k2] at hl; exact hl.elim
          | ub => trivial
          | ok d => rw [k1, k2] at hl; exact hl.elim
        | ok c =>
          cases k2 : dispf_lists env1 dirpath s with
          | hang => rw [k1, k2] at hl; exact hl.elim
          | ub => rw [k1, k2] at hl; exact hl.elim
          | ok d =>
            rw [k1, k2] at hl
            obtain ⟨e1, e2, e3, o3⟩ := hl
            simp only [Res.map, groups_alike, groups4, e1, e2, e3, o3, and_self]

theorem with_node_alike (env : Env) (port : Nat) (hfail : node_fails (env.node port)) :
    ∀ q, (env.with_node port (some (silent (env.node port)))).node q = env.node q
      ∨ (node_fails (env.node q)
        ∧ (env.with_node port (some (silent (env.node port)))).node q
          = some (silent (env.node q))) := by
  intro q
  by_cases h : q = port
  · subst h
    right
    exact ⟨hfail, by simp [Env.with_node]⟩
  · left
    simp [Env.with_node, h]

/-- C6. When one of the three nodes cannot be connected to, or the receive of its answer
fails or times out, the four groups of the listing are exactly those of the run in which
that node answers with an empty list, the group of that node is empty, and the reply
sent to the client is the same in both runs.  The buffer shared by the three calls
therefore never carries an earlier node's names into the failed node's group. -/
theorem listing_with_failed_node (env : Env) (cmd : Str) (s : St) (port : Nat)
    (hport : port ∈ [7100, 7200, 7300]) (hfail : node_fails (env.node port)) :
    (dispf_groups env cmd s).map groups4
      = (dispf_groups (env.with_node port (some (silent (env.node port)))) cmd s).map groups4
    ∧ (∀ g, (dispf_groups env cmd s).map groups4 = .ok g → group_at port g = [])
    ∧ (handle_dispfnames env cmd s).map (fun t => t.cout)
      = (handle_dispfnames (env.with_node port (some (silent (env.node port)))) cmd s).map
          (fun t => t.cout) := by
  have ha := groups_alike_of env (env.with_node port (some (silent (env.node port)))) cmd s
    rfl rfl (with_node_alike env port hfail)
  refine ⟨?_, ?_, ?_⟩
  · cases k1 : dispf_groups env cmd s <;>
    cases k2 : dispf_groups (env.with_node port (some (silent (env.node port)))) cmd s <;>
    rw [k1, k2] at ha <;>
    first
    | exact ha.elim
    | rfl
    | (simp only [Res.map]; rw [ha.1])
  · intro g hg
    unfold dispf_groups at hg
    cases hc : sscanf1 "dispfnames".toList cmd with
    | none => rw [hc] at hg; cases hg
    | some dirpath =>
      simp only [hc] at hg
      split_ifs at hg
      · cases hg
      · cases hg
      · cases k1 : dispf_lists env dirpath s with
        | hang => rw [k1] at hg; cases hg
        | ub => rw [k1] at hg; cases hg
        | ok l =>
          rw [k1] at hg
          simp only [Res.map, groups4] at hg
          injection hg with hg
          subst hg
          obtain ⟨p1, p2, p3⟩ := lists_fail_empty env dirpath s port hfail l k1
          simp only [List.mem_cons, List.mem_singleton, List.not_mem_nil, or_false] at hport
          rcases hport with rfl | rfl | rfl
          · simp only [group_at, if_true, p1 rfl]
            rfl
          · simp only [group_at, p2 rfl]
            rfl
          · simp only [group_at, p3 rfl]
            rfl
  · unfold handle_dispfnames
    cases k1 : dispf_groups env cmd s <;>
    cases k2 : dispf_groups (env.with_node port (some (silent (env.node port)))) cmd s <;>
    rw [k1, k2] at ha <;>
    first
    | exact ha.elim
    | rfl
    | skip
    rename_i c d
    obtain ⟨e, o⟩ := ha
    simp only [groups4, Prod.mk.injEq] at e
    obtain ⟨e1, e2, e3, e4⟩ := e
    simp only [e1, e2, e3, e4]
    split_ifs <;> simp only [Res.map, St.send, o]

/-- Witness of C6: in `ex_env_list` no node listens on port 7200. -/
theorem listing_with_failed_node_witness :
    (dispf_groups ex_env_list "dispfnames ~S1/docs".toList (ex_st [])).map groups4
      = (dispf_groups (ex_env_list.with_node 7200 (some (silent (ex_env_list.node 7200))))
          "dispfnames ~S1/docs".toList (ex_st [])).map groups4
    ∧ (∀ g, (dispf_groups ex_env_list "dispfnames ~S1/docs".toList (ex_st [])).map groups4
        = .ok g → group_at 7200 g = [])
    ∧ (handle_dispfnames ex_env_list "dispfnames ~S1/docs".toList (ex_st [])).map
        (fun t => t.cout)
      = (handle_dispfnames (ex_env_list.with_node 7200 (some (silent (ex_env_list.node 7200))))
          "dispfnames ~S1/docs".toList (ex_st [])).map (fun t => t.cout) :=
  listing_with_failed_node ex_env_list "dispfnames ~S1/docs".toList (ex_st []) 7200
    (by decide) trivial

/-! ### Uploads: the reply after a failed relay, the payload of a rejected upload, and
the destinations that are accepted -/

/-- C7, with no node listening on port 7100: `uploadf report.pdf ~S1/docs` with payload
`hello` makes `forward_file` return at the failed `connect`, nothing is sent to a node
and no file is left in the store, and the client is still answered
`File stored successfully.` -/
theorem upload_answers_success_when_node_down :
    (handle_upload ex_env_down "uploadf report.pdf ~S1/docs".toList
        (ex_st [Ev.data (encodeLong 5), Ev.data "hello".toList])).map
      (fun s => (s.cout, s.conns, s.fs "/home/u/S2/docs/report.pdf".toList,
        s.fs (temp_path ex_env_down "report.pdf".toList)))
    = .ok (["File stored successfully.\n".toList], [⟨7100, false, []⟩], none, none) := by
  decide

/-- C8, at `uploadf report.pdf ~S2/docs` followed by the size 5 and the payload `hello`:
`handle_upload` returns after the reply and the size and the payload are still on the
connection, so the next `recv` of the dispatcher reads them as a command.  With the
destination `~S1/docs` and the unsupported name `report.xyz` the same bytes are
consumed before the reply. -/
theorem rejected_upload_leaves_payload :
    (handle_upload ex_env "uploadf report.pdf ~S2/docs".toList
        (ex_st [Ev.data (encodeLong 5), Ev.data "hello".toList])).map
      (fun s => (s.cout, s.cin))
    = .ok (["Destination must start with ~S1.\n".toList],
        [Ev.data (encodeLong 5), Ev.data "hello".toList])
    ∧ (handle_upload ex_env "uploadf report.xyz ~S1/docs".toList
        (ex_st [Ev.data (encodeLong 5), Ev.data "hello".toList])).map
      (fun s => (s.cout, s.cin))
    = .ok (["Unsupported file type.\n".toList], []) := by
  decide

/-- C10 fails at the destinations `~S10/docs` and `~S1x`, whose root markers are not
`~S1`: both are accepted.  The file `a.c` sent to `~S10/docs` is stored under the root
`S10`, the file `r.pdf` is forwarded to port 7100 under the root `~S20` and stored there
under `S20`. -/
theorem upload_accepts_longer_root :
    root_marker "~S10/docs".toList = "~S10".toList ∧ root_marker "~S1x".toList = "~S1x".toList
    ∧ (handle_upload ex_env "uploadf a.c ~S10/docs".toList
        (ex_st [Ev.data (encodeLong 5), Ev.data "hello".toList])).map
      (fun s => (s.cout, s.fs "/home/u/S10/docs/a.c".toList))
      = .ok (["File stored successfully.\n".toList], some "hello".toList)
    ∧ (handle_upload ex_env "uploadf a.c ~S1x".toList
        (ex_st [Ev.data (encodeLong 5), Ev.data "hello".toList])).map
      (fun s => (s.cout, s.fs "/home/u/S1x/a.c".toList))
      = .ok (["File stored successfully.\n".toList], some "hello".toList)
    ∧ (handle_upload ex_env "uploadf r.pdf ~S10/docs".toList
        (ex_st [Ev.data (encodeLong 5), Ev.data "hello".toList])).map
      (fun s => (s.cout, s.conns.map (fun c => (c.port, c.sent.take 1)),
        s.fs "/home/u/S20/docs/r.pdf".toList))
      = .ok (["File stored successfully.\n".toList],
          [(7100, ["uploadf ~S20/docs/r.pdf".toList])], some "hello".toList) := by
  refine ⟨by decide, by decide, by decide, by decide, ?_⟩
  decide

theorem forward_file_cout (env : Env) (a b : Str) (port : Nat) (s : St) :
    (forward_file env a b port s).cout = s.cout := by
  unfold forward_file
  cases env.node port with
  | none => rfl
  | some nd =>
    simp only
    cases s.fs a <;> rfl

theorem ok_ne_send (s X : St) (m r : Str) (hX : X.cout = s.cout ++ [m]) (hm : m ≠ r) :
    Res.ok X ≠ Res.ok (s.send r) := by
  intro h
  injection h with h
  have h1 := congrArg St.cout h
  rw [hX] at h1
  simp only [St.send] at h1
  have h2 := List.append_cancel_left h1
  simp only [List.cons.injEq, and_true] at h2
  exact hm h2

theorem upload_accepted_not_rejected (env : Env) (s : St) (cmd f d : Str)
    (hcmd : sscanf2 "uploadf".toList cmd = (some f, some d))
    (hf : f.length < 256) (hd : d.length < 512)
    (hdest : d.take 3 = "~S1".toList) :
    handle_upload env cmd s ≠ .ok (s.send "Destination must start with ~S1.\n".toList) := by
  have h1 : ¬ (256 ≤ f.length ∨ 512 ≤ d.length) := by omega
  have h2 : ¬ strncmp d "~S1".toList 3 ≠ 0 := fun h => h ((strncmp_S1 d).mpr hdest)
  unfold handle_upload
  rw [hcmd]
  simp only [if_neg h1, if_neg h2]
  generalize recv 8 s.cin = r
  obtain ⟨n, hdr, cin1⟩ := r
  simp only
  split_ifs
  · intro h; cases h
  · split
    · exact ok_ne_send s _ _ _ rfl (by decide)
    · intro h; cases h
    · intro h; cases h
  · exact ok_ne_send s _ _ _ rfl (by decide)
  · split
    · split
      · exact ok_ne_send s _ _ _ rfl (by decide)
      · refine ok_ne_send s _ "File stored successfully.\n".toList _ ?_ (by decide)
        simp only [St.send, forward_file_cout]
    · intro h; cases h
    · intro h; cases h
  · exact ok_ne_send s _ _ _ rfl (by decide)

/-- C10, as amended. `handle_upload` rejects a destination exactly when its first three
characters are not `~S1`; what follows them is not looked at, so a destination such as
`~S10/docs` or `~S1x` is accepted.  An accepted `.c` file is stored at the home
directory, `/`, the destination without its `~`, `/` and the file name; an accepted
`.pdf`, `.txt` or `.zip` file is forwarded to its node under `~S2`, `~S3` or `~S4`
followed by the destination without its first three characters, `/` and the file
name. -/
theorem upload_accepts_by_first_three (env : Env) (s : St) (cmd f d : Str)
    (hcmd : sscanf2 "uploadf".toList cmd = (some f, some d))
    (hf : f.length < 256) (hd : d.length < 512) :
    (handle_upload env cmd s = .ok (s.send "Destination must start with ~S1.\n".toList)
      ↔ d.take 3 ≠ "~S1".toList)
    ∧ (∀ (B : List Char) (segs : List (List Char)),
        d.take 3 = "~S1".toList → strrchr f '.' = some ".c".toList →
        s.cin = Ev.data (encodeLong B.length) :: segs.map Ev.data →
        segs.flatten = B → (B.length : Int) < 2 ^ 63 →
        env.canCreate (snprintf BUFSIZE
          (env.home ++ "/".toList ++ d.drop 1 ++ "/".toList ++ f)) = true →
        ∃ s1, handle_upload env cmd s = .ok s1 ∧
          s1.fs (snprintf BUFSIZE (env.home ++ "/".toList ++ d.drop 1 ++ "/".toList ++ f))
            = some B ∧
          s1.cout = s.cout ++ ["File stored successfully.\n".toList])
    ∧ (∀ (B : List Char) (segs : List (List Char)) (e marker : Str) (port : Nat) (nd : Node),
        (e, port, marker) ∈ [(".pdf".toList, 7100, "~S2".toList),
          (".txt".toList, 7200, "~S3".toList), (".zip".toList, 7300, "~S4".toList)] →
        d.take 3 = "~S1".toList → strrchr f '.' = some e →
        s.cin = Ev.data (encodeLong B.length) :: segs.map Ev.data →
        segs.flatten = B → (B.length : Int) < 2 ^ 63 →
        env.canCreate (temp_path env f) = true → env.node port = some nd →
        ∃ s1, handle_upload env cmd s = .ok s1 ∧
          s1.conns = s.conns ++ [⟨port, true,
            ("uploadf ".toList ++ (marker ++ d.drop 3 ++ "/".toList ++ f)) ::
              encodeLong B.length :: fread_chunks B.length B⟩]) := by
  refine ⟨⟨?_, ?_⟩, ?_, ?_⟩
  · intro h hdest
    exact upload_accepted_not_rejected env s cmd f d hcmd hf hd hdest h
  · intro hdest
    have h1 : ¬ (256 ≤ f.length ∨ 512 ≤ d.length) := by omega
    have h2 : strncmp d "~S1".toList 3 ≠ 0 := fun h => hdest ((strncmp_S1 d).mp h)
    unfold handle_upload
    rw [hcmd]
    simp only [if_neg h1, if_pos h2]
  · intro B segs hdest hext hin hB hN hc
    obtain ⟨inp, h⟩ := handle_upload_local env s cmd f d B segs hcmd hf hd hext hdest hin hB
      hN hc
    exact ⟨_, h, FS.write_same _ _ _, rfl⟩
  · intro B segs e marker port nd hroute hdest hext hin hB hN htmp hnode
    obtain ⟨inp, h⟩ := handle_upload_remote env s cmd f d B segs e marker port nd hroute hcmd
      hf hd hext hdest hin hB hN htmp hnode
    exact ⟨_, h, rfl⟩

/-- Witness of C10 as amended: the command `uploadf a.c ~S10/docs`. -/
theorem upload_accepts_by_first_three_witness :
    (handle_upload ex_env "uploadf a.c ~S10/docs".toList
        (ex_st [Ev.data (encodeLong 5), Ev.data "hello".toList])
      = .ok ((ex_st [Ev.data (encodeLong 5), Ev.data "hello".toList]).send
          "Destination must start with ~S1.\n".toList)
      ↔ "~S10/docs".toList.take 3 ≠ "~S1".toList)
    ∧ ∃ s1, handle_upload ex_env "uploadf a.c ~S10/docs".toList
        (ex_st [Ev.data (encodeLong 5), Ev.data "hello".toList]) = .ok s1 ∧
      s1.fs (snprintf BUFSIZE (ex_env.home ++ "/".toList ++ "~S10/docs".toList.drop 1
          ++ "/".toList ++ "a.c".toList)) = some "hello".toList ∧
      s1.cout = (ex_st [Ev.data (encodeLong 5), Ev.data "hello".toList]).cout
        ++ ["File stored successfully.\n".toList] :=
  have h := upload_accepts_by_first_three ex_env
    (ex_st [Ev.data (encodeLong 5), Ev.data "hello".toList])
    "uploadf a.c ~S10/docs".toList "a.c".toList "~S10/docs".toList (by decide) (by decide)
    (by decide)
  ⟨h.1, h.2.1 "hello".toList ["hello".toList] (by decide) (by decide) rfl (by decide)
    (by decide) (by decide)⟩

theorem strrchr_length_le (c : Char) : ∀ (q t : Str), strrchr q c = some t →
    t.length ≤ q.length := by
  intro q
  induction q with
  | nil => intro t h; simp [strrchr] at h
  | cons a r ih =>
    intro t h
    simp only [strrchr] at h
    cases hr : strrchr r c with
    | some t1 =>
      rw [hr] at h
      injection h with h
      subst h
      have := ih t1 hr
      simp
      omega
    | none =>
      rw [hr] at h
      simp only at h
      split_ifs at h
      injection h with h
      subst h
      simp

/-- The branch `handle_download` and `handle_remove` take for a suffix that belongs to a
node: not the local one, and the port and marker of that node. -/
theorem route_of_member (e p marker : Str) (port : Nat)
    (hroute : (e, port, marker) ∈ [(".pdf".toList, 7100, "~S2".toList),
      (".txt".toList, 7200, "~S3".toList), (".zip".toList, 7300, "~S4".toList)]) :
    strcmp e ".c".toList ≠ 0 ∧
      (if strcmp e ".pdf".toList = 0 then
          some (7100, snprintf 512 ("~S2".toList ++ p.drop 3))
        else if strcmp e ".txt".toList = 0 then
          some (7200, snprintf 512 ("~S3".toList ++ p.drop 3))
        else if strcmp e ".zip".toList = 0 then
          some (7300, snprintf 512 ("~S4".toList ++ p.drop 3))
        else none) = some (port, snprintf 512 (marker ++ p.drop 3)) := by
  simp only [List.mem_cons, Prod.mk.injEq, List.mem_singleton, List.not_mem_nil, or_false]
    at hroute
  rcases hroute with ⟨rfl, rfl, rfl⟩ | ⟨rfl, rfl, rfl⟩ | ⟨rfl, rfl, rfl⟩
  · exact ⟨by decide, by rw [if_pos (by decide)]⟩
  · exact ⟨by decide, by rw [if_neg (by decide), if_pos (by decide)]⟩
  · exact ⟨by decide, by rw [if_neg (by decide), if_neg (by decide), if_pos (by decide)]⟩
/-! ### Fetches from a node that fail before the content -/

/-- The three ways a fetch from a node ends before any content: the node is not reached,
no byte of the size arrives, or the size received is 0 or negative.  In each of them the
client is sent the size `-1` and nothing else. -/
theorem handle_download_error (env : Env) (s : St) (cmd p e marker : Str) (port : Nat)
    (hroute : (e, port, marker) ∈ [(".pdf".toList, 7100, "~S2".toList),
      (".txt".toList, 7200, "~S3".toList), (".zip".toList, 7300, "~S4".toList)])
    (hcmd : sscanf1 "downlf".toList cmd = some p)
    (hp : p.length < 512) (hext : strrchr p '.' = some e)
    (hfail : env.node port = none ∨ ∃ nd, env.node port = some nd ∧
      ((recv 8 (nd s.fs [("downlf ".toList ++ (marker ++ p.drop 3)).take 511]).2).1 ≤ 0 ∨
       decodeLong (recv 8 (nd s.fs
         [("downlf ".toList ++ (marker ++ p.drop 3)).take 511]).2).2.1 ≤ 0)) :
    ∃ s1, handle_download env cmd s = .ok s1 ∧ s1.cout = s.cout ++ [encodeLong (-1)] := by
  have h1 : ¬ 512 ≤ p.length := by omega
  have hp4 : 4 ≤ p.length := by
    have h4 := strrchr_length_le '.' p e hext
    have he : e.length = 4 := by
      simp only [List.mem_cons, Prod.mk.injEq, List.mem_singleton, List.not_mem_nil,
        or_false] at hroute
      rcases hroute with ⟨rfl, _, _⟩ | ⟨rfl, _, _⟩ | ⟨rfl, _, _⟩ <;> rfl
    omega
  have hm : marker.length = 3 := by
    simp only [List.mem_cons, Prod.mk.injEq, List.mem_singleton, List.not_mem_nil, or_false]
      at hroute
    rcases hroute with ⟨_, _, rfl⟩ | ⟨_, _, rfl⟩ | ⟨_, _, rfl⟩ <;> rfl
  have hroute2 := route_of_member e p marker port hroute
  have hfit : (marker ++ p.drop 3).length < 512 := by
    simp [hm]; omega
  unfold handle_download
  simp only [hcmd, if_neg h1, hext, if_neg hroute2.1, hroute2.2]
  rcases hfail with hnone | ⟨nd, hnode, hbad⟩
  · simp only [hnone]
    exact ⟨_, rfl, rfl⟩
  · simp only [hnode, snprintf_fits _ _ hfit]
    have hs : snprintf 512 ("downlf ".toList ++ (marker ++ List.drop 3 p))
        = ("downlf ".toList ++ (marker ++ p.drop 3)).take 511 := rfl
    rw [hs]
    generalize recv 8 (nd s.fs [("downlf ".toList ++ (marker ++ p.drop 3)).take 511]).2
      = r at hbad ⊢
    obtain ⟨n, hdr, inp1⟩ := r
    simp only at hbad ⊢
    by_cases hn : n ≤ 0
    · rw [if_pos hn]; exact ⟨_, rfl, rfl⟩
    · rw [if_neg hn]
      have hd : decodeLong hdr ≤ 0 := by
        rcases hbad with h | h
        · exact absurd h hn
        · exact h
      rw [if_pos hd]; exact ⟨_, rfl, rfl⟩

/-- Claim C11: a fetch that goes to a node and meets a node that is not reached, a size
that does not arrive, or a size that is 0 or negative, sends the client one field of 8
bytes that holds `-1`, and nothing after it. -/
theorem fetch_failure_sends_minus_one (env : Env) (s : St) (cmd p e marker : Str)
    (port : Nat)
    (hroute : (e, port, marker) ∈ [(".pdf".toList, 7100, "~S2".toList),
      (".txt".toList, 7200, "~S3".toList), (".zip".toList, 7300, "~S4".toList)])
    (hcmd : sscanf1 "downlf".toList cmd = some p)
    (hp : p.length < 512) (hext : strrchr p '.' = some e)
    (hfail : env.node port = none ∨ ∃ nd, env.node port = some nd ∧
      ((recv 8 (nd s.fs [("downlf ".toList ++ (marker ++ p.drop 3)).take 511]).2).1 ≤ 0 ∨
       decodeLong (recv 8 (nd s.fs
         [("downlf ".toList ++ (marker ++ p.drop 3)).take 511]).2).2.1 ≤ 0)) :
    ∃ s1, handle_download env cmd s = .ok s1 ∧ s1.cout = s.cout ++ [encodeLong (-1)] ∧
      s1.client_bytes = s.client_bytes ++ encodeLong (-1) ∧
      (encodeLong (-1)).length = 8 ∧ decodeLong (encodeLong (-1)) = -1 := by
  obtain ⟨s1, h1, h2⟩ := handle_download_error env s cmd p e marker port hroute hcmd hp hext
    hfail
  refine ⟨s1, h1, h2, ?_, length_encodeLong _, decode_encodeLong _ (by norm_num) (by norm_num)⟩
  simp [St.client_bytes, h2]

/-- The node of the example holds no file: it answers the size 0 and the client of the
fetch is sent `-1`. -/
theorem fetch_failure_sends_minus_one_witness :
    ∃ s1, handle_download ex_env "downlf ~S1/docs/missing.pdf".toList (ex_st []) = .ok s1 ∧
      s1.cout = [encodeLong (-1)] ∧ s1.client_bytes = encodeLong (-1) ∧
      (encodeLong (-1)).length = 8 ∧ decodeLong (encodeLong (-1)) = -1 :=
  fetch_failure_sends_minus_one ex_env (ex_st []) "downlf ~S1/docs/missing.pdf".toList
    "~S1/docs/missing.pdf".toList ".pdf".toList "~S2".toList 7100 (by decide) (by decide)
    (by decide) (by decide) (Or.inr ⟨node_of ex_cfg, rfl, Or.inr (by decide)⟩)

/-! ### Fetches from a node that announced a size -/

/-- Blocks without a byte are passed over by `recv`. -/
theorem recv_skip (max : Nat) (tail : List Ev) : ∀ segs : List (List Char),
    segs.flatten = [] → recv max (segs.map Ev.data ++ tail) = recv max tail := by
  intro segs
  induction segs with
  | nil => intro _; rfl
  | cons bs tl ih =>
    intro h
    have h1 : bs = [] ∧ tl.flatten = [] := by simpa using h
    obtain ⟨rfl, h2⟩ := h1
    simpa [recv] using ih h2

/-- The read of the size from a stream that starts with a block holding the 8 bytes of
the size, with or without bytes of the content after them. -/
theorem recv_header_block (v : Int) (b0 : List Char) (segs : List (List Char))
    (tail : List Ev) :
    ∃ segs1 : List (List Char),
      recv 8 (Ev.data (encodeLong v ++ b0) :: (segs.map Ev.data ++ tail))
        = (8, encodeLong v, segs1.map Ev.data ++ tail) ∧
      segs1.flatten = b0 ++ segs.flatten := by
  by_cases hb : b0 = []
  · subst hb
    exact ⟨segs, by simp [recv, encodeLong_ne_nil, length_encodeLong], by simp⟩
  · refine ⟨b0 :: segs, ?_, by simp⟩
    have hlen : ¬ (8 + b0.length ≤ 8) := by
      have := List.length_pos.mpr hb
      omega
    have h8 : (encodeLong v).length = 8 := length_encodeLong v
    simp [recv, encodeLong_ne_nil, length_encodeLong, hlen, List.take_append_of_le_length,
      List.drop_append_of_le_length, h8]

/-- The relay loop on a stream that ends, by a close or a failed read, before the size
announced is reached: the blocks that arrived are sent on and nothing follows them. -/
theorem relay_loop_cut :
    ∀ (fuel : Nat) (segs : List (List Char)) (fsize received : Int) (out : List Str)
      (tail : List Ev), (tail = [] ∨ ∃ rest, tail = Ev.fail :: rest) →
      (segs.flatten.length : Int) < fsize - received → fsize - received ≤ (fuel : Int) →
      (relay_loop fuel fsize received (segs.map Ev.data ++ tail) out).flatten
        = out.flatten ++ segs.flatten := by
  intro fuel
  induction fuel with
  | zero =>
    intro segs fsize received out tail _ h1 h2
    simp at h2
    omega
  | succ fuel ih =>
    intro segs fsize received out tail ht h1 h2
    have hlt : received < fsize := by omega
    by_cases hne : segs.flatten = []
    · rw [relay_loop, if_pos hlt, recv_skip _ _ _ hne]
      rcases ht with rfl | ⟨rest, rfl⟩ <;> simp [recv, hne]
    · obtain ⟨d, segs1, e1, e2, e3, e4⟩ := recv_data BUFSIZE (by decide) tail segs hne
      have hd : 0 < d.length := List.length_pos.mpr e3
      have hlen : segs.flatten.length = d.length + segs1.flatten.length := by
        rw [← e2]; simp
      have hi := ih segs1 fsize (received + d.length) (out ++ [d]) tail ht
        (by push_cast at h2 ⊢; omega) (by push_cast at h2 ⊢; omega)
      rw [relay_loop, if_pos hlt, e1]
      simp only
      rw [if_neg (by omega), hi, ← e2]
      simp

/-- A fetch from a node whose answer starts with the 8 bytes of a positive size: the client
is sent the size and then what the relay loop sends on. -/
theorem handle_download_relays (env : Env) (s : St) (cmd p e marker : Str) (port : Nat)
    (nd : Node) (hdr : List Char) (inp1 : List Ev)
    (hroute : (e, port, marker) ∈ [(".pdf".toList, 7100, "~S2".toList),
      (".txt".toList, 7200, "~S3".toList), (".zip".toList, 7300, "~S4".toList)])
    (hcmd : sscanf1 "downlf".toList cmd = some p)
    (hp : p.length < 512) (hext : strrchr p '.' = some e)
    (hnode : env.node port = some nd)
    (hrecv : recv 8 (nd s.fs [("downlf ".toList ++ (marker ++ p.drop 3)).take 511]).2
      = (8, hdr, inp1))
    (hpos : 0 < decodeLong hdr) :
    ∃ s1, handle_download env cmd s = .ok s1 ∧
      s1.cout = relay_loop (decodeLong hdr).toNat (decodeLong hdr) 0 inp1
        (s.cout ++ [encodeLong (decodeLong hdr)]) := by
  have h1 : ¬ 512 ≤ p.length := by omega
  have hp4 : 4 ≤ p.length := by
    have h4 := strrchr_length_le '.' p e hext
    have he : e.length = 4 := by
      simp only [List.mem_cons, Prod.mk.injEq, List.mem_singleton, List.not_mem_nil,
        or_false] at hroute
      rcases hroute with ⟨rfl, _, _⟩ | ⟨rfl, _, _⟩ | ⟨rfl, _, _⟩ <;> rfl
    omega
  have hm : marker.length = 3 := by
    simp only [List.mem_cons, Prod.mk.injEq, List.mem_singleton, List.not_mem_nil, or_false]
      at hroute
    rcases hroute with ⟨_, _, rfl⟩ | ⟨_, _, rfl⟩ | ⟨_, _, rfl⟩ <;> rfl
  have hroute2 := route_of_member e p marker port hroute
  have hfit : (marker ++ p.drop 3).length < 512 := by
    simp [hm]; omega
  have hs : snprintf 512 ("downlf ".toList ++ (marker ++ List.drop 3 p))
      = ("downlf ".toList ++ (marker ++ p.drop 3)).take 511 := rfl
  unfold handle_download
  simp only [hcmd, if_neg h1, hext, if_neg hroute2.1, hroute2.2, hnode,
    snprintf_fits _ _ hfit, hs, hrecv]
  rw [if_neg (by decide), if_neg (by omega)]
  exact ⟨_, rfl, rfl⟩

/-- Claim C12 (amended): a node announced the positive size `L` and the stream ends, by a
close or a failed read, after fewer than `L` bytes of content.  The function
`handle_download` stops relaying: the client has the 8 bytes of `L` and the bytes that
arrived, and nothing after them, so no size `-1` is sent. -/
theorem fetch_cut_short_stops (env : Env) (s : St) (cmd p e marker : Str) (port : Nat)
    (nd : Node) (L : Int) (b0 : List Char) (segs : List (List Char)) (tail : List Ev)
    (hroute : (e, port, marker) ∈ [(".pdf".toList, 7100, "~S2".toList),
      (".txt".toList, 7200, "~S3".toList), (".zip".toList, 7300, "~S4".toList)])
    (hcmd : sscanf1 "downlf".toList cmd = some p)
    (hp : p.length < 512) (hext : strrchr p '.' = some e)
    (hnode : env.node port = some nd)
    (hL : 0 < L) (hL2 : L < 2 ^ 63)
    (hscript : (nd s.fs [("downlf ".toList ++ (marker ++ p.drop 3)).take 511]).2
      = Ev.data (encodeLong L ++ b0) :: (segs.map Ev.data ++ tail))
    (htail : tail = [] ∨ ∃ rest, tail = Ev.fail :: rest)
    (hshort : ((b0 ++ segs.flatten).length : Int) < L) :
    ∃ s1, handle_download env cmd s = .ok s1 ∧
      s1.client_bytes = s.client_bytes ++ encodeLong L ++ (b0 ++ segs.flatten) := by
  obtain ⟨segs1, hr, hflat⟩ := recv_header_block L b0 segs tail
  have hdec : decodeLong (encodeLong L) = L := decode_encodeLong L (by omega) hL2
  obtain ⟨s1, h1, h2⟩ := handle_download_relays env s cmd p e marker port nd (encodeLong L)
    (segs1.map Ev.data ++ tail) hroute hcmd hp hext hnode (by rw [hscript, hr])
    (by rw [hdec]; exact hL)
  refine ⟨s1, h1, ?_⟩
  rw [hdec] at h2
  have := relay_loop_cut L.toNat segs1 L 0 (s.cout ++ [encodeLong L]) tail htail
    (by rw [hflat]; simpa using hshort) (by simp)
  simp only [St.client_bytes, h2, this, hflat]
  simp

/-- A node announces 5 bytes, sends 2 and closes; after them a failed read. -/
theorem fetch_cut_short_stops_witness :
    ∃ s1, handle_download (ex_env.with_node 7100 (some (script_node
        [Ev.data (encodeLong 5), Ev.data "he".toList, Ev.fail])))
        "downlf ~S1/a.pdf".toList (ex_st []) = .ok s1 ∧
      s1.client_bytes = encodeLong 5 ++ "he".toList :=
  fetch_cut_short_stops _ (ex_st []) "downlf ~S1/a.pdf".toList "~S1/a.pdf".toList
    ".pdf".toList "~S2".toList 7100 (script_node
      [Ev.data (encodeLong 5), Ev.data "he".toList, Ev.fail]) 5 [] ["he".toList] [Ev.fail]
    (by decide) (by decide) (by decide) (by decide) rfl (by decide) (by decide)
    (by simp [script_node]) (Or.inr ⟨[], rfl⟩) (by decide)

/-- Counterexample to C12 as stated: the node announces 5 bytes, sends `he` and closes.
The client is sent the size 5 and `he`; the size `-1` is not sent. -/
theorem fetch_cut_short_no_sentinel :
    (handle_download (ex_env.with_node 7100 (some (script_node
        [Ev.data (encodeLong 5), Ev.data "he".toList])))
        "downlf ~S1/a.pdf".toList (ex_st [])).map St.cout
      = .ok [encodeLong 5, "he".toList] ∧
    encodeLong (-1) ∉ [encodeLong 5, "he".toList] := by
  decide

/-- Claim C13 (amended): a node answers a fetch with the positive size `|B|` and then the
bytes of `B`, and the 8 bytes of the size arrive in the first block, alone or with bytes
of `B` after them; the rest of `B` comes cut into blocks in any way.  The client is sent
the 8 bytes of `|B|`, then the bytes of `B` in their order, and nothing more. -/
theorem fetch_relays_all_chunks (env : Env) (s : St) (cmd p e marker : Str) (port : Nat)
    (nd : Node) (B b0 : List Char) (segs : List (List Char))
    (hroute : (e, port, marker) ∈ [(".pdf".toList, 7100, "~S2".toList),
      (".txt".toList, 7200, "~S3".toList), (".zip".toList, 7300, "~S4".toList)])
    (hcmd : sscanf1 "downlf".toList cmd = some p)
    (hp : p.length < 512) (hext : strrchr p '.' = some e)
    (hnode : env.node port = some nd)
    (hpos : 0 < B.length) (hN : (B.length : Int) < 2 ^ 63)
    (hB : b0 ++ segs.flatten = B)
    (hscript : (nd s.fs [("downlf ".toList ++ (marker ++ p.drop 3)).take 511]).2
      = Ev.data (encodeLong B.length ++ b0) :: segs.map Ev.data) :
    ∃ s1, handle_download env cmd s = .ok s1 ∧
      s1.client_bytes = s.client_bytes ++ encodeLong B.length ++ B := by
  obtain ⟨segs1, hr, hflat⟩ := recv_header_block B.length b0 segs []
  simp only [List.append_nil] at hr
  have hdec : decodeLong (encodeLong B.length) = B.length :=
    decode_encodeLong _ (by omega) hN
  obtain ⟨s1, h1, h2⟩ := handle_download_relays env s cmd p e marker port nd
    (encodeLong B.length) (segs1.map Ev.data) hroute hcmd hp hext hnode
    (by rw [hscript, hr]) (by rw [hdec]; exact_mod_cast hpos)
  refine ⟨s1, h1, ?_⟩
  rw [hdec] at h2
  have := relay_loop_data (B.length : Int).toNat segs1 B.length 0
    (s.cout ++ [encodeLong B.length]) (by rw [hflat, hB]; simp) (by rw [hflat, hB]; simp)
  simp only [St.client_bytes, h2, this, hflat, hB]
  simp

/-- A node sends the size 5 together with `he`, then `l`, then `lo`. -/
theorem fetch_relays_all_chunks_witness :
    ∃ s1, handle_download (ex_env.with_node 7200 (some (script_node
        [Ev.data (encodeLong 5 ++ "he".toList), Ev.data "l".toList, Ev.data "lo".toList])))
        "downlf ~S1/a.txt".toList (ex_st []) = .ok s1 ∧
      s1.client_bytes = encodeLong 5 ++ "hello".toList :=
  fetch_relays_all_chunks _ (ex_st []) "downlf ~S1/a.txt".toList "~S1/a.txt".toList
    ".txt".toList "~S3".toList 7200 (script_node
      [Ev.data (encodeLong 5 ++ "he".toList), Ev.data "l".toList, Ev.data "lo".toList])
    "hello".toList "he".toList ["l".toList, "lo".toList]
    (by decide) (by decide) (by decide) (by decide) rfl (by decide) (by decide) (by decide)
    (by simp [script_node])

/-- Counterexample to C13 as stated: the node answers the size 5 and `hello`, and the
first block to arrive holds 3 of the 8 bytes of the size.  The one `recv` of the size
yields 5, the other 5 bytes of the size are relayed as content, and the client is sent 10
bytes after the size instead of `hello`. -/
theorem fetch_split_size_misread :
    (encodeLong 5).take 3 ++ ((encodeLong 5).drop 3 ++ "hello".toList)
      = encodeLong 5 ++ "hello".toList ∧
    (handle_download (ex_env.with_node 7100 (some (script_node
        [Ev.data ((encodeLong 5).take 3),
         Ev.data ((encodeLong 5).drop 3 ++ "hello".toList)])))
        "downlf ~S1/a.pdf".toList (ex_st [])).map St.client_bytes
      = .ok (encodeLong 5 ++ (List.replicate 5 NUL ++ "hello".toList)) ∧
    encodeLong 5 ++ (List.replicate 5 NUL ++ "hello".toList)
      ≠ encodeLong 5 ++ "hello".toList := by
  decide

/-! ### Fetches of `.c` files -/

/-- A fetch of a `.c` path for which `$HOME/<path without ~>` fits the 512 bytes of
`real_path`: the size `-1` alone when the file is absent, the size of the content and the
content when it is present. -/
theorem handle_download_local_fits (env : Env) (s : St) (cmd p : Str)
    (hcmd : sscanf1 "downlf".toList cmd = some p)
    (hp : p.length < 512)
    (hext : strrchr p '.' = some ".c".toList)
    (hfit : (env.home ++ "/".toList ++ p.drop 1).length < 512) :
    (s.fs (env.home ++ "/".toList ++ p.drop 1) = none →
      handle_download env cmd s = .ok (s.send (encodeLong (-1)))) ∧
    (∀ B, s.fs (env.home ++ "/".toList ++ p.drop 1) = some B →
      ∃ s1, handle_download env cmd s = .ok s1 ∧
        s1.client_bytes = s.client_bytes ++ encodeLong B.length ++ B) := by
  have h1 : ¬ 512 ≤ p.length := by omega
  have hc : strcmp ".c".toList ".c".toList = 0 := by decide
  constructor
  · intro h
    unfold handle_download
    simp only [hcmd, if_neg h1, hext, if_pos hc, snprintf_fits _ _ hfit, h]
  · intro B h
    refine ⟨_, handle_download_local env s cmd p B hcmd hp hext
      (by rw [snprintf_fits _ _ hfit]; exact h), ?_⟩
    simp [St.client_bytes, fread_chunks_flatten]

/-- Claim C14 (failing input): the file `$HOME/<path without ~>` is present with the
content `hello`, the path has 507 characters and ends in `.c`, and the client of the fetch
is sent the size `-1` alone: `real_path` keeps the first 511 of the 514 characters.  The
same happens to the file right after `handle_upload` stored it at that place. -/
theorem fetch_c_long_path_not_found :
    ex_st_long_c.fs (ex_env.home ++ "/".toList ++ long_c_path.drop 1) = some "hello".toList ∧
    long_c_path.length = 507 ∧ strrchr long_c_path '.' = some ".c".toList ∧
    sscanf1 "downlf".toList ("downlf ".toList ++ long_c_path) = some long_c_path ∧
    (handle_download ex_env ("downlf ".toList ++ long_c_path) ex_st_long_c).map St.cout
      = .ok [encodeLong (-1)] ∧
    (handle_upload ex_env ("uploadf ".toList ++ List.replicate 250 'f' ++ ".c".toList
        ++ " ~S1/".toList ++ List.replicate 250 'd')
      (ex_st [Ev.data (encodeLong 5), Ev.data "hello".toList])).bind
      (fun s1 => (handle_download ex_env ("downlf ".toList ++ long_c_path) s1).map
        (fun s2 => (s1.fs (ex_env.home ++ "/".toList ++ long_c_path.drop 1), s2.cout)))
      = .ok (some "hello".toList,
          ["File stored successfully.\n".toList, encodeLong (-1)]) := by
  refine ⟨by simp [ex_st_long_c, FS.write], by decide!, by decide!, by decide!, by decide!,
    by decide!⟩

/-! ### Deletes -/

/-- A delete of a path ending in `.c` looks at the file `local_path` names: the first 511
characters of `$HOME/<path without ~>`.  When the file is there it is removed and the
reply is `File deleted.`; when it is not the reply is `File not found or cannot delete.`.
No node is contacted in either case, and a second delete of the same path gets the second
reply. -/
theorem handle_remove_local (env : Env) (s : St) (cmd p : Str)
    (hcmd : sscanf1 "removef".toList cmd = some p)
    (hp : p.length < 512)
    (hext : strrchr p '.' = some ".c".toList) :
    (∀ c, s.fs (snprintf 512 (env.home ++ "/".toList ++ p.drop 1)) = some c →
      handle_remove env cmd s = .ok
        { fs := s.fs.remove (snprintf 512 (env.home ++ "/".toList ++ p.drop 1)),
          cin := s.cin,
          cout := s.cout ++ ["File deleted.\n".toList],
          conns := s.conns }) ∧
    (s.fs (snprintf 512 (env.home ++ "/".toList ++ p.drop 1)) = none →
      handle_remove env cmd s = .ok
        { s with cout := s.cout ++ ["File not found or cannot delete.\n".toList] }) ∧
    ∃ s1, handle_remove env cmd s = .ok s1 ∧ s1.conns = s.conns ∧
      s1.fs (snprintf 512 (env.home ++ "/".toList ++ p.drop 1)) = none ∧
      handle_remove env cmd s1 = .ok
        { s1 with cout := s1.cout ++ ["File not found or cannot delete.\n".toList] } := by
  have h1 : ¬ 512 ≤ p.length := by omega
  have hc : strcmp ".c".toList ".c".toList = 0 := by decide
  have habs : ∀ t : St, t.fs (snprintf 512 (env.home ++ "/".toList ++ p.drop 1)) = none →
      handle_remove env cmd t = .ok
        { t with cout := t.cout ++ ["File not found or cannot delete.\n".toList] } := by
    intro t h
    unfold handle_remove
    simp only [hcmd, if_neg h1, hext, if_pos hc, h]
    rfl
  have hpres : ∀ c, s.fs (snprintf 512 (env.home ++ "/".toList ++ p.drop 1)) = some c →
      handle_remove env cmd s = .ok
        { fs := s.fs.remove (snprintf 512 (env.home ++ "/".toList ++ p.drop 1)),
          cin := s.cin,
          cout := s.cout ++ ["File deleted.\n".toList],
          conns := s.conns } := by
    intro c h
    unfold handle_remove
    simp only [hcmd, if_neg h1, hext, if_pos hc, h]
    rfl
  refine ⟨hpres, habs s, ?_⟩
  cases h : s.fs (snprintf 512 (env.home ++ "/".toList ++ p.drop 1)) with
  | none => exact ⟨_, habs s h, rfl, h, habs _ h⟩
  | some c =>
    refine ⟨_, hpres c h, rfl, ?_, habs _ ?_⟩ <;> simp [FS.remove]

/-- The file `/home/u/S1/a.c` is in the store: the first delete removes it, the second
finds nothing. -/
theorem handle_remove_local_example :
    handle_remove ex_env "removef ~S1/a.c".toList ex_st_c = .ok
      { fs := ex_st_c.fs.remove "/home/u/S1/a.c".toList, cin := [],
        cout := ["File deleted.\n".toList], conns := [] } ∧
    ∃ s1, handle_remove ex_env "removef ~S1/a.c".toList ex_st_c = .ok s1 ∧ s1.conns = [] ∧
      s1.fs "/home/u/S1/a.c".toList = none ∧
      handle_remove ex_env "removef ~S1/a.c".toList s1 = .ok
        { s1 with cout := s1.cout ++ ["File not found or cannot delete.\n".toList] } :=
  ⟨(handle_remove_local ex_env ex_st_c "removef ~S1/a.c".toList "~S1/a.c".toList (by decide)
      (by decide) (by decide)).1 "hello".toList (by decide),
   (handle_remove_local ex_env ex_st_c "removef ~S1/a.c".toList "~S1/a.c".toList (by decide)
      (by decide) (by decide)).2.2⟩

/-- Claim C15 (failing input): the file `$HOME/<path without ~>` is present, the path has
507 characters and ends in `.c`, and the delete is answered `File not found or cannot
delete.` while the file stays in the store: `local_path` keeps the first 511 of the 514
characters. -/
theorem delete_c_long_path_not_found :
    ex_st_long_c.fs (ex_env.home ++ "/".toList ++ long_c_path.drop 1) = some "hello".toList ∧
    sscanf1 "removef".toList ("removef ".toList ++ long_c_path) = some long_c_path ∧
    (handle_remove ex_env ("removef ".toList ++ long_c_path) ex_st_long_c).map
      (fun s1 => (s1.cout, s1.fs (ex_env.home ++ "/".toList ++ long_c_path.drop 1)))
      = .ok (["File not found or cannot delete.\n".toList], some "hello".toList) := by
  refine ⟨by simp [ex_st_long_c, FS.write], by decide!, by decide!⟩

/-- A C string without a zero byte is the whole list. -/
theorem cstr_of_no_nul (bs : List Char) (h : NUL ∉ bs) : cstr bs = bs := by
  unfold cstr
  rw [List.takeWhile_eq_self_iff]
  intro c hc
  have : c ≠ NUL := fun e => h (e ▸ hc)
  simpa using this

/-- A delete that goes to a node: the command is sent, one `recv` of at most 256 bytes
takes the reply, and the client is sent the reply up to its first zero byte; `strlen` runs
out of the buffer when the reply fills it without a zero byte. -/
theorem handle_remove_remote (env : Env) (s : St) (cmd p e marker : Str) (port : Nat)
    (nd : Node)
    (hroute : (e, port, marker) ∈ [(".pdf".toList, 7100, "~S2".toList),
      (".txt".toList, 7200, "~S3".toList), (".zip".toList, 7300, "~S4".toList)])
    (hcmd : sscanf1 "removef".toList cmd = some p)
    (hp : p.length < 512) (hext : strrchr p '.' = some e)
    (hnode : env.node port = some nd) :
    handle_remove env cmd s =
      if ((recv 256 (nd s.fs [("removef ".toList ++ (marker ++ p.drop 3)).take 511]).2).2.1).length
          = 256 ∧
        NUL ∉ (recv 256 (nd s.fs [("removef ".toList ++ (marker ++ p.drop 3)).take 511]).2).2.1
      then .ub
      else .ok
        { fs := (nd s.fs [("removef ".toList ++ (marker ++ p.drop 3)).take 511]).1,
          cin := s.cin,
          cout := s.cout ++ [cstr
            (recv 256 (nd s.fs [("removef ".toList ++ (marker ++ p.drop 3)).take 511]).2).2.1],
          conns := s.conns ++
            [⟨port, true, [("removef ".toList ++ (marker ++ p.drop 3)).take 511]⟩] } := by
  have h1 : ¬ 512 ≤ p.length := by omega
  have hp4 : 4 ≤ p.length := by
    have h4 := strrchr_length_le '.' p e hext
    have he : e.length = 4 := by
      simp only [List.mem_cons, Prod.mk.injEq, List.mem_singleton, List.not_mem_nil,
        or_false] at hroute
      rcases hroute with ⟨rfl, _, _⟩ | ⟨rfl, _, _⟩ | ⟨rfl, _, _⟩ <;> rfl
    omega
  have hm : marker.length = 3 := by
    simp only [List.mem_cons, Prod.mk.injEq, List.mem_singleton, List.not_mem_nil, or_false]
      at hroute
    rcases hroute with ⟨_, _, rfl⟩ | ⟨_, _, rfl⟩ | ⟨_, _, rfl⟩ <;> rfl
  have hroute2 := route_of_member e p marker port hroute
  have hfit : (marker ++ p.drop 3).length < 512 := by
    simp [hm]; omega
  have hs : snprintf 512 ("removef ".toList ++ (marker ++ List.drop 3 p))
      = ("removef ".toList ++ (marker ++ p.drop 3)).take 511 := rfl
  unfold handle_remove
  simp only [hcmd, if_neg h1, hext, if_neg hroute2.1, hroute2.2, hnode,
    snprintf_fits _ _ hfit, hs]
  rfl

/-- Claim C16 (amended): the node's reply to a delete arrives as one block of at most 256
bytes, with a zero byte in it when it has 256.  The client is sent the bytes of the reply
that come before its first zero byte: the whole reply, an empty one too, when it has no
zero byte. -/
theorem delete_reply_relayed (env : Env) (s : St) (cmd p e marker : Str) (port : Nat)
    (nd : Node) (reply : List Char)
    (hroute : (e, port, marker) ∈ [(".pdf".toList, 7100, "~S2".toList),
      (".txt".toList, 7200, "~S3".toList), (".zip".toList, 7300, "~S4".toList)])
    (hcmd : sscanf1 "removef".toList cmd = some p)
    (hp : p.length < 512) (hext : strrchr p '.' = some e)
    (hnode : env.node port = some nd)
    (hscript : (nd s.fs [("removef ".toList ++ (marker ++ p.drop 3)).take 511]).2
      = [Ev.data reply])
    (hlen : reply.length ≤ 256) (hsafe : reply.length = 256 → NUL ∈ reply) :
    ∃ s1, handle_remove env cmd s = .ok s1 ∧
      s1.cout = s.cout ++ [reply.takeWhile (fun c => c != NUL)] ∧
      (NUL ∉ reply → s1.cout = s.cout ++ [reply]) := by
  have hr : (recv 256 [Ev.data reply]).2.1 = reply := by
    by_cases h0 : reply = []
    · simp [recv, h0]
    · simp [recv, h0, hlen]
  have h := handle_remove_remote env s cmd p e marker port nd hroute hcmd hp hext hnode
  rw [hscript, hr, if_neg (fun hh => hh.2 (hsafe hh.1))] at h
  refine ⟨_, h, rfl, ?_⟩
  intro hn
  show s.cout ++ [cstr reply] = s.cout ++ [reply]
  rw [cstr_of_no_nul reply hn]

/-- The node answers `File removed.` and the client is sent these bytes. -/
theorem delete_reply_relayed_witness :
    ∃ s1, handle_remove (ex_env.with_node 7300 (some (script_node
        [Ev.data "File removed.\n".toList]))) "removef ~S1/a.zip".toList (ex_st [])
        = .ok s1 ∧
      s1.cout = [("File removed.\n".toList).takeWhile (fun c => c != NUL)] ∧
      (NUL ∉ "File removed.\n".toList → s1.cout = ["File removed.\n".toList]) :=
  delete_reply_relayed _ (ex_st []) "removef ~S1/a.zip".toList "~S1/a.zip".toList
    ".zip".toList "~S4".toList 7300 (script_node [Ev.data "File removed.\n".toList])
    "File removed.\n".toList (by decide) (by decide) (by decide) (by decide) rfl
    (by simp [script_node]) (by decide) (by decide)

/-- Counterexample to C16 as stated: a reply of 5 bytes with a zero byte in the middle
reaches the client as its first 2 bytes, and a reply of 256 bytes without a zero byte
makes `strlen` read past the buffer. -/
theorem delete_reply_cut_at_zero :
    (handle_remove (ex_env.with_node 7100 (some (script_node
        [Ev.data ['a', 'b', NUL, 'c', 'd']]))) "removef ~S1/a.pdf".toList (ex_st [])).map
      St.cout = .ok ["ab".toList] ∧
    handle_remove (ex_env.with_node 7100 (some (script_node
        [Ev.data (List.replicate 256 'x')]))) "removef ~S1/a.pdf".toList (ex_st [])
      = .ub := by
  constructor
  · decide
  · have h := handle_remove_remote (ex_env.with_node 7100 (some (script_node
        [Ev.data (List.replicate 256 'x')]))) (ex_st []) "removef ~S1/a.pdf".toList
      "~S1/a.pdf".toList ".pdf".toList "~S2".toList 7100
      (script_node [Ev.data (List.replicate 256 'x')]) (by decide) (by decide) (by decide)
      (by decide) rfl
    rw [h, if_pos]
    simp only [script_node]
    decide!

/-! ### File types that no store owns -/

theorem strrchr_mem (c : Char) : ∀ (q t : Str), strrchr q c = some t → ∀ x ∈ t, x ∈ q := by
  intro q
  induction q with
  | nil => intro t h; simp [strrchr] at h
  | cons a r ih =>
    intro t h x hx
    simp only [strrchr] at h
    cases hr : strrchr r c with
    | some t1 =>
      rw [hr] at h
      injection h with h
      subst h
      exact List.mem_cons_of_mem _ (ih t1 hr x hx)
    | none =>
      rw [hr] at h
      simp only at h
      split_ifs at h
      injection h with h
      subst h
      exact hx

/-- A suffix that is none of the four is told apart from each of them by `strcmp`. -/
theorem strcmp_unsupported (e : Str) (hn : NUL ∉ e)
    (h : e ∉ [".c".toList, ".pdf".toList, ".txt".toList, ".zip".toList]) :
    strcmp e ".c".toList ≠ 0 ∧ strcmp e ".pdf".toList ≠ 0 ∧ strcmp e ".txt".toList ≠ 0 ∧
      strcmp e ".zip".toList ≠ 0 := by
  simp only [List.mem_cons, List.mem_singleton, List.not_mem_nil, or_false, not_or] at h
  obtain ⟨h1, h2, h3, h4⟩ := h
  exact ⟨fun h0 => h1 (strcmp_eq_zero _ _ hn (by decide) h0),
    fun h0 => h2 (strcmp_eq_zero _ _ hn (by decide) h0),
    fun h0 => h3 (strcmp_eq_zero _ _ hn (by decide) h0),
    fun h0 => h4 (strcmp_eq_zero _ _ hn (by decide) h0)⟩

/-- The branch of `handle_upload` for a file name whose suffix no store owns. -/
theorem upload_unsupported (x : Option Str)
    (hx : ∀ e, x = some e → NUL ∉ e ∧
      e ∉ [".c".toList, ".pdf".toList, ".txt".toList, ".zip".toList]) :
    ext_is x ".c".toList = false ∧ upload_port x = none := by
  cases x with
  | none => exact ⟨rfl, rfl⟩
  | some e =>
    obtain ⟨hn, h⟩ := hx e rfl
    obtain ⟨h1, h2, h3, h4⟩ := strcmp_unsupported e hn h
    refine ⟨by simp only [ext_is, h1, decide_False], ?_⟩
    simp only [upload_port, ext_is, h2, h3, h4, decide_False, Bool.false_eq_true, if_false]

theorem handle_upload_unsupported (env : Env) (s : St) (cmd f d : Str) (B : List Char)
    (segs : List (List Char))
    (hcmd : sscanf2 "uploadf".toList cmd = (some f, some d))
    (hf : f.length < 256) (hd : d.length < 512)
    (hext : ∀ e, strrchr f '.' = some e → NUL ∉ e ∧
      e ∉ [".c".toList, ".pdf".toList, ".txt".toList, ".zip".toList])
    (hdest : d.take 3 = "~S1".toList)
    (hin : s.cin = Ev.data (encodeLong B.length) :: segs.map Ev.data)
    (hB : segs.flatten = B) (hN : (B.length : Int) < 2 ^ 63)
    (htmp : env.canCreate (temp_path env f) = true) :
    ∃ s1, handle_upload env cmd s = .ok s1 ∧
      s1.cout = s.cout ++ ["Unsupported file type.\n".toList] ∧ s1.conns = s.conns := by
  have h1 : ¬ (256 ≤ f.length ∨ 512 ≤ d.length) := by omega
  have h2 : ¬ strncmp d "~S1".toList 3 ≠ 0 := fun h => h ((strncmp_S1 d).mpr hdest)
  obtain ⟨inp, hloop⟩ := recv_loop_data [] (B.length) segs (B.length) 0 []
    (by simp [hB]) (by simp [hB])
  have hdec : decodeLong (encodeLong B.length) = B.length :=
    decode_encodeLong _ (by omega) hN
  obtain ⟨hp2, hp1⟩ := upload_unsupported (strrchr f '.') hext
  simp only [List.append_nil, List.nil_append] at hloop
  unfold handle_upload
  rw [hcmd]
  simp only [if_neg h1, if_neg h2, hin, recv_header, hdec, hp2, htmp, if_true,
    Int.toNat_ofNat, ne_eq, not_true_eq_false, if_false, Bool.false_eq_true, hloop, hB, hp1]
  exact ⟨_, rfl, rfl, rfl⟩

theorem handle_download_unsupported (env : Env) (s : St) (cmd p : Str)
    (hcmd : sscanf1 "downlf".toList cmd = some p)
    (hp : p.length < 512)
    (hext : ∀ e, strrchr p '.' = some e → NUL ∉ e ∧
      e ∉ [".c".toList, ".pdf".toList, ".txt".toList, ".zip".toList]) :
    handle_download env cmd s = .ok (s.send (encodeLong (-1))) := by
  have h1 : ¬ 512 ≤ p.length := by omega
  unfold handle_download
  simp only [hcmd, if_neg h1]
  cases hx : strrchr p '.' with
  | none => rfl
  | some e =>
    obtain ⟨c1, c2, c3, c4⟩ := strcmp_unsupported e (hext e hx).1 (hext e hx).2
    simp only [if_neg c1, if_neg c2, if_neg c3, if_neg c4]

theorem handle_remove_unsupported (env : Env) (s : St) (cmd p : Str)
    (hcmd : sscanf1 "removef".toList cmd = some p)
    (hp : p.length < 512) :
    (strrchr p '.' = none →
      handle_remove env cmd s = .ok (s.send "Invalid file extension.\n".toList)) ∧
    (∀ e, strrchr p '.' = some e → NUL ∉ e →
      e ∉ [".c".toList, ".pdf".toList, ".txt".toList, ".zip".toList] →
      handle_remove env cmd s = .ok (s.send "Unsupported file type.\n".toList)) := by
  have h1 : ¬ 512 ≤ p.length := by omega
  constructor
  · intro hx
    unfold handle_remove
    simp only [hcmd, if_neg h1, hx]
  · intro e hx hn he
    obtain ⟨c1, c2, c3, c4⟩ := strcmp_unsupported e hn he
    unfold handle_remove
    simp only [hcmd, if_neg h1, hx, if_neg c1, if_neg c2, if_neg c3, if_neg c4]

/-- The two ways of the claim to have no supported type, as one condition on the
suffix. -/
theorem unsupported_cases (q : Str) (hnul : NUL ∉ q)
    (h : strrchr q '.' = none ∨ ∃ e, strrchr q '.' = some e ∧
      e ∉ [".c".toList, ".pdf".toList, ".txt".toList, ".zip".toList]) :
    ∀ e, strrchr q '.' = some e → NUL ∉ e ∧
      e ∉ [".c".toList, ".pdf".toList, ".txt".toList, ".zip".toList] := by
  intro e he
  refine ⟨fun hm => hnul (strrchr_mem '.' q e he _ hm), ?_⟩
  rcases h with h | ⟨e1, h1, h2⟩
  · rw [h] at he; cases he
  · rw [h1] at he; injection he with he; subst he; exact h2

/-- Claim C17: a file name or path without `.`, or whose part from the last `.` is none
of `.c`, `.pdf`, `.txt`, `.zip`, makes the front-end open no connection to a node.  A store
(destination under `~S1`, payload delivered, temporary file created) is answered
`Unsupported file type.`; a fetch is answered the size `-1`; a delete is answered `Invalid
file extension.` without `.` and `Unsupported file type.` with an unknown suffix. -/
theorem unsupported_type_rejected (env : Env) (s : St) :
    (∀ (cmd f d : Str) (B : List Char) (segs : List (List Char)),
      sscanf2 "uploadf".toList cmd = (some f, some d) →
      f.length < 256 → d.length < 512 → NUL ∉ f →
      (strrchr f '.' = none ∨ ∃ e, strrchr f '.' = some e ∧
        e ∉ [".c".toList, ".pdf".toList, ".txt".toList, ".zip".toList]) →
      d.take 3 = "~S1".toList →
      s.cin = Ev.data (encodeLong B.length) :: segs.map Ev.data →
      segs.flatten = B → (B.length : Int) < 2 ^ 63 →
      env.canCreate (temp_path env f) = true →
      ∃ s1, handle_upload env cmd s = .ok s1 ∧
        s1.cout = s.cout ++ ["Unsupported file type.\n".toList] ∧ s1.conns = s.conns) ∧
    (∀ (cmd p : Str), sscanf1 "downlf".toList cmd = some p → p.length < 512 → NUL ∉ p →
      (strrchr p '.' = none ∨ ∃ e, strrchr p '.' = some e ∧
        e ∉ [".c".toList, ".pdf".toList, ".txt".toList, ".zip".toList]) →
      ∃ s1, handle_download env cmd s = .ok s1 ∧
        s1.cout = s.cout ++ [encodeLong (-1)] ∧ s1.conns = s.conns) ∧
    (∀ (cmd p : Str), sscanf1 "removef".toList cmd = some p → p.length < 512 → NUL ∉ p →
      (strrchr p '.' = none →
        ∃ s1, handle_remove env cmd s = .ok s1 ∧
          s1.cout = s.cout ++ ["Invalid file extension.\n".toList] ∧ s1.conns = s.conns) ∧
      ((∃ e, strrchr p '.' = some e ∧
          e ∉ [".c".toList, ".pdf".toList, ".txt".toList, ".zip".toList]) →
        ∃ s1, handle_remove env cmd s = .ok s1 ∧
          s1.cout = s.cout ++ ["Unsupported file type.\n".toList] ∧ s1.conns = s.conns)) := by
  refine ⟨?_, ?_, ?_⟩
  · intro cmd f d B segs hcmd hf hd hnul hext hdest hin hB hN htmp
    exact handle_upload_unsupported env s cmd f d B segs hcmd hf hd
      (unsupported_cases f hnul hext) hdest hin hB hN htmp
  · intro cmd p hcmd hp hnul hext
    exact ⟨_, handle_download_unsupported env s cmd p hcmd hp
      (unsupported_cases p hnul hext), rfl, rfl⟩
  · intro cmd p hcmd hp hnul
    obtain ⟨h1, h2⟩ := handle_remove_unsupported env s cmd p hcmd hp
    exact ⟨fun hx => ⟨_, h1 hx, rfl, rfl⟩,
      fun ⟨e, hx, he⟩ =>
        ⟨_, h2 e hx (fun hm => hnul (strrchr_mem '.' p e hx _ hm)) he, rfl, rfl⟩⟩

/-- The store of `notes.md`, the fetch of `README` and the deletes of `README` and of
`tool.exe` with the nodes of the example listening. -/
theorem unsupported_type_rejected_witness :
    (∃ s1, handle_upload ex_env "uploadf notes.md ~S1/docs".toList
        (ex_st [Ev.data (encodeLong 5), Ev.data "hello".toList]) = .ok s1 ∧
      s1.cout = ["Unsupported file type.\n".toList] ∧ s1.conns = []) ∧
    (∃ s1, handle_download ex_env "downlf ~S1/docs/README".toList
        (ex_st [Ev.data (encodeLong 5), Ev.data "hello".toList]) = .ok s1 ∧
      s1.cout = [encodeLong (-1)] ∧ s1.conns = []) ∧
    (∃ s1, handle_remove ex_env "removef ~S1/docs/README".toList
        (ex_st [Ev.data (encodeLong 5), Ev.data "hello".toList]) = .ok s1 ∧
      s1.cout = ["Invalid file extension.\n".toList] ∧ s1.conns = []) ∧
    (∃ s1, handle_remove ex_env "removef ~S1/tool.exe".toList
        (ex_st [Ev.data (encodeLong 5), Ev.data "hello".toList]) = .ok s1 ∧
      s1.cout = ["Unsupported file type.\n".toList] ∧ s1.conns = []) :=
  ⟨(unsupported_type_rejected ex_env
      (ex_st [Ev.data (encodeLong 5), Ev.data "hello".toList])).1
      "uploadf notes.md ~S1/docs".toList "notes.md".toList "~S1/docs".toList "hello".toList
      ["hello".toList] (by decide) (by decide) (by decide) (by decide)
      (Or.inr ⟨".md".toList, by decide, by decide⟩) (by decide) (by decide) (by decide)
      (by decide) (by decide),
   (unsupported_type_rejected ex_env
      (ex_st [Ev.data (encodeLong 5), Ev.data "hello".toList])).2.1
      "downlf ~S1/docs/README".toList "~S1/docs/README".toList (by decide) (by decide)
      (by decide) (Or.inl (by decide)),
   ((unsupported_type_rejected ex_env
      (ex_st [Ev.data (encodeLong 5), Ev.data "hello".toList])).2.2
      "removef ~S1/docs/README".toList "~S1/docs/README".toList (by decide) (by decide)
      (by decide)).1 (by decide),
   ((unsupported_type_rejected ex_env
      (ex_st [Ev.data (encodeLong 5), Ev.data "hello".toList])).2.2
      "removef ~S1/tool.exe".toList "~S1/tool.exe".toList (by decide) (by decide)
      (by decide)).2 ⟨".exe".toList, by decide, by decide⟩⟩

/-! ### Archives: `handle_downltar` -/

/-- The answer of `handle_downltar` to a type that is none of `.c`, `.pdf`, `.txt`. -/
theorem handle_downltar_other (env : Env) (tar : TarRun) (cmd t : Str) (s : St)
    (hcmd : sscanf1 "downltar".toList cmd = some t) (ht : t.length < 10)
    (h1 : strcmp t ".c".toList ≠ 0) (h2 : strcmp t ".pdf".toList ≠ 0)
    (h3 : strcmp t ".txt".toList ≠ 0) :
    handle_downltar env tar cmd s = .ok
      (s.send "Only .c, .pdf, and .txt file types are supported for tar.\n".toList) := by
  have h0 : ¬ 10 ≤ t.length := by omega
  unfold handle_downltar
  simp only [hcmd, if_neg h0, if_neg h1, h2, h3, or_self, if_false]

/-- A request for the archive of `.c` files: what the client is sent depends on the file
`cfiles.tar` that the `tar` command left. -/
theorem handle_downltar_local (env : Env) (tar : TarRun) (cmd : Str) (s : St)
    (hcmd : sscanf1 "downltar".toList cmd = some ".c".toList) :
    (tar.archive = none → ∃ s1, handle_downltar env tar cmd s = .ok s1 ∧
      s1.cout = s.cout ++ ["Could not create cfiles.tar.\n".toList] ∧ s1.conns = s.conns) ∧
    (∀ content, tar.archive = some content → content.length = 0 →
      ∃ s1, handle_downltar env tar cmd s = .ok s1 ∧
        s1.cout = s.cout ++ ["No .c files found to create tar archive.\n".toList] ∧
        s1.conns = s.conns) ∧
    (∀ content, tar.archive = some content → 0 < content.length →
      ∃ s1, handle_downltar env tar cmd s = .ok s1 ∧
        s1.client_bytes = s.client_bytes ++ encodeLong content.length ++ content ∧
        s1.conns = s.conns) := by
  have h0 : ¬ 10 ≤ (".c".toList).length := by decide
  have hc : strcmp ".c".toList ".c".toList = 0 := by decide
  refine ⟨?_, ?_, ?_⟩
  · intro h
    unfold handle_downltar
    simp only [hcmd, if_neg h0, if_pos hc, h]
    exact ⟨_, rfl, rfl, rfl⟩
  · intro content h hz
    unfold handle_downltar
    simp only [hcmd, if_neg h0, if_pos hc, h, if_pos hz]
    exact ⟨_, rfl, rfl, rfl⟩
  · intro content h hz
    have hz2 : ¬ content.length = 0 := by omega
    unfold handle_downltar
    simp only [hcmd, if_neg h0, if_pos hc, h, if_neg hz2]
    refine ⟨_, rfl, ?_, rfl⟩
    simp [St.client_bytes, fread_chunks_flatten]

/-- A request for the archive of `.pdf` or `.txt` files whose node is reached and whose
size arrives whole: the message for the size 0, the size and the relayed bytes for any
other size. -/
theorem handle_downltar_remote (env : Env) (tar : TarRun) (cmd e : Str) (s : St)
    (port : Nat) (nd : Node) (hdr : List Char) (inp1 : List Ev)
    (hroute : (e, port) ∈ [(".pdf".toList, 7100), (".txt".toList, 7200)])
    (hcmd : sscanf1 "downltar".toList cmd = some e)
    (hnode : env.node port = some nd)
    (hrecv : recv 8 (nd s.fs ["downltar ".toList ++ e]).2 = (8, hdr, inp1)) :
    handle_downltar env tar cmd s =
      if decodeLong hdr = 0 then .ok
        { fs := (nd s.fs ["downltar ".toList ++ e]).1, cin := s.cin,
          cout := s.cout ++ ["No files found to create tar archive.\n".toList],
          conns := s.conns ++ [⟨port, true, ["downltar ".toList ++ e]⟩] }
      else .ok
        { fs := (nd s.fs ["downltar ".toList ++ e]).1, cin := s.cin,
          cout := relay_loop (decodeLong hdr).toNat (decodeLong hdr) 0 inp1
            (s.cout ++ [encodeLong (decodeLong hdr)]),
          conns := s.conns ++ [⟨port, true, ["downltar ".toList ++ e]⟩] } := by
  simp only [List.mem_cons, Prod.mk.injEq, List.mem_singleton, List.not_mem_nil, or_false]
    at hroute
  rcases hroute with ⟨rfl, rfl⟩ | ⟨rfl, rfl⟩
  · have hs : snprintf 32 ("downltar ".toList ++ ".pdf".toList)
        = "downltar ".toList ++ ".pdf".toList := by decide
    unfold handle_downltar
    simp only [hcmd]
    rw [if_neg (by decide), if_neg (by decide), if_pos (by decide)]
    simp only [if_pos (show strcmp ".pdf".toList ".pdf".toList = 0 by decide), hnode, hs,
      hrecv]
    rw [if_neg (by decide), if_neg (by decide)]
    split_ifs <;> rfl
  · have hs : snprintf 32 ("downltar ".toList ++ ".txt".toList)
        = "downltar ".toList ++ ".txt".toList := by decide
    unfold handle_downltar
    simp only [hcmd]
    rw [if_neg (by decide), if_neg (by decide), if_pos (by decide)]
    simp only [if_neg (show ¬ strcmp ".txt".toList ".pdf".toList = 0 by decide), hnode, hs,
      hrecv]
    rw [if_neg (by decide), if_neg (by decide)]
    split_ifs <;> rfl

/-- Claim C19 (amended): the command `downltar .zip` is not relayed.  The function
`handle_downltar` opens no connection, leaves the file store alone and answers `Only .c,
.pdf, and .txt file types are supported for tar.` -/
theorem tar_of_zip_rejected (env : Env) (tar : TarRun) (cmd : Str) (s : St)
    (hcmd : sscanf1 "downltar".toList cmd = some ".zip".toList) :
    ∃ s1, handle_downltar env tar cmd s = .ok s1 ∧
      s1.cout = s.cout ++
        ["Only .c, .pdf, and .txt file types are supported for tar.\n".toList] ∧
      s1.conns = s.conns ∧ s1.fs = s.fs :=
  ⟨_, handle_downltar_other env tar cmd ".zip".toList s hcmd (by decide) (by decide)
    (by decide) (by decide), rfl, rfl, rfl⟩

/-- The command `downltar .zip` with the three nodes of the example listening. -/
theorem tar_of_zip_rejected_witness :
    ∃ s1, handle_downltar ex_env ⟨none, none⟩ "downltar .zip".toList (ex_st []) = .ok s1 ∧
      s1.cout = ["Only .c, .pdf, and .txt file types are supported for tar.\n".toList] ∧
      s1.conns = [] ∧ s1.fs = (ex_st []).fs :=
  tar_of_zip_rejected ex_env ⟨none, none⟩ "downltar .zip".toList (ex_st []) (by decide)

/-- Counterexample to C19 as stated: the node on port 7300 would announce an archive of
0 bytes, and `downltar .zip` reaches no node; the client is sent the text for a type that
is not supported, not the one for an archive without files. -/
theorem tar_of_zip_not_relayed :
    (handle_downltar (ex_env.with_node 7300 (some (script_node [Ev.data (encodeLong 0)])))
        ⟨none, none⟩ "downltar .zip".toList (ex_st [])).map (fun s1 => (s1.cout, s1.conns))
      = .ok (["Only .c, .pdf, and .txt file types are supported for tar.\n".toList], []) ∧
    "Only .c, .pdf, and .txt file types are supported for tar.\n".toList
      ≠ "No files found to create tar archive.\n".toList := by
  decide

/-- Claim C20: a request for the archive of `.c` files whose archive file has 0 bytes is
answered `No .c files found to create tar archive.` alone, and one of `.pdf` or `.txt`
files whose node announces the size 0 is answered `No files found to create tar archive.`
alone.  With a positive size the client is sent the 8 bytes of the size and then the
bytes of the archive: those of the file for `.c`, those the node delivers for the other
two. -/
theorem tar_reply_by_size (env : Env) (tar : TarRun) (cmd : Str) (s : St) :
    (sscanf1 "downltar".toList cmd = some ".c".toList →
      ∀ content, tar.archive = some content →
        (content.length = 0 → ∃ s1, handle_downltar env tar cmd s = .ok s1 ∧
          s1.cout = s.cout ++ ["No .c files found to create tar archive.\n".toList]) ∧
        (0 < content.length → ∃ s1, handle_downltar env tar cmd s = .ok s1 ∧
          s1.client_bytes = s.client_bytes ++ encodeLong content.length ++ content)) ∧
    (∀ (e : Str) (port : Nat) (nd : Node) (L : Int) (b0 : List Char)
        (segs : List (List Char)),
      (e, port) ∈ [(".pdf".toList, 7100), (".txt".toList, 7200)] →
      sscanf1 "downltar".toList cmd = some e →
      env.node port = some nd →
      (nd s.fs ["downltar ".toList ++ e]).2
        = Ev.data (encodeLong L ++ b0) :: segs.map Ev.data →
      (L = 0 → ∃ s1, handle_downltar env tar cmd s = .ok s1 ∧
        s1.cout = s.cout ++ ["No files found to create tar archive.\n".toList]) ∧
      (0 < L → L < 2 ^ 63 → ((b0 ++ segs.flatten).length : Int) = L →
        ∃ s1, handle_downltar env tar cmd s = .ok s1 ∧
          s1.client_bytes = s.client_bytes ++ encodeLong L ++ (b0 ++ segs.flatten))) := by
  constructor
  · intro hcmd content hc
    obtain ⟨_, h2, h3⟩ := handle_downltar_local env tar cmd s hcmd
    constructor
    · intro hz
      obtain ⟨s1, a, b, _⟩ := h2 content hc hz
      exact ⟨s1, a, b⟩
    · intro hz
      obtain ⟨s1, a, b, _⟩ := h3 content hc hz
      exact ⟨s1, a, b⟩
  · intro e port nd L b0 segs hroute hcmd hnode hscript
    obtain ⟨segs1, hr, hflat⟩ := recv_header_block L b0 segs []
    simp only [List.append_nil] at hr
    have h := handle_downltar_remote env tar cmd e s port nd (encodeLong L)
      (segs1.map Ev.data) hroute hcmd hnode (by rw [hscript, hr])
    constructor
    · intro hz
      subst hz
      rw [if_pos (decode_encodeLong 0 (by norm_num) (by norm_num))] at h
      exact ⟨_, h, rfl⟩
    · intro hpos hlt hlen
      have hdec : decodeLong (encodeLong L) = L := decode_encodeLong L (by omega) hlt
      rw [hdec, if_neg (by omega)] at h
      refine ⟨_, h, ?_⟩
      have := relay_loop_data L.toNat segs1 L 0 (s.cout ++ [encodeLong L])
        (by rw [hflat]; omega) (by rw [hflat]; omega)
      simp only [St.client_bytes, this, hflat]
      simp

/-- An empty and a filled `cfiles.tar`, a node that announces the size 0, and a node that
sends the size 5 with `he` and then `llo`. -/
theorem tar_reply_by_size_witness :
    (∃ s1, handle_downltar ex_env ⟨some [], none⟩ "downltar .c".toList (ex_st []) = .ok s1 ∧
      s1.cout = ["No .c files found to create tar archive.\n".toList]) ∧
    (∃ s1, handle_downltar ex_env ⟨some "tarbytes".toList, none⟩ "downltar .c".toList
        (ex_st []) = .ok s1 ∧
      s1.client_bytes = encodeLong 8 ++ "tarbytes".toList) ∧
    (∃ s1, handle_downltar (ex_env.with_node 7100 (some (script_node
        [Ev.data (encodeLong 0)]))) ⟨none, none⟩ "downltar .pdf".toList (ex_st []) = .ok s1 ∧
      s1.cout = ["No files found to create tar archive.\n".toList]) ∧
    (∃ s1, handle_downltar (ex_env.with_node 7200 (some (script_node
        [Ev.data (encodeLong 5 ++ "he".toList), Ev.data "llo".toList]))) ⟨none, none⟩
        "downltar .txt".toList (ex_st []) = .ok s1 ∧
      s1.client_bytes = encodeLong 5 ++ "hello".toList) :=
  ⟨((tar_reply_by_size ex_env ⟨some [], none⟩ "downltar .c".toList (ex_st [])).1
      (by decide) [] rfl).1 rfl,
   ((tar_reply_by_size ex_env ⟨some "tarbytes".toList, none⟩ "downltar .c".toList
      (ex_st [])).1 (by decide) "tarbytes".toList rfl).2 (by decide),
   ((tar_reply_by_size (ex_env.with_node 7100 (some (script_node [Ev.data (encodeLong 0)])))
      ⟨none, none⟩ "downltar .pdf".toList (ex_st [])).2 ".pdf".toList 7100
      (script_node [Ev.data (encodeLong 0)]) 0 [] [] (by decide) (by decide) rfl
      (by simp [script_node])).1 rfl,
   ((tar_reply_by_size (ex_env.with_node 7200 (some (script_node
        [Ev.data (encodeLong 5 ++ "he".toList), Ev.data "llo".toList])))
      ⟨none, none⟩ "downltar .txt".toList (ex_st [])).2 ".txt".toList 7200
      (script_node [Ev.data (encodeLong 5 ++ "he".toList), Ev.data "llo".toList]) 5
      "he".toList ["llo".toList] (by decide) (by decide) rfl
      (by simp [script_node])).2 (by decide) (by decide) (by decide)⟩

/-! ### The owner of a file type in each operation -/

theorem owner_cases (e : Str) :
    (e = ".c".toList ∧ owner e = .here) ∨
    (∃ port marker, (e, port, marker) ∈ [(".pdf".toList, 7100, "~S2".toList),
        (".txt".toList, 7200, "~S3".toList), (".zip".toList, 7300, "~S4".toList)] ∧
      owner e = .node port marker) ∨
    (e ∉ [".c".toList, ".pdf".toList, ".txt".toList, ".zip".toList] ∧
      owner e = .unsupported) := by
  by_cases h1 : e = ".c".toList
  · subst h1; exact Or.inl ⟨rfl, rfl⟩
  by_cases h2 : e = ".pdf".toList
  · subst h2; exact Or.inr (Or.inl ⟨7100, "~S2".toList, by decide, rfl⟩)
  by_cases h3 : e = ".txt".toList
  · subst h3; exact Or.inr (Or.inl ⟨7200, "~S3".toList, by decide, rfl⟩)
  by_cases h4 : e = ".zip".toList
  · subst h4; exact Or.inr (Or.inl ⟨7300, "~S4".toList, by decide, rfl⟩)
  refine Or.inr (Or.inr ⟨?_, ?_⟩)
  · simp only [List.mem_cons, List.mem_singleton, List.not_mem_nil, or_false, not_or]
    exact ⟨h1, h2, h3, h4⟩
  · simp only [owner, if_neg h1, if_neg h2, if_neg h3, if_neg h4]

theorem route_port (e marker : Str) (port : Nat)
    (hroute : (e, port, marker) ∈ [(".pdf".toList, 7100, "~S2".toList),
      (".txt".toList, 7200, "~S3".toList), (".zip".toList, 7300, "~S4".toList)]) :
    port = 7100 ∨ port = 7200 ∨ port = 7300 := by
  simp only [List.mem_cons, Prod.mk.injEq, List.mem_singleton, List.not_mem_nil, or_false]
    at hroute
  rcases hroute with ⟨_, rfl, _⟩ | ⟨_, rfl, _⟩ | ⟨_, rfl, _⟩ <;> simp

/-- The connections `handle_download` opens, by the owner of the suffix of the path. -/
theorem handle_download_owner (env : Env) (s : St) (cmd p e : Str) (hnul : NUL ∉ e)
    (hnodes : ∀ q, q = 7100 ∨ q = 7200 ∨ q = 7300 → env.node q ≠ none)
    (hcmd : sscanf1 "downlf".toList cmd = some p)
    (hp : p.length < 512) (hext : strrchr p '.' = some e) :
    ∃ s1, handle_download env cmd s = .ok s1 ∧
      s1.conns = s.conns ++ (owner e).opens (fun m =>
        [("downlf ".toList ++ (m ++ p.drop 3)).take 511]) := by
  rcases owner_cases e with ⟨he, ho⟩ | ⟨port, marker, hroute, ho⟩ | ⟨hun, ho⟩
  · subst he
    have h1 : ¬ 512 ≤ p.length := by omega
    have hc : strcmp ".c".toList ".c".toList = 0 := by decide
    unfold handle_download
    simp only [hcmd, if_neg h1, hext, if_pos hc]
    cases s.fs (snprintf 512 (env.home ++ "/".toList ++ p.drop 1)) with
    | none => exact ⟨_, rfl, by rw [ho]; simp [Target.opens, St.send]⟩
    | some c => exact ⟨_, rfl, by rw [ho]; simp [Target.opens]⟩
  · cases hn : env.node port with
    | none => exact absurd hn (hnodes port (route_port e marker port hroute))
    | some nd =>
      obtain ⟨s1, h, hc⟩ := download_command_sent env s cmd p e marker port nd hroute hcmd hp
        hext hn
      exact ⟨s1, h, by rw [ho, hc]; simp [Target.opens]⟩
  · have h := handle_download_unsupported env s cmd p hcmd hp
      (fun e1 he1 => by
        rw [hext] at he1; injection he1 with he1; subst he1; exact ⟨hnul, hun⟩)
    exact ⟨_, h, by rw [ho]; simp [Target.opens, St.send]⟩

/-- The connections `handle_remove` opens, by the owner of the suffix of the path. -/
theorem handle_remove_owner (env : Env) (s : St) (cmd p e : Str) (hnul : NUL ∉ e)
    (hnodes : ∀ q, q = 7100 ∨ q = 7200 ∨ q = 7300 → env.node q ≠ none)
    (hcmd : sscanf1 "removef".toList cmd = some p)
    (hp : p.length < 512) (hext : strrchr p '.' = some e) :
    handle_remove env cmd s = .ub ∨
    ∃ s1, handle_remove env cmd s = .ok s1 ∧
      s1.conns = s.conns ++ (owner e).opens (fun m =>
        [("removef ".toList ++ (m ++ p.drop 3)).take 511]) := by
  rcases owner_cases e with ⟨he, ho⟩ | ⟨port, marker, hroute, ho⟩ | ⟨hun, ho⟩
  · subst he
    have h1 : ¬ 512 ≤ p.length := by omega
    have hc : strcmp ".c".toList ".c".toList = 0 := by decide
    right
    unfold handle_remove
    simp only [hcmd, if_neg h1, hext, if_pos hc]
    cases s.fs (snprintf 512 (env.home ++ "/".toList ++ p.drop 1)) with
    | none => exact ⟨_, rfl, by rw [ho]; simp [Target.opens, St.send]⟩
    | some c => exact ⟨_, rfl, by rw [ho]; simp [Target.opens, St.send]⟩
  · cases hn : env.node port with
    | none => exact absurd hn (hnodes port (route_port e marker port hroute))
    | some nd =>
      have h := handle_remove_remote env s cmd p e marker port nd hroute hcmd hp hext hn
      split_ifs at h
      · exact Or.inl h
      · exact Or.inr ⟨_, h, by rw [ho]; simp [Target.opens]⟩
  · have h := (handle_remove_unsupported env s cmd p hcmd hp).2 e hext hnul hun
    exact Or.inr ⟨_, h, by rw [ho]; simp [Target.opens, St.send]⟩

/-- The connection `handle_downltar` opens for `.pdf` and `.txt`. -/
theorem handle_downltar_conns (env : Env) (tar : TarRun) (cmd e : Str) (s : St)
    (port : Nat) (nd : Node)
    (hroute : (e, port) ∈ [(".pdf".toList, 7100), (".txt".toList, 7200)])
    (hcmd : sscanf1 "downltar".toList cmd = some e)
    (hnode : env.node port = some nd) :
    handle_downltar env tar cmd s = .ub ∨
    ∃ s1, handle_downltar env tar cmd s = .ok s1 ∧
      s1.conns = s.conns ++ [⟨port, true, ["downltar ".toList ++ e]⟩] := by
  simp only [List.mem_cons, Prod.mk.injEq, List.mem_singleton, List.not_mem_nil, or_false]
    at hroute
  rcases hroute with ⟨rfl, rfl⟩ | ⟨rfl, rfl⟩
  · have hs : snprintf 32 ("downltar ".toList ++ ".pdf".toList)
        = "downltar ".toList ++ ".pdf".toList := by decide
    unfold handle_downltar
    simp only [hcmd]
    rw [if_neg (by decide), if_neg (by decide), if_pos (by decide)]
    simp only [if_pos (show strcmp ".pdf".toList ".pdf".toList = 0 by decide), hnode, hs]
    generalize recv 8 (nd s.fs ["downltar ".toList ++ ".pdf".toList]).2 = r
    obtain ⟨n, hdr, inp1⟩ := r
    simp only
    split_ifs
    · exact Or.inr ⟨_, rfl, rfl⟩
    · exact Or.inl rfl
    · exact Or.inr ⟨_, rfl, rfl⟩
    · exact Or.inr ⟨_, rfl, rfl⟩
  · have hs : snprintf 32 ("downltar ".toList ++ ".txt".toList)
        = "downltar ".toList ++ ".txt".toList := by decide
    unfold handle_downltar
    simp only [hcmd]
    rw [if_neg (by decide), if_neg (by decide), if_pos (by decide)]
    simp only [if_neg (show ¬ strcmp ".txt".toList ".pdf".toList = 0 by decide), hnode, hs]
    generalize recv 8 (nd s.fs ["downltar ".toList ++ ".txt".toList]).2 = r
    obtain ⟨n, hdr, inp1⟩ := r
    simp only
    split_ifs
    · exact Or.inr ⟨_, rfl, rfl⟩
    · exact Or.inl rfl
    · exact Or.inr ⟨_, rfl, rfl⟩
    · exact Or.inr ⟨_, rfl, rfl⟩

/-- The connections `handle_downltar` opens for a type other than `.zip`, by the owner of
the type. -/
theorem handle_downltar_owner (env : Env) (tar : TarRun) (s : St) (cmd e : Str)
    (hnul : NUL ∉ e) (hzip : e ≠ ".zip".toList)
    (hnodes : ∀ q, q = 7100 ∨ q = 7200 ∨ q = 7300 → env.node q ≠ none)
    (hcmd : sscanf1 "downltar".toList cmd = some e) :
    handle_downltar env tar cmd s = .ub ∨
    ∃ s1, handle_downltar env tar cmd s = .ok s1 ∧
      s1.conns = s.conns ++ (owner e).opens (fun _ => ["downltar ".toList ++ e]) := by
  rcases owner_cases e with ⟨he, ho⟩ | ⟨port, marker, hroute, ho⟩ | ⟨hun, ho⟩
  · subst he
    obtain ⟨h1, h2, h3⟩ := handle_downltar_local env tar cmd s hcmd
    right
    cases ha : tar.archive with
    | none =>
      obtain ⟨s1, a, _, c⟩ := h1 ha
      exact ⟨s1, a, by rw [ho, c]; simp [Target.opens]⟩
    | some content =>
      by_cases hz : content.length = 0
      · obtain ⟨s1, a, _, c⟩ := h2 content ha hz
        exact ⟨s1, a, by rw [ho, c]; simp [Target.opens]⟩
      · obtain ⟨s1, a, _, c⟩ := h3 content ha (by omega)
        exact ⟨s1, a, by rw [ho, c]; simp [Target.opens]⟩
  · have hr2 : (e, port) ∈ [(".pdf".toList, 7100), (".txt".toList, 7200)] := by
      simp only [List.mem_cons, Prod.mk.injEq, List.mem_singleton, List.not_mem_nil,
        or_false] at hroute ⊢
      rcases hroute with ⟨a, b, _⟩ | ⟨a, b, _⟩ | ⟨a, _, _⟩
      · exact Or.inl ⟨a, b⟩
      · exact Or.inr ⟨a, b⟩
      · exact absurd a hzip
    cases hn : env.node port with
    | none => exact absurd hn (hnodes port (route_port e marker port hroute))
    | some nd =>
      rcases handle_downltar_conns env tar cmd e s port nd hr2 hcmd hn with h | ⟨s1, a, c⟩
      · exact Or.inl h
      · exact Or.inr ⟨s1, a, by rw [ho, c]; simp [Target.opens]⟩
  · by_cases hl : e.length < 10
    · obtain ⟨c1, c2, c3, _⟩ := strcmp_unsupported e hnul hun
      exact Or.inr ⟨_, handle_downltar_other env tar cmd e s hcmd hl c1 c2 c3,
        by rw [ho]; simp [Target.opens, St.send]⟩
    · left
      unfold handle_downltar
      simp only [hcmd, if_pos (show 10 ≤ e.length by omega)]

theorem cstr_is_start (bs : List Char) : cstr bs <+: bs := by
  unfold cstr
  exact List.takeWhile_prefix _

/-- A test of `prcclient` matches only a buffer that begins with the prefix. -/
theorem strncmp_start (buffer pre : Str) (hn : NUL ∉ pre)
    (h : strncmp buffer pre pre.length = 0) : pre <+: buffer := by
  have h1 := (strncmp_eq_zero_iff pre hn pre.length buffer (le_refl _)).mp h
  rw [List.take_length] at h1
  rw [← h1]
  exact List.take_prefix _ _

/-- A text that begins with none of the five prefixes goes to the last `else`. -/
theorem dispatch_invalid (data : List Char)
    (h : ∀ pre ∈ ["uploadf ".toList, "downlf ".toList, "removef ".toList,
      "downltar ".toList, "dispfnames ".toList], ¬ pre <+: data) :
    dispatch (cstr data) = .invalid := by
  have key : ∀ pre ∈ ["uploadf ".toList, "downlf ".toList, "removef ".toList,
      "downltar ".toList, "dispfnames ".toList], NUL ∉ pre →
      strncmp (cstr data) pre pre.length ≠ 0 := by
    intro pre hp hn h0
    exact h pre hp ((strncmp_start _ _ hn h0).trans (cstr_is_start data))
  have k1 : strncmp (cstr data) "uploadf ".toList 8 ≠ 0 :=
    key "uploadf ".toList (by simp) (by decide)
  have k2 : strncmp (cstr data) "downlf ".toList 7 ≠ 0 :=
    key "downlf ".toList (by simp) (by decide)
  have k3 : strncmp (cstr data) "removef ".toList 8 ≠ 0 :=
    key "removef ".toList (by simp) (by decide)
  have k4 : strncmp (cstr data) "downltar ".toList 9 ≠ 0 :=
    key "downltar ".toList (by simp) (by decide)
  have k5 : strncmp (cstr data) "dispfnames ".toList 11 ≠ 0 :=
    key "dispfnames ".toList (by simp) (by decide)
  unfold dispatch
  rw [if_neg k1, if_neg k2, if_neg k3, if_neg k4, if_neg k5]

/-- The loop of `prcclient` returns only in a state in which `recv` gives 0 or less. -/
theorem prcclient_ends (env : Env) (tar : FS → TarRun) :
    ∀ (fuel : Nat) (s s1 : St), prcclient fuel env tar s = .ok s1 →
      (recv (BUFSIZE - 1) s1.cin).1 ≤ 0 := by
  intro fuel
  induction fuel with
  | zero => intro s s1 h; simp [prcclient] at h
  | succ fuel ih =>
    intro s s1 h
    rw [prcclient] at h
    cases hp : prcclient_pass env tar s with
    | none =>
      rw [hp] at h
      injection h with h
      subst h
      unfold prcclient_pass at hp
      by_contra hc
      simp only [if_neg hc] at hp
      cases hp
    | some r =>
      rw [hp] at h
      cases r with
      | ok s2 => exact ih s2 s1 h
      | hang => cases h
      | ub => cases h

/-- Claim C21: a command text that begins with none of `uploadf `, `downlf `, `removef `,
`downltar `, `dispfnames ` is answered `Invalid command.` and nothing else changes: no
handler runs, and the next pass of the loop reads the next command.  A pass leaves the
loop exactly when `recv` returns 0 or less, and `prcclient` returns only in such a
state. -/
theorem invalid_command_answered (env : Env) (tar : FS → TarRun) (s : St) (bytes : Int)
    (data : List Char) (cin1 : List Ev)
    (hrecv : recv (BUFSIZE - 1) s.cin = (bytes, data, cin1)) (hpos : 0 < bytes)
    (hpre : ∀ pre ∈ ["uploadf ".toList, "downlf ".toList, "removef ".toList,
      "downltar ".toList, "dispfnames ".toList], ¬ pre <+: data) :
    prcclient_pass env tar s = some (.ok
      { fs := s.fs, cin := cin1, cout := s.cout ++ ["Invalid command.\n".toList],
        conns := s.conns }) ∧
    (∀ fuel, prcclient (fuel + 1) env tar s = prcclient fuel env tar
      { fs := s.fs, cin := cin1, cout := s.cout ++ ["Invalid command.\n".toList],
        conns := s.conns }) ∧
    (∀ t : St, prcclient_pass env tar t = none ↔ (recv (BUFSIZE - 1) t.cin).1 ≤ 0) ∧
    (∀ (fuel : Nat) (t t1 : St), prcclient fuel env tar t = .ok t1 →
      (recv (BUFSIZE - 1) t1.cin).1 ≤ 0) := by
  have hpass : prcclient_pass env tar s = some (.ok
      { fs := s.fs, cin := cin1, cout := s.cout ++ ["Invalid command.\n".toList],
        conns := s.conns }) := by
    unfold prcclient_pass
    rw [hrecv]
    simp only [if_neg (not_le.mpr hpos), dispatch_invalid data hpre, run_handler]
    rfl
  refine ⟨hpass, ?_, ?_, prcclient_ends env tar⟩
  · intro fuel
    rw [prcclient, hpass]
  · intro t
    unfold prcclient_pass
    by_cases hc : (recv (BUFSIZE - 1) t.cin).1 ≤ 0
    · simp [hc]
    · simp [hc]

/-- The texts `hello` and `downlf` (no space after the word), then the client closes: two
replies `Invalid command.`, no connection to a node, and `prcclient` returns. -/
theorem invalid_command_answered_witness :
    prcclient_pass ex_env (fun _ => ⟨none, none⟩)
        (ex_st [Ev.data "hello".toList, Ev.data "downlf".toList])
      = some (.ok
          { fs := (ex_st []).fs, cin := [Ev.data "downlf".toList],
            cout := ["Invalid command.\n".toList], conns := [] }) ∧
    (prcclient 3 ex_env (fun _ => ⟨none, none⟩)
        (ex_st [Ev.data "hello".toList, Ev.data "downlf".toList])).map
        (fun s1 => (s1.cout, s1.conns, s1.cin))
      = .ok (["Invalid command.\n".toList, "Invalid command.\n".toList], [], []) :=
  ⟨(invalid_command_answered ex_env (fun _ => ⟨none, none⟩)
      (ex_st [Ev.data "hello".toList, Ev.data "downlf".toList]) 5 "hello".toList
      [Ev.data "downlf".toList] (by decide) (by decide) (by decide)).1,
   by decide⟩

/-! ### The dispatch of `prcclient` -/

/-- A test that matches fixes the first six characters of the buffer. -/
theorem match_take_six (buffer : Str) (t : Str × Nat × Handler) (ht : t ∈ tests_in_order)
    (h : strncmp buffer t.1 t.2.1 = 0) : buffer.take 6 = t.1.take 6 := by
  have key : ∀ (pre : Str) (n : Nat), NUL ∉ pre → n ≤ pre.length → 6 ≤ n →
      strncmp buffer pre n = 0 → buffer.take 6 = pre.take 6 := by
    intro pre n hn hle h6 h0
    have h1 := (strncmp_eq_zero_iff pre hn n buffer hle).mp h0
    have h2 := congrArg (List.take 6) h1
    rw [List.take_take, List.take_take, Nat.min_eq_left h6] at h2
    exact h2
  simp only [tests_in_order, List.mem_cons, List.mem_singleton, List.not_mem_nil,
    or_false] at ht
  rcases ht with rfl | rfl | rfl | rfl | rfl
  · exact key _ _ (by decide) (by decide) (by decide) h
  · exact key _ _ (by decide) (by decide) (by decide) h
  · exact key _ _ (by decide) (by decide) (by decide) h
  · exact key _ _ (by decide) (by decide) (by decide) h
  · exact key _ _ (by decide) (by decide) (by decide) h

theorem tests_differ_in_six : ∀ t1 ∈ tests_in_order, ∀ t2 ∈ tests_in_order,
    t1.1.take 6 = t2.1.take 6 → t1 = t2 := by
  decide

theorem match_unique (buffer : Str) : ∀ t1 ∈ tests_in_order, ∀ t2 ∈ tests_in_order,
    strncmp buffer t1.1 t1.2.1 = 0 → strncmp buffer t2.1 t2.2.1 = 0 → t1 = t2 := by
  intro t1 h1 t2 h2 m1 m2
  exact tests_differ_in_six t1 h1 t2 h2
    ((match_take_six buffer t1 h1 m1).symm.trans (match_take_six buffer t2 h2 m2))

theorem find_unique {α : Type} (p : α → Bool) (t : α) : ∀ l : List α, t ∈ l → p t = true →
    (∀ x ∈ l, p x = true → x = t) → l.find? p = some t := by
  intro l
  induction l with
  | nil => intro h; simp at h
  | cons a r ih =>
    intro ht hp hu
    by_cases ha : p a = true
    · have := hu a (List.mem_cons_self _ _) ha
      subst this
      simp [List.find?, ha]
    · have hne : t ≠ a := fun e => ha (e ▸ hp)
      have htr : t ∈ r := by
        rcases List.mem_cons.mp ht with h | h
        · exact absurd h hne
        · exact h
      simp only [List.find?, Bool.not_eq_true] at ha ⊢
      rw [ha]
      exact ih htr hp (fun x hx => hu x (List.mem_cons_of_mem _ hx))

/-- The branch chosen is the same for every order of the five tests. -/
theorem first_match_perm (buffer : Str) (l : List (Str × Nat × Handler))
    (hl : l.Perm tests_in_order) :
    first_match l buffer = first_match tests_in_order buffer := by
  unfold first_match
  by_cases hex : ∃ t ∈ tests_in_order, strncmp buffer t.1 t.2.1 = 0
  · obtain ⟨t, ht, hm⟩ := hex
    have hu : ∀ x ∈ tests_in_order,
        (decide (strncmp buffer x.1 x.2.1 = 0)) = true → x = t := by
      intro x hx hp
      exact match_unique buffer x hx t ht (by simpa using hp) hm
    rw [find_unique _ t tests_in_order ht (by simpa using hm) hu,
      find_unique _ t l (hl.mem_iff.mpr ht) (by simpa using hm)
        (fun x hx hp => hu x (hl.mem_iff.mp hx) hp)]
  · have hn : ∀ x ∈ tests_in_order, ¬ (decide (strncmp buffer x.1 x.2.1 = 0)) = true := by
      intro x hx hp
      exact hex ⟨x, hx, by simpa using hp⟩
    rw [List.find?_eq_none.mpr hn,
      List.find?_eq_none.mpr (fun x hx => hn x (hl.mem_iff.mp hx))]

/-- The chain of tests of `prcclient` is the first match in the order of the source. -/
theorem dispatch_first_match (buffer : Str) :
    dispatch buffer = first_match tests_in_order buffer := by
  unfold dispatch first_match tests_in_order
  simp only [List.find?]
  by_cases h1 : strncmp buffer "uploadf ".toList 8 = 0
  · simp only [h1, if_true, decide_True]
  by_cases h2 : strncmp buffer "downlf ".toList 7 = 0
  · simp only [h1, h2, if_true, if_false, decide_True, decide_False]
  by_cases h3 : strncmp buffer "removef ".toList 8 = 0
  · simp only [h1, h2, h3, if_true, if_false, decide_True, decide_False]
  by_cases h4 : strncmp buffer "downltar ".toList 9 = 0
  · simp only [h1, h2, h3, h4, if_true, if_false, decide_True, decide_False]
  by_cases h5 : strncmp buffer "dispfnames ".toList 11 = 0
  · simp only [h1, h2, h3, h4, h5, if_true, if_false, decide_True, decide_False]
  · simp only [h1, h2, h3, h4, h5, if_false, decide_False]

/-- A command word alone, without the space after it, arrives as one block: the pass of
the loop answers `Invalid command.` -/
theorem word_alone_invalid (env : Env) (tar : FS → TarRun) (s : St) (w : Str)
    (rest : List Ev)
    (hw : w ∈ ["uploadf".toList, "downlf".toList, "removef".toList, "downltar".toList,
      "dispfnames".toList])
    (hin : s.cin = Ev.data w :: rest) :
    dispatch w = .invalid ∧
    prcclient_pass env tar s = some (.ok
      { fs := s.fs, cin := rest, cout := s.cout ++ ["Invalid command.\n".toList],
        conns := s.conns }) := by
  have hd : dispatch w = .invalid ∧ cstr w = w ∧
      recv (BUFSIZE - 1) (Ev.data w :: rest) = ((w.length : Int), w, rest) ∧
      ¬ ((w.length : Int) ≤ 0) := by
    simp only [List.mem_cons, List.mem_singleton, List.not_mem_nil, or_false] at hw
    rcases hw with rfl | rfl | rfl | rfl | rfl <;>
      exact ⟨by decide, by decide, by simp [recv, BUFSIZE], by decide⟩
  obtain ⟨h1, h2, h3, h4⟩ := hd
  refine ⟨h1, ?_⟩
  unfold prcclient_pass
  rw [hin, h3]
  simp only [if_neg h4, h2, h1, run_handler]
  rfl

/-- Claim C30: at most one of the five tests of `prcclient` matches a buffer, so the
branch taken is the same for every order in which the tests are tried; and a command word
without the space after it matches none and is answered `Invalid command.` -/
theorem dispatch_unambiguous (buffer : Str) :
    (∀ t1 ∈ tests_in_order, ∀ t2 ∈ tests_in_order,
      strncmp buffer t1.1 t1.2.1 = 0 → strncmp buffer t2.1 t2.2.1 = 0 → t1 = t2) ∧
    dispatch buffer = first_match tests_in_order buffer ∧
    (∀ l : List (Str × Nat × Handler), l.Perm tests_in_order →
      first_match l buffer = dispatch buffer) ∧
    (∀ w ∈ ["uploadf".toList, "downlf".toList, "removef".toList, "downltar".toList,
        "dispfnames".toList],
      dispatch w = .invalid ∧
      ∀ (env : Env) (tar : FS → TarRun) (s : St) (rest : List Ev),
        s.cin = Ev.data w :: rest →
        prcclient_pass env tar s = some (.ok
          { fs := s.fs, cin := rest, cout := s.cout ++ ["Invalid command.\n".toList],
            conns := s.conns })) := by
  refine ⟨match_unique buffer, dispatch_first_match buffer, ?_, ?_⟩
  · intro l hl
    rw [first_match_perm buffer l hl, dispatch_first_match]
  · intro w hw
    refine ⟨(word_alone_invalid ex_env (fun _ => ⟨none, none⟩) (ex_st [Ev.data w]) w [] hw
      rfl).1, ?_⟩
    intro env tar s rest hin
    exact (word_alone_invalid env tar s w rest hw hin).2

/-- The text `downltar` alone, and the tests of `downltar .pdf` tried in reverse order. -/
theorem dispatch_unambiguous_witness :
    dispatch "downltar".toList = .invalid ∧
    first_match tests_in_order.reverse "downltar .pdf".toList
      = dispatch "downltar .pdf".toList ∧
    dispatch "downltar .pdf".toList = .downltar :=
  ⟨((dispatch_unambiguous "downltar .pdf".toList).2.2.2 "downltar".toList (by decide)).1,
   (dispatch_unambiguous "downltar .pdf".toList).2.2.1 tests_in_order.reverse
     (List.reverse_perm _),
   by decide⟩

/-! ### The receive loop of `handle_upload` -/

/-- The receive loop on a stream in which the payload ends with a block: the payload is
taken, and what follows it stays in the stream. -/
theorem recv_loop_exact (rest : List Ev) :
    ∀ (fuel : Nat) (segs : List (List Char)) (filesize received : Int) (acc : List Char),
      filesize - received = (segs.flatten.length : Int) → segs.flatten.length ≤ fuel →
      ∃ segs0 : List (List Char), segs0.flatten = [] ∧
        recv_loop fuel filesize received acc (segs.map Ev.data ++ rest)
          = .ok (acc ++ segs.flatten, segs0.map Ev.data ++ rest) := by
  intro fuel
  induction fuel with
  | zero =>
    intro segs filesize received acc _ h2
    have : segs.flatten = [] := List.length_eq_zero.mp (by omega)
    exact ⟨segs, this, by simp [recv_loop, this]⟩
  | succ fuel ih =>
    intro segs filesize received acc h1 h2
    by_cases hlt : received < filesize
    · have hne : segs.flatten ≠ [] := by
        intro h0; rw [h0] at h1; simp at h1; omega
      obtain ⟨d, segs1, e1, e2, e3, e4⟩ := recv_data BUFSIZE (by decide) rest segs hne
      have hd : 0 < d.length := List.length_pos.mpr e3
      have hlen : segs.flatten.length = d.length + segs1.flatten.length := by
        rw [← e2]; simp
      obtain ⟨segs0, h0, hi⟩ := ih segs1 filesize (received + d.length) (acc ++ d)
        (by omega) (by omega)
      refine ⟨segs0, h0, ?_⟩
      rw [recv_loop, if_pos hlt, e1]
      simp only
      rw [if_neg (by omega), if_neg (by omega), hi, ← e2]
      simp
    · have : segs.flatten = [] := List.length_eq_zero.mp (by omega)
      exact ⟨segs, this, by simp [recv_loop, hlt, this]⟩

/-- Claim C22 (amended): the client declares the size `L > 0` and the `L` bytes of the
payload arrive in blocks of any sizes, the last of which ends with the last byte of the
payload.  The receive loop of `handle_upload` takes these `L` bytes and leaves what
follows them in the stream; for a `.c` file the file written holds exactly them. -/
theorem upload_takes_payload (env : Env) (s : St) (cmd f d : Str)
    (segs : List (List Char)) (rest : List Ev)
    (hcmd : sscanf2 "uploadf".toList cmd = (some f, some d))
    (hf : f.length < 256) (hd : d.length < 512)
    (hext : strrchr f '.' = some ".c".toList)
    (hdest : d.take 3 = "~S1".toList)
    (hpos : 0 < segs.flatten.length) (hN : (segs.flatten.length : Int) < 2 ^ 63)
    (hin : s.cin = Ev.data (encodeLong segs.flatten.length) :: (segs.map Ev.data ++ rest))
    (hc : env.canCreate (snprintf BUFSIZE
      (env.home ++ "/".toList ++ d.drop 1 ++ "/".toList ++ f)) = true) :
    (∃ segs0 : List (List Char), segs0.flatten = [] ∧
      recv_loop segs.flatten.length segs.flatten.length 0 [] (segs.map Ev.data ++ rest)
        = .ok (segs.flatten, segs0.map Ev.data ++ rest)) ∧
    ∃ (s1 : St) (segs0 : List (List Char)), segs0.flatten = [] ∧
      handle_upload env cmd s = .ok s1 ∧
      s1.fs (snprintf BUFSIZE (env.home ++ "/".toList ++ d.drop 1 ++ "/".toList ++ f))
        = some segs.flatten ∧
      s1.cin = segs0.map Ev.data ++ rest ∧
      s1.cout = s.cout ++ ["File stored successfully.\n".toList] := by
  obtain ⟨segs0, h0, hloop⟩ := recv_loop_exact rest segs.flatten.length segs
    segs.flatten.length 0 [] (by simp) (le_refl _)
  simp only [List.nil_append] at hloop
  refine ⟨⟨segs0, h0, hloop⟩, ?_⟩
  have h1 : ¬ (256 ≤ f.length ∨ 512 ≤ d.length) := by omega
  have h2 : ¬ strncmp d "~S1".toList 3 ≠ 0 := fun h => h ((strncmp_S1 d).mpr hdest)
  have hdec : decodeLong (encodeLong segs.flatten.length) = segs.flatten.length :=
    decode_encodeLong _ (by omega) hN
  have hx : ext_is (some ".c".toList) ".c".toList = true := by decide
  have hu : handle_upload env cmd s = .ok
      { fs := s.fs.write (snprintf BUFSIZE
          (env.home ++ "/".toList ++ d.drop 1 ++ "/".toList ++ f)) segs.flatten,
        cin := segs0.map Ev.data ++ rest,
        cout := s.cout ++ ["File stored successfully.\n".toList],
        conns := s.conns } := by
    unfold handle_upload
    rw [hcmd]
    simp only [if_neg h1, if_neg h2, hin, recv_header, hdec, hext, hx, hc, if_true,
      Int.toNat_ofNat, ne_eq, not_true_eq_false, if_false, hloop]
    rfl
  exact ⟨_, segs0, h0, hu, by simp [FS.write], rfl, rfl⟩

/-- The payload `hello` arrives as `he` and `llo`, and the next command is already in the
stream behind it: the file holds `hello` and the command is still to be read. -/
theorem upload_takes_payload_witness :
    ∃ (s1 : St) (segs0 : List (List Char)), segs0.flatten = [] ∧
      handle_upload ex_env "uploadf a.c ~S1/x".toList
        (ex_st [Ev.data (encodeLong 5), Ev.data "he".toList, Ev.data "llo".toList,
          Ev.data "downlf ~S1/x/a.c".toList]) = .ok s1 ∧
      s1.fs "/home/u/S1/x/a.c".toList = some "hello".toList ∧
      s1.cin = segs0.map Ev.data ++ [Ev.data "downlf ~S1/x/a.c".toList] ∧
      s1.cout = ["File stored successfully.\n".toList] :=
  (upload_takes_payload ex_env
    (ex_st [Ev.data (encodeLong 5), Ev.data "he".toList, Ev.data "llo".toList,
      Ev.data "downlf ~S1/x/a.c".toList])
    "uploadf a.c ~S1/x".toList "a.c".toList "~S1/x".toList ["he".toList, "llo".toList]
    [Ev.data "downlf ~S1/x/a.c".toList] (by decide) (by decide) (by decide) (by decide)
    (by decide) (by decide) (by decide) (by decide) rfl).2

/-- Counterexample to C22 as stated: the declared size is 5 and one read of 10 bytes
brings `hello` and the 5 bytes `EXTRA` that follow it.  The loop takes all 10 and the file
holds `helloEXTRA`. -/
theorem upload_takes_following_bytes :
    (handle_upload ex_env "uploadf a.c ~S1/x".toList
        (ex_st [Ev.data (encodeLong 5), Ev.data "helloEXTRA".toList])).map
      (fun s1 => (s1.fs "/home/u/S1/x/a.c".toList, s1.cin, s1.cout))
      = .ok (some "helloEXTRA".toList, [], ["File stored successfully.\n".toList]) := by
  decide

/-- Claim C23 (failing input): the client declares 5 bytes, sends `he` and closes.  The
loop of `handle_upload` gets 0 from every `recv` and never ends, for a `.c` file and for a
`.pdf` file; when the `recv` fails with -1 instead, `fwrite` is called with that count.
No error is reported to the client in any of these runs. -/
theorem upload_cut_short_never_ends :
    (handle_upload ex_env "uploadf a.c ~S1/x".toList
        (ex_st [Ev.data (encodeLong 5), Ev.data "he".toList])).map (fun _ => ())
      = .hang ∧
    (handle_upload ex_env "uploadf a.pdf ~S1/x".toList
        (ex_st [Ev.data (encodeLong 5), Ev.data "he".toList])).map (fun _ => ())
      = .hang ∧
    (handle_upload ex_env "uploadf a.c ~S1/x".toList
        (ex_st [Ev.data (encodeLong 5), Ev.data "he".toList, Ev.fail])).map (fun _ => ())
      = .ub := by
  decide

/-! ### The temporary path of an upload -/

theorem digitChar_value : ∀ k, k < 10 →
    (Nat.digitChar k).toNat - 48 = k ∧ Nat.digitChar k ≠ '_' := by
  decide

theorem toDigitsCore_value : ∀ (fuel n : Nat) (ds : List Char), n < fuel →
    (Nat.toDigitsCore 10 fuel n ds).foldl (fun acc c => 10 * acc + (c.toNat - 48)) 0
      = ds.foldl (fun acc c => 10 * acc + (c.toNat - 48)) n := by
  intro fuel
  induction fuel with
  | zero => intro n ds h; omega
  | succ fuel ih =>
    intro n ds h
    have hd := (digitChar_value (n % 10) (Nat.mod_lt _ (by decide))).1
    simp only [Nat.toDigitsCore]
    by_cases h0 : n / 10 = 0
    · rw [if_pos h0]
      have hn : n % 10 = n := Nat.mod_eq_of_lt (by omega)
      rw [hn] at hd
      simp only [List.foldl_cons, hn, hd, Nat.mul_zero, Nat.zero_add]
    · rw [if_neg h0, ih (n / 10) _ (by omega)]
      simp only [List.foldl_cons, hd]
      congr 1
      omega

/-- The decimal digits of a number give the number back. -/
theorem ofDigits_toDigits (n : Nat) : ofDigits (Nat.toDigits 10 n) = n := by
  unfold ofDigits Nat.toDigits
  rw [toDigitsCore_value (n + 1) n [] (by omega)]
  rfl

theorem toDigitsCore_no_underscore : ∀ (fuel n : Nat) (ds : List Char), '_' ∉ ds →
    '_' ∉ Nat.toDigitsCore 10 fuel n ds := by
  intro fuel
  induction fuel with
  | zero => intro n ds h; simpa [Nat.toDigitsCore] using h
  | succ fuel ih =>
    intro n ds h
    have hd := (digitChar_value (n % 10) (Nat.mod_lt _ (by decide))).2
    have h1 : '_' ∉ Nat.digitChar (n % 10) :: ds := by
      simp only [List.mem_cons, not_or]
      exact ⟨fun e => hd e.symm, h⟩
    simp only [Nat.toDigitsCore]
    by_cases h0 : n / 10 = 0
    · rw [if_pos h0]; exact h1
    · rw [if_neg h0]; exact ih _ _ h1

/-- Two strings cut at their first `_` are equal only part by part. -/
theorem split_at_underscore : ∀ (a b x y : Str), '_' ∉ a → '_' ∉ b →
    a ++ '_' :: x = b ++ '_' :: y → a = b ∧ x = y := by
  intro a
  induction a with
  | nil =>
    intro b x y _ hb h
    cases b with
    | nil => simpa using h
    | cons c b =>
      simp only [List.nil_append, List.cons_append, List.cons.injEq] at h
      exact absurd (List.mem_cons.mpr (Or.inl h.1)) hb
  | cons c a ih =>
    intro b x y ha hb h
    cases b with
    | nil =>
      simp only [List.nil_append, List.cons_append, List.cons.injEq] at h
      exact absurd (List.mem_cons.mpr (Or.inl h.1.symm)) ha
    | cons c2 b =>
      simp only [List.cons_append, List.cons.injEq] at h
      obtain ⟨r1, r2⟩ := ih b x y (fun m => ha (List.mem_cons_of_mem _ m))
        (fun m => hb (List.mem_cons_of_mem _ m)) h.2
      exact ⟨by rw [h.1, r1], r2⟩

theorem temp_path_whole (env : Env) (f : Str) (hp : env.pid < 2 ^ 31) (hf : f.length < 256) :
    temp_path env f
      = "/tmp/forwarded_".toList ++ (Nat.toDigits 10 env.pid ++ '_' :: f) := by
  have hl : (Nat.toDigits 10 env.pid).length ≤ 10 :=
    Nat.toDigitsCore_length 10 (by decide) _ _ 10 (by omega) (by decide)
  unfold temp_path
  rw [snprintf_fits]
  · simp
  · simp [BUFSIZE]
    omega

/-- Claim C24: the temporary paths `/tmp/forwarded_<pid>_<filename>` of two workers with
different process ids differ, whatever the two file names are. -/
theorem temp_path_unique (env1 env2 : Env) (f1 f2 : Str)
    (hpid : env1.pid ≠ env2.pid) (h1 : env1.pid < 2 ^ 31) (h2 : env2.pid < 2 ^ 31)
    (hf1 : f1.length < 256) (hf2 : f2.length < 256) :
    temp_path env1 f1 ≠ temp_path env2 f2 := by
  intro h
  rw [temp_path_whole env1 f1 h1 hf1, temp_path_whole env2 f2 h2 hf2] at h
  have h3 := List.append_cancel_left h
  have h4 : Nat.toDigits 10 env1.pid = Nat.toDigits 10 env2.pid :=
    (split_at_underscore _ _ _ _
      (toDigitsCore_no_underscore _ _ [] (by simp))
      (toDigitsCore_no_underscore _ _ [] (by simp)) h3).1
  have h5 := congrArg ofDigits h4
  rw [ofDigits_toDigits, ofDigits_toDigits] at h5
  exact hpid h5

/-- The workers 4242 and 42 with the file names `1_a.pdf` and `42_1_a.pdf`. -/
theorem temp_path_unique_witness :
    temp_path ex_env "1_a.pdf".toList
      ≠ temp_path { ex_env with pid := 42 } "42_1_a.pdf".toList :=
  temp_path_unique ex_env { ex_env with pid := 42 } "1_a.pdf".toList "42_1_a.pdf".toList
    (by decide) (by decide) (by decide) (by decide) (by decide)

/-! ### The suffix of a path and of its file name -/

theorem strrchr_of_mem (c : Char) : ∀ q : Str, c ∈ q → ∃ e, strrchr q c = some e := by
  intro q
  induction q with
  | nil => intro h; simp at h
  | cons a r ih =>
    intro h
    cases hr : strrchr r c with
    | some t => exact ⟨t, by simp [strrchr, hr]⟩
    | none =>
      have ha : a = c := by
        rcases List.mem_cons.mp h with h1 | h1
        · exact h1.symm
        · obtain ⟨e, he⟩ := ih h1
          rw [hr] at he
          cases he
      exact ⟨a :: r, by simp [strrchr, hr, ha]⟩

/-- Claim C25: for a destination `d` and a file name `f` with a `.` in it, the part of
`d/f` from its last `.` is the part of `f` from its last `.`, also when `d` has dots.  So
the fetch and the delete of `d/f` go to the owner of the suffix of `f`, the one the store
of `f` goes to. -/
theorem path_suffix_is_name_suffix (d f : Str) (hdot : '.' ∈ f) :
    strrchr (d ++ "/".toList ++ f) '.' = strrchr f '.' ∧
    ∀ e, strrchr f '.' = some e →
      strrchr (d ++ "/".toList ++ f) '.' = some e ∧
      ∀ (env : Env) (s : St), NUL ∉ e →
        (∀ q, q = 7100 ∨ q = 7200 ∨ q = 7300 → env.node q ≠ none) →
        (d ++ "/".toList ++ f).length < 512 →
        (∀ cmd, sscanf1 "downlf".toList cmd = some (d ++ "/".toList ++ f) →
          ∃ s1, handle_download env cmd s = .ok s1 ∧
            s1.conns = s.conns ++ (owner e).opens (fun m =>
              [("downlf ".toList ++ (m ++ (d ++ "/".toList ++ f).drop 3)).take 511])) ∧
        (∀ cmd, sscanf1 "removef".toList cmd = some (d ++ "/".toList ++ f) →
          handle_remove env cmd s = .ub ∨
          ∃ s1, handle_remove env cmd s = .ok s1 ∧
            s1.conns = s.conns ++ (owner e).opens (fun m =>
              [("removef ".toList ++ (m ++ (d ++ "/".toList ++ f).drop 3)).take 511])) := by
  obtain ⟨e0, he0⟩ := strrchr_of_mem '.' f hdot
  have hpath : ∀ e, strrchr f '.' = some e → strrchr (d ++ "/".toList ++ f) '.' = some e :=
    fun e he => strrchr_append _ _ _ _ he
  refine ⟨by rw [hpath e0 he0, he0], ?_⟩
  intro e he
  refine ⟨hpath e he, ?_⟩
  intro env s hnul hnodes hlen
  exact ⟨fun cmd hcmd => handle_download_owner env s cmd _ e hnul hnodes hcmd hlen (hpath e he),
    fun cmd hcmd => handle_remove_owner env s cmd _ e hnul hnodes hcmd hlen (hpath e he)⟩

/-- The destination `~S1/v1.2/docs` and the file name `report.pdf`. -/
theorem path_suffix_is_name_suffix_witness :
    strrchr ("~S1/v1.2/docs".toList ++ "/".toList ++ "report.pdf".toList) '.'
      = strrchr "report.pdf".toList '.' ∧
    strrchr "report.pdf".toList '.' = some ".pdf".toList :=
  ⟨(path_suffix_is_name_suffix "~S1/v1.2/docs".toList "report.pdf".toList (by decide)).1,
   by decide⟩

/-! ### The offset 3 of a path, and the buffers of a listing -/

/-- A string that `strcmp` finds equal to a literal is as long as the literal or
longer. -/
theorem strcmp_length_le : ∀ (b a : Str), NUL ∉ b → strcmp a b = 0 → b.length ≤ a.length := by
  intro b
  induction b with
  | nil => intro a _ _; simp
  | cons y u ih =>
    intro a hb h
    have hy : y ≠ NUL := fun e => hb (by simp [e])
    have hu : NUL ∉ u := fun e => hb (by simp [e])
    cases a with
    | nil =>
      simp only [strcmp] at h
      exact absurd (char_toNat_eq_zero (by omega)) hy
    | cons x s =>
      simp only [strcmp] at h
      by_cases hxy : x = y
      · subst hxy
        rw [if_pos rfl, if_neg hy] at h
        have := ih s hu h
        simp
        omega
      · rw [if_neg hxy] at h
        exact absurd h (char_sub_ne hxy)

/-- Where `handle_upload`, `handle_download` and `handle_remove` take a path from its
offset 3, the path has three characters or more: the destination begins with `~S1`, and
the path of a fetch or delete ends in a suffix of four characters. -/
theorem offset_three_inside (d p e : Str) :
    (strncmp d "~S1".toList 3 = 0 → 3 ≤ d.length) ∧
    (strrchr p '.' = some e →
      strcmp e ".pdf".toList = 0 ∨ strcmp e ".txt".toList = 0 ∨ strcmp e ".zip".toList = 0 →
      4 ≤ p.length) := by
  constructor
  · intro h
    have h1 := congrArg List.length ((strncmp_S1 d).mp h)
    simp at h1
    omega
  · intro hx he
    have hlen := strrchr_length_le '.' p e hx
    rcases he with h | h | h
    · exact le_trans (strcmp_length_le _ e (by decide) h) hlen
    · exact le_trans (strcmp_length_le _ e (by decide) h) hlen
    · exact le_trans (strcmp_length_le _ e (by decide) h) hlen

/-- Claim C26 (failing input): the command `dispfnames ~S` gives `handle_dispfnames` a
directory of 2 characters, and the function reads it from offset 3, past its terminator,
without any test of its length. -/
theorem listing_reads_past_short_path :
    sscanf1 "dispfnames".toList "dispfnames ~S".toList = some "~S".toList ∧
    ("~S".toList).length < 3 ∧
    (handle_dispfnames ex_env "dispfnames ~S".toList (ex_st [])).map (fun _ => ()) = .ub := by
  decide

/-- Claim C27: each of the four group strings of `handle_dispfnames` has at most 1023
characters, for every list of names it is built from, so the four together have at most
4092 and go with their terminator into the 4096 bytes of `final`. -/
theorem listing_groups_fit_final (env : Env) (cmd : Str) (s : St) (c p t z : Str) (s3 : St)
    (h : dispf_groups env cmd s = .ok (c, p, t, z, s3)) :
    c.length ≤ 1023 ∧ p.length ≤ 1023 ∧ t.length ≤ 1023 ∧ z.length ≤ 1023 ∧
    (c ++ p ++ t ++ z).length ≤ 4092 ∧ (c ++ p ++ t ++ z).length + 1 ≤ 4 * BUFSIZE ∧
    ∀ names : List Str, (cat_names names).length ≤ 1023 := by
  have hb : c.length ≤ 1023 ∧ p.length ≤ 1023 ∧ t.length ≤ 1023 ∧ z.length ≤ 1023 := by
    unfold dispf_groups at h
    cases hc : sscanf1 "dispfnames".toList cmd with
    | none => rw [hc] at h; cases h
    | some dirpath =>
      rw [hc] at h
      simp only at h
      split_ifs at h
      cases hl : dispf_lists env dirpath s with
      | hang => rw [hl] at h; cases h
      | ub => rw [hl] at h; cases h
      | ok l =>
        rw [hl] at h
        simp only [Res.map] at h
        injection h with h
        simp only [Prod.mk.injEq] at h
        obtain ⟨rfl, rfl, rfl, rfl, _⟩ := h
        exact ⟨cat_names_length _, cat_names_length _, cat_names_length _,
          cat_names_length _⟩
  obtain ⟨h1, h2, h3, h4⟩ := hb
  refine ⟨h1, h2, h3, h4, ?_, ?_, cat_names_length⟩
  · simp only [List.length_append]; omega
  · simp only [List.length_append, BUFSIZE]; omega

/-- The listing of `~S1/docs` in `ex_env_list`. -/
theorem listing_groups_fit_final_witness :
    ("a.c\nb.c\n".toList).length ≤ 1023 ∧ ("z.pdf\n".toList).length ≤ 1023 ∧
    ([] : Str).length ≤ 1023 ∧ ([] : Str).length ≤ 1023 ∧
    ("a.c\nb.c\n".toList ++ "z.pdf\n".toList ++ [] ++ []).length ≤ 4092 ∧
    ("a.c\nb.c\n".toList ++ "z.pdf\n".toList ++ [] ++ []).length + 1 ≤ 4 * BUFSIZE ∧
    ∀ names : List Str, (cat_names names).length ≤ 1023 :=
  listing_groups_fit_final ex_env_list "dispfnames ~S1/docs".toList (ex_st [])
    "a.c\nb.c\n".toList "z.pdf\n".toList [] [] ex_st_list rfl

/-- Claim C28 (failing input): a node answers a listing with 1024 bytes.  The `recv` of
at most `BUFSIZE` bytes returns 1024 and `collect_files_from_server` writes the
terminator at index 1024 of the buffer of 1024 bytes. -/
theorem terminator_written_past_buffer :
    (recv BUFSIZE [Ev.data (List.replicate 1024 'x')]).1 = 1024 ∧
    (collect_files_from_server
        (ex_env.with_node 7100 (some (script_node [Ev.data (List.replicate 1024 'x')])))
        "~S2/docs".toList 7100 [] (ex_st [])).map (fun _ => ()) = .ub ∧
    (handle_dispfnames
        (ex_env.with_node 7100 (some (script_node [Ev.data (List.replicate 1024 'x')])))
        "dispfnames ~S1/docs".toList (ex_st [])).map (fun _ => ()) = .ub := by
  refine ⟨by decide!, by decide!, by decide!⟩

/-- Claim C29: the first 8 bytes of each of the three texts `handle_downltar` sends in
place of a size, read as a size by `receive_file`, give a number above 0 and above the
count of the bytes left in the text.  The client does not end with the error for a size
of 0 or less: it writes the rest of the text as content and asks for more, and when the
stream ends there the download is incomplete. -/
theorem tar_text_read_as_size :
    ∀ msg ∈ ["No files found to create tar archive.\n".toList,
        "No .c files found to create tar archive.\n".toList,
        "Only .c, .pdf, and .txt file types are supported for tar.\n".toList],
      0 < decodeLong (msg.take 8) ∧
      ((msg.drop 8).length : Int) < decodeLong (msg.take 8) ∧
      receive_file true [Ev.data msg] = .ok (.incomplete (msg.drop 8)) ∧
      receive_file true [Ev.data msg] ≠ .ok .not_found := by
  decide

/-- The text `No files found to create tar archive.` read as a size. -/
theorem tar_text_read_as_size_witness :
    0 < decodeLong ("No files found to create tar archive.\n".toList.take 8) ∧
    (("No files found to create tar archive.\n".toList.drop 8).length : Int)
      < decodeLong ("No files found to create tar archive.\n".toList.take 8) ∧
    receive_file true [Ev.data "No files found to create tar archive.\n".toList]
      = .ok (.incomplete ("No files found to create tar archive.\n".toList.drop 8)) ∧
    receive_file true [Ev.data "No files found to create tar archive.\n".toList]
      ≠ .ok .not_found :=
  tar_text_read_as_size "No files found to create tar archive.\n".toList (by decide)

end DFS
